import Mathlib

/-!
# tadfish-engine: board state machine and move generation

A shallow embedding of `board.cpp` and `movegen.cpp`.

* C++ `int` values that may be negative (square indices of a move, the
  en-passant target, table entries, ray cursors) are `Int`; the loop counter
  `sq` of the generators runs over `0..63` and is a `Nat`.
* The two clocks are 32-bit `int` fields that `make_move` increments; the
  increment is taken modulo `2 ^ 32` (`wrap_int`).
* `Piece squares[64]` is a natural number whose base-13 digit `i` is the
  piece on square `i`, so that a position evaluates to a numeral.
* Reference parameters and the mutated `Board` are returned explicitly.
* The undo stack `history` is a list whose head is `history.back()`.
-/

namespace Tadfish

/-! ## types.h -/

/-- Modelled from the spec: the enumeration `Piece` of types.h, which is not
part of the sources.  A piece is its enumerator value; the sources only rely
on `WP..WK` and `BP..BK` being two consecutive ascending runs (the tests
`p >= BP`, `p <= WK`, `tp >= their_min && tp <= their_max`), each in the
order pawn, knight, bishop, rook, queen, king. -/
abbrev Piece := Nat

abbrev EMPTY : Piece := 0
abbrev WP : Piece := 1
abbrev WN : Piece := 2
abbrev WB : Piece := 3
abbrev WR : Piece := 4
abbrev WQ : Piece := 5
abbrev WK : Piece := 6
abbrev BP : Piece := 7
abbrev BN : Piece := 8
abbrev BB : Piece := 9
abbrev BR : Piece := 10
abbrev BQ : Piece := 11
abbrev BK : Piece := 12

/-- Modelled from the spec: the enumeration `Color` of types.h. -/
inductive Color where
  | WHITE
  | BLACK
deriving DecidableEq, Repr

open Color

/-- Modelled from the spec: the square names of types.h; a square index is
`rank * 8 + file`, as `load_fen` computes it. -/
abbrev A1 : Int := 0
abbrev B1 : Int := 1
abbrev C1 : Int := 2
abbrev D1 : Int := 3
abbrev E1 : Int := 4
abbrev F1 : Int := 5
abbrev G1 : Int := 6
abbrev H1 : Int := 7
abbrev A8 : Int := 56
abbrev B8 : Int := 57
abbrev C8 : Int := 58
abbrev D8 : Int := 59
abbrev E8 : Int := 60
abbrev F8 : Int := 61
abbrev G8 : Int := 62
abbrev H8 : Int := 63

/-! ## move.h, board.h -/

/-- The struct `Move`; the field `from` is spelled `src` (a reserved word in
Lean) and `to` is spelled `dst`. -/
structure Move where
  src : Int
  dst : Int
  promotion : Piece
  is_en_passant_capture : Bool
deriving DecidableEq, Repr

/-- The constructor `Move(f, t)` with the default arguments. -/
def Move.mk2 (f t : Int) : Move := ⟨f, t, EMPTY, false⟩

/-- The constructor `Move(f, t, promo)`. -/
def Move.mk3 (f t : Int) (promo : Piece) : Move := ⟨f, t, promo, false⟩

/-- The default constructor `Move()`. -/
def Move.none : Move := ⟨-1, -1, EMPTY, false⟩

/-- The struct `UndoInfo`. -/
structure UndoInfo where
  side_to_move : Color
  white_king_castle : Bool
  white_queen_castle : Bool
  black_king_castle : Bool
  black_queen_castle : Bool
  en_passant_square : Int
  halfmove_clock : Int
  fullmove_number : Int
  en_passant_capture_square : Int
deriving DecidableEq, Repr

/-- The struct `Board`. -/
structure Board where
  squares : Nat
  side_to_move : Color
  white_king_castle : Bool
  white_queen_castle : Bool
  black_king_castle : Bool
  black_queen_castle : Bool
  en_passant_square : Int
  halfmove_clock : Int
  fullmove_number : Int
  history : List UndoInfo
deriving DecidableEq, Repr

/-- The read `squares[i]` on the packed array.  An index outside `0..63` is
outside the C++ array; a negative index reads `EMPTY`, an index above 63 reads
the digit stored there (`EMPTY` when the number is below `13 ^ 64`). -/
def getSq (s : Nat) (i : Int) : Piece :=
  if i < 0 then EMPTY else s / 13 ^ i.toNat % 13

/-- The write `squares[i] = p` on the packed array (a negative index writes
nothing). -/
def setSq (s : Nat) (i : Int) (p : Piece) : Nat :=
  if i < 0 then s else s % 13 ^ i.toNat + p * 13 ^ i.toNat + s / 13 ^ (i.toNat + 1) * 13 ^ (i.toNat + 1)

/-- The read `board.squares[i]`. -/
def Board.sq (b : Board) (i : Int) : Piece := getSq b.squares i

/-- Packs a list of pieces, square 0 first. -/
def packSquares : List Piece → Nat
  | [] => 0
  | p :: l => p + 13 * packSquares l

/-! ## board.cpp -/

/-- The constructor `Board::Board()`. -/
def Board.new : Board :=
  { squares := 0, side_to_move := WHITE,
    white_king_castle := true, white_queen_castle := true,
    black_king_castle := true, black_queen_castle := true,
    en_passant_square := -1, halfmove_clock := 0, fullmove_number := 1,
    history := [] }

/-- The result of `Board::make_move`: the returned flag, the two reference
parameters and the board after the call. -/
structure MoveResult where
  ok : Bool
  captured_piece : Piece
  moved_piece : Piece
  board : Board
deriving DecidableEq, Repr

/-- The value a 32-bit two's-complement `int` holds for the arithmetic result
`x`.  `halfmove_clock++` and `fullmove_number++` at `INT_MAX = 2147483647` are
outside what the C++ standard defines; they are given the value the machine
increment produces, `INT_MIN = -2147483648`. -/
def wrap_int (x : Int) : Int := (x + 2147483648) % 4294967296 - 2147483648

/-- The castling part of `Board::make_move` (lines 238-255): the rook is
relocated when a king leaves its home square for the g- or c-file. -/
def castle_rook (s : Nat) (moved_piece : Piece) (src dst : Int) : Nat :=
  if moved_piece = WK ∧ src = E1 then
    if dst = G1 then setSq (setSq s F1 WR) H1 EMPTY
    else if dst = C1 then setSq (setSq s D1 WR) A1 EMPTY
    else s
  else if moved_piece = BK ∧ src = E8 then
    if dst = G8 then setSq (setSq s F8 BR) H8 EMPTY
    else if dst = C8 then setSq (setSq s D8 BR) A8 EMPTY
    else s
  else s

/-- The function `Board::make_move`.  `captured_piece0` and `moved_piece0`
are the values the reference parameters hold on entry; they come back
untouched when the call returns `false`. -/
def make_move (b : Board) (move : Move) (captured_piece0 moved_piece0 : Piece) : MoveResult :=
  let src := move.src
  let dst := move.dst
  if src < 0 ∨ src ≥ 64 ∨ dst < 0 ∨ dst ≥ 64 then
    { ok := false, captured_piece := captured_piece0, moved_piece := moved_piece0, board := b }
  else
    let moved_piece := getSq b.squares src
    -- en-passant capture (lines 177-193)
    let is_en_passant_capture : Bool :=
      ((moved_piece = WP ∧ src / 8 = 4 ∧ dst = b.en_passant_square) ∨
       (moved_piece = BP ∧ src / 8 = 3 ∧ dst = b.en_passant_square)) ∧
      getSq b.squares dst = EMPTY
    let captured_piece : Piece :=
      if is_en_passant_capture then (if b.side_to_move = WHITE then BP else WP)
      else getSq b.squares dst
    let en_passant_capture_square : Int :=
      if is_en_passant_capture then (if b.side_to_move = WHITE then dst - 8 else dst + 8)
      else -1
    let s1 := if is_en_passant_capture then setSq b.squares en_passant_capture_square EMPTY
              else b.squares
    let undo_info : UndoInfo :=
      { side_to_move := b.side_to_move,
        white_king_castle := b.white_king_castle,
        white_queen_castle := b.white_queen_castle,
        black_king_castle := b.black_king_castle,
        black_queen_castle := b.black_queen_castle,
        en_passant_square := b.en_passant_square,
        halfmove_clock := b.halfmove_clock,
        fullmove_number := b.fullmove_number,
        en_passant_capture_square := en_passant_capture_square }
    -- halfmove clock (lines 197-201)
    let halfmove_clock : Int :=
      if captured_piece ≠ EMPTY ∨ moved_piece = WP ∨ moved_piece = BP then 0
      else wrap_int (b.halfmove_clock + 1)
    -- move the piece or promote (lines 204-209)
    let s2 := setSq s1 dst (if move.promotion ≠ EMPTY then move.promotion else moved_piece)
    let s3 := setSq s2 src EMPTY
    -- en-passant target (lines 213-219)
    let en_passant_square : Int :=
      if moved_piece = WP ∧ src / 8 = 1 ∧ dst / 8 = 3 then src + 8
      else if moved_piece = BP ∧ src / 8 = 6 ∧ dst / 8 = 4 then src - 8
      else -1
    -- castling rights (lines 223-235)
    let wk1 := if moved_piece = WK then false else b.white_king_castle
    let wq1 := if moved_piece = WK then false else b.white_queen_castle
    let bk1 := if moved_piece = WK then b.black_king_castle
               else if moved_piece = BK then false else b.black_king_castle
    let bq1 := if moved_piece = WK then b.black_queen_castle
               else if moved_piece = BK then false else b.black_queen_castle
    let wk2 := if src = H1 ∨ dst = H1 then false else wk1
    let wq2 := if src = A1 ∨ dst = A1 then false else wq1
    let bk2 := if src = H8 ∨ dst = H8 then false else bk1
    let bq2 := if src = A8 ∨ dst = A8 then false else bq1
    -- castling rook (lines 239-255)
    let s4 := castle_rook s3 moved_piece src dst
    { ok := true, captured_piece := captured_piece, moved_piece := moved_piece,
      board :=
        { squares := s4,
          side_to_move := if b.side_to_move = WHITE then BLACK else WHITE,
          white_king_castle := wk2, white_queen_castle := wq2,
          black_king_castle := bk2, black_queen_castle := bq2,
          en_passant_square := en_passant_square,
          halfmove_clock := halfmove_clock,
          fullmove_number := if b.side_to_move = BLACK then wrap_int (b.fullmove_number + 1)
                             else b.fullmove_number,
          history := undo_info :: b.history } }

/-- The castling part of `Board::unmake_move` (lines 299-315). -/
def uncastle_rook (s : Nat) (moved_piece : Piece) (src dst : Int) : Nat :=
  if moved_piece = WK ∧ src = E1 then
    if dst = G1 then setSq (setSq s H1 WR) F1 EMPTY
    else if dst = C1 then setSq (setSq s A1 WR) D1 EMPTY
    else s
  else if moved_piece = BK ∧ src = E8 then
    if dst = G8 then setSq (setSq s H8 BR) F8 EMPTY
    else if dst = C8 then setSq (setSq s A8 BR) D8 EMPTY
    else s
  else s

/-- The function `Board::unmake_move`. -/
def unmake_move (b : Board) (move : Move) (captured_piece moved_piece : Piece) : Board :=
  match b.history with
  | [] => b
  | undo_info :: rest =>
    let src := move.src
    let dst := move.dst
    let s1 := setSq b.squares src moved_piece
    let s2 := setSq s1 dst captured_piece
    let s3 := uncastle_rook s2 moved_piece src dst
    -- undo an en-passant capture (lines 321-330)
    let s4 :=
      if undo_info.en_passant_capture_square ≠ -1 then
        setSq (setSq s3 dst EMPTY) undo_info.en_passant_capture_square
          (if moved_piece = WP then BP else WP)
      else s3
    -- undo a promotion (lines 332-335); side_to_move is already restored
    let s5 :=
      if move.promotion ≠ EMPTY then
        setSq (setSq s4 src (if undo_info.side_to_move = WHITE then WP else BP)) dst captured_piece
      else s4
    { squares := s5,
      side_to_move := undo_info.side_to_move,
      white_king_castle := undo_info.white_king_castle,
      white_queen_castle := undo_info.white_queen_castle,
      black_king_castle := undo_info.black_king_castle,
      black_queen_castle := undo_info.black_queen_castle,
      en_passant_square := undo_info.en_passant_square,
      halfmove_clock := undo_info.halfmove_clock,
      fullmove_number := undo_info.fullmove_number,
      history := rest }

/-- The loop `for (int sq = 0; sq < 64; ++sq)`. -/
def allSquares : List Nat := List.range 64

/-- The test `p == EMPTY || (side == WHITE && p >= BP) || (side == BLACK && p <= WK)`
of movegen.cpp: as a test on the origin it skips the square, as a test on the
target it accepts the move. -/
def empty_or_theirs (side : Color) (p : Piece) : Prop :=
  p = EMPTY ∨ (side = WHITE ∧ p ≥ BP) ∨ (side = BLACK ∧ p ≤ WK)

instance (side : Color) (p : Piece) : Decidable (empty_or_theirs side p) :=
  inferInstanceAs (Decidable (p = EMPTY ∨ (side = WHITE ∧ p ≥ BP) ∨ (side = BLACK ∧ p ≤ WK)))

/-- The test `(side == WHITE && tp >= BP) || (side == BLACK && tp <= WK)`
applied to an occupied target by the slider generators. -/
def theirs (side : Color) (tp : Piece) : Prop :=
  (side = WHITE ∧ tp ≥ BP) ∨ (side = BLACK ∧ tp ≤ WK)

instance (side : Color) (tp : Piece) : Decidable (theirs side tp) :=
  inferInstanceAs (Decidable ((side = WHITE ∧ tp ≥ BP) ∨ (side = BLACK ∧ tp ≤ WK)))

/-- The function `Board::is_square_attacked`, rook loop body (lines 431-441):
`cur` is the value of `to` (here `to_sq`) before `to += dir`. -/
def rook_ray (s : Nat) (attacker : Color) (rank file dir : Int) : Nat → Int → Bool
  | 0, _ => false
  | fuel + 1, cur =>
    let to_sq := cur + dir
    if to_sq < 0 ∨ to_sq ≥ 64 then false
    else
      let r := to_sq / 8
      let f := to_sq % 8
      if Int.natAbs (r - rank) > 7 ∨ Int.natAbs (f - file) > 7 then false
      else
        let p := getSq s to_sq
        if p = EMPTY then rook_ray s attacker rank file dir fuel to_sq
        else if attacker = WHITE ∧ (p = WR ∨ p = WQ) then true
        else if attacker = BLACK ∧ (p = BR ∨ p = BQ) then true
        else false

/-- The function `Board::is_square_attacked`, bishop loop body (lines 448-458). -/
def bishop_ray (s : Nat) (attacker : Color) (rank file dir : Int) : Nat → Int → Bool
  | 0, _ => false
  | fuel + 1, cur =>
    let to_sq := cur + dir
    if to_sq < 0 ∨ to_sq ≥ 64 then false
    else
      let r := to_sq / 8
      let f := to_sq % 8
      if Int.natAbs (r - rank) > 7 ∨ Int.natAbs (f - file) > 7 ∨
          Int.natAbs (r - rank) ≠ Int.natAbs (f - file) then false
      else
        let p := getSq s to_sq
        if p = EMPTY then bishop_ray s attacker rank file dir fuel to_sq
        else if attacker = WHITE ∧ (p = WB ∨ p = WQ) then true
        else if attacker = BLACK ∧ (p = BB ∨ p = BQ) then true
        else false

/-- The function `Board::is_square_attacked`, pawn attacks (lines 400-406). -/
def pawn_attack (s : Nat) (square : Int) (attacker : Color) : Bool :=
  if attacker = WHITE then
    (square ≥ 9 ∧ getSq s (square - 9) = WP ∧ square % 8 ≠ 0) ∨
    (square ≥ 7 ∧ getSq s (square - 7) = WP ∧ square % 8 ≠ 7)
  else
    (square ≤ 55 ∧ getSq s (square + 7) = BP ∧ square % 8 ≠ 0) ∨
    (square ≤ 55 ∧ getSq s (square + 9) = BP ∧ square % 8 ≠ 7)

/-- The function `Board::is_square_attacked`, knight attacks (lines 409-414). -/
def knight_attack (s : Nat) (square : Int) (attacker : Color) : Bool :=
  ([-17, -15, -10, -6, 6, 10, 15, 17] : List Int).any fun offset =>
    let to_sq := square + offset
    if to_sq < 0 ∨ to_sq ≥ 64 then false
    else
      let p := getSq s to_sq
      (attacker = WHITE ∧ p = WN) ∨ (attacker = BLACK ∧ p = BN)

/-- The function `Board::is_square_attacked`, king attacks (lines 417-425). -/
def king_attack (s : Nat) (square : Int) (attacker : Color) : Bool :=
  let rank := square / 8
  let file := square % 8
  ([-9, -8, -7, -1, 1, 7, 8, 9] : List Int).any fun offset =>
    let to_sq := square + offset
    if to_sq < 0 ∨ to_sq ≥ 64 then false
    else
      let dr := Int.natAbs (to_sq / 8 - rank)
      let df := Int.natAbs (to_sq % 8 - file)
      if dr > 1 ∨ df > 1 then false
      else
        let p := getSq s to_sq
        (attacker = WHITE ∧ p = WK) ∨ (attacker = BLACK ∧ p = BK)

/-- The function `Board::is_square_attacked`: the five sections in source
order, each returning `true` on a hit.  The two `while (true)` loops run on
64 units of fuel: every iteration moves `to` by a non-zero `dir` and stops
outside `0..63`.  C++ `/` and `%` truncate; they agree with the ones used
here on a non-negative `square`. -/
def is_square_attacked (b : Board) (square : Int) (attacker : Color) : Bool :=
  let s := b.squares
  let rank := square / 8
  let file := square % 8
  pawn_attack s square attacker || knight_attack s square attacker ||
    king_attack s square attacker ||
    ([-8, -1, 1, 8] : List Int).any (fun dir => rook_ray s attacker rank file dir 64 square) ||
    ([-9, -7, 7, 9] : List Int).any (fun dir => bishop_ray s attacker rank file dir 64 square)

/-! ## precomputed_moves.h -/

/-- The three tables of precomputed_moves.h, which is not part of the
sources: `KNIGHT_MOVES[64][8]`, `BISHOP_MOVES[64][4][7]` and
`ROOK_MOVES[64][4][7]`, each row a list of its entries. -/
structure Tables where
  KNIGHT_MOVES : Nat → List Int
  BISHOP_MOVES : Nat → Nat → List Int
  ROOK_MOVES : Nat → Nat → List Int

/-- The entries a loop `for (i = 0; i < n && ROW[i] != -1; ++i)` visits. -/
def row_entries (n : Nat) (row : List Int) : List Int :=
  (row.take n).takeWhile (fun t => t ≠ -1)

/-- Every entry a generator loop can visit is a square of the board. -/
def Tables.InRange (T : Tables) : Prop :=
  (∀ sq, ∀ t ∈ row_entries 8 (T.KNIGHT_MOVES sq), 0 ≤ t ∧ t < 64) ∧
  (∀ sq d, ∀ t ∈ row_entries 7 (T.BISHOP_MOVES sq d), 0 ≤ t ∧ t < 64) ∧
  (∀ sq d, ∀ t ∈ row_entries 7 (T.ROOK_MOVES sq d), 0 ≤ t ∧ t < 64)

/-- The squares met when leaving `sq` in steps of `(dr, df)` ranks and files,
nearest first, up to the edge of the board. -/
def ray (sq : Nat) (dr df : Int) : List Int :=
  (((List.range 7).map fun k =>
      (((sq / 8 : Nat) : Int) + ((k : Int) + 1) * dr, ((sq % 8 : Nat) : Int) + ((k : Int) + 1) * df)).takeWhile
    fun p => 0 ≤ p.1 ∧ p.1 < 8 ∧ 0 ≤ p.2 ∧ p.2 < 8).map fun p => p.1 * 8 + p.2

/-- The squares a knight on `sq` jumps to. -/
def knight_targets (sq : Nat) : List Int :=
  ((([(2, 1), (1, 2), (-1, 2), (-2, 1), (-2, -1), (-1, -2), (1, -2), (2, -1)] : List (Int × Int)).map
      fun d => (((sq / 8 : Nat) : Int) + d.1, ((sq % 8 : Nat) : Int) + d.2)).filter
    fun p => 0 ≤ p.1 ∧ p.1 < 8 ∧ 0 ≤ p.2 ∧ p.2 < 8).map fun p => p.1 * 8 + p.2

/-- Modelled from the spec: the contents of precomputed_moves.h ("sliding and
jump tables are precomputed geometry data"): the knight row of a square lists
the squares a knight jumps to, a slider row lists one ray, nearest square
first; a C++ row is that list followed by `-1` fill. -/
def geometry : Tables where
  KNIGHT_MOVES := knight_targets
  BISHOP_MOVES := fun sq d =>
    match d with
    | 0 => ray sq 1 1
    | 1 => ray sq 1 (-1)
    | 2 => ray sq (-1) 1
    | _ => ray sq (-1) (-1)
  ROOK_MOVES := fun sq d =>
    match d with
    | 0 => ray sq 1 0
    | 1 => ray sq (-1) 0
    | 2 => ray sq 0 1
    | _ => ray sq 0 (-1)

/-! ## movegen.cpp -/

/-- The four `emplace_back(sq, target, promo)` of a promoting pawn. -/
def promotion_moves (us : Color) (src dst : Int) : List Move :=
  [Move.mk3 src dst (if us = WHITE then WQ else BQ),
   Move.mk3 src dst (if us = WHITE then WR else BR),
   Move.mk3 src dst (if us = WHITE then WB else BB),
   Move.mk3 src dst (if us = WHITE then WN else BN)]

/-- The body of the loop of `MoveGenerator::generate_pawn_moves`: the moves
appended for the square `sq`. -/
def pawn_moves_from (b : Board) (sq : Nat) : List Move :=
  let direction : Int := if b.side_to_move = WHITE then 8 else -8
  let start_rank : Int := if b.side_to_move = WHITE then 1 else 6
  let promotion_rank : Int := if b.side_to_move = WHITE then 7 else 0
  let our_pawn : Piece := if b.side_to_move = WHITE then WP else BP
  let their_min : Piece := if b.side_to_move = WHITE then BP else WP
  let their_max : Piece := if b.side_to_move = WHITE then BK else WK
  let us := b.side_to_move
  if b.sq sq ≠ our_pawn then []
  else
    let file : Int := (sq : Int) % 8
    let rank : Int := (sq : Int) / 8
    let one_step : Int := sq + direction
    let pushes : List Move :=
      if one_step ≥ 0 ∧ one_step < 64 ∧ b.sq one_step = EMPTY then
        (if one_step / 8 = promotion_rank then promotion_moves us sq one_step
         else [Move.mk2 sq one_step]) ++
        (if rank = start_rank then
           (if b.sq (sq + 2 * direction) = EMPTY then [Move.mk2 sq (sq + 2 * direction)] else [])
         else [])
      else []
    let capture_left : Int := if file > 0 then sq + direction - 1 else -1
    let capture_right : Int := if file < 7 then sq + direction + 1 else -1
    pushes ++ [capture_left, capture_right].flatMap fun target =>
      if target < 0 ∨ target ≥ 64 then []
      else
        let tp := b.sq target
        if tp ≥ their_min ∧ tp ≤ their_max then
          (if target / 8 = promotion_rank then promotion_moves us sq target
           else [Move.mk2 sq target])
        else []

/-- The function `MoveGenerator::generate_pawn_moves`: the moves appended. -/
def generate_pawn_moves (b : Board) : List Move :=
  allSquares.flatMap (pawn_moves_from b)

/-- The body of the loop of `MoveGenerator::generate_knight_moves`: the moves
appended for the square `sq`. -/
def knight_moves_from (T : Tables) (b : Board) (sq : Nat) : List Move :=
  let p := b.sq sq
  if empty_or_theirs b.side_to_move p then []
  else if p ≠ WN ∧ p ≠ BN then []
  else
    (row_entries 8 (T.KNIGHT_MOVES sq)).flatMap fun target =>
      if empty_or_theirs b.side_to_move (b.sq target) then [Move.mk2 sq target] else []

/-- The function `MoveGenerator::generate_knight_moves`: the moves appended. -/
def generate_knight_moves (T : Tables) (b : Board) : List Move :=
  allSquares.flatMap (knight_moves_from T b)

/-- The inner loop of the slider generators: walks one table row until the
first occupied square, which is a target when it holds an opposing piece. -/
def slide (b : Board) (sq : Int) : List Int → List Move
  | [] => []
  | target :: rest =>
    if b.sq target = EMPTY then Move.mk2 sq target :: slide b sq rest
    else if theirs b.side_to_move (b.sq target) then [Move.mk2 sq target]
    else []

/-- The body of the loop of `MoveGenerator::generate_bishop_moves`: the moves
appended for the square `sq`. -/
def bishop_moves_from (T : Tables) (b : Board) (sq : Nat) : List Move :=
  let p := b.sq sq
  if empty_or_theirs b.side_to_move p then []
  else if (p ≠ WB ∧ p ≠ BB) ∧ (p ≠ WQ ∧ p ≠ BQ) then []
  else
    (List.range 4).flatMap fun d => slide b sq (row_entries 7 (T.BISHOP_MOVES sq d))

/-- The function `MoveGenerator::generate_bishop_moves`: the moves appended. -/
def generate_bishop_moves (T : Tables) (b : Board) : List Move :=
  allSquares.flatMap (bishop_moves_from T b)

/-- The body of the loop of `MoveGenerator::generate_rook_moves`: the moves
appended for the square `sq`. -/
def rook_moves_from (T : Tables) (b : Board) (sq : Nat) : List Move :=
  let p := b.sq sq
  if empty_or_theirs b.side_to_move p then []
  else if (p ≠ WR ∧ p ≠ BR) ∧ (p ≠ WQ ∧ p ≠ BQ) then []
  else
    (List.range 4).flatMap fun d => slide b sq (row_entries 7 (T.ROOK_MOVES sq d))

/-- The function `MoveGenerator::generate_rook_moves`: the moves appended. -/
def generate_rook_moves (T : Tables) (b : Board) : List Move :=
  allSquares.flatMap (rook_moves_from T b)

/-- The function `MoveGenerator::generate_queen_moves`: the moves appended. -/
def generate_queen_moves (T : Tables) (b : Board) : List Move :=
  generate_bishop_moves T b ++ generate_rook_moves T b

/-- The body of the loop of `MoveGenerator::generate_king_moves`: the moves
appended for the square `sq`. -/
def king_moves_from (b : Board) (sq : Nat) : List Move :=
  let p := b.sq sq
  if empty_or_theirs b.side_to_move p then []
  else if p ≠ WK ∧ p ≠ BK then []
  else
    let rank : Int := (sq : Int) / 8
    let file : Int := (sq : Int) % 8
    ([8, -8, 1, -1, 9, -9, 7, -7] : List Int).flatMap fun offset =>
      let target : Int := sq + offset
      if target < 0 ∨ target ≥ 64 then []
      else if Int.natAbs (target / 8 - rank) > 1 ∨ Int.natAbs (target % 8 - file) > 1 then []
      else if empty_or_theirs b.side_to_move (b.sq target) then [Move.mk2 sq target]
      else []

/-- The function `MoveGenerator::generate_king_moves`: the moves appended. -/
def generate_king_moves (b : Board) : List Move :=
  allSquares.flatMap (king_moves_from b)

/-- The function `MoveGenerator::generate_castling_moves`: the moves appended. -/
def generate_castling_moves (b : Board) : List Move :=
  let us := b.side_to_move
  let opp := if us = WHITE then BLACK else WHITE
  if us = WHITE then
    (if b.white_king_castle ∧ b.sq E1 = WK ∧ b.sq H1 = WR ∧ b.sq F1 = EMPTY ∧ b.sq G1 = EMPTY
        ∧ ¬ is_square_attacked b E1 opp ∧ ¬ is_square_attacked b F1 opp
        ∧ ¬ is_square_attacked b G1 opp
     then [Move.mk2 E1 G1] else []) ++
    (if b.white_queen_castle ∧ b.sq E1 = WK ∧ b.sq A1 = WR ∧ b.sq D1 = EMPTY ∧ b.sq C1 = EMPTY
        ∧ b.sq B1 = EMPTY
        ∧ ¬ is_square_attacked b E1 opp ∧ ¬ is_square_attacked b D1 opp
        ∧ ¬ is_square_attacked b C1 opp
     then [Move.mk2 E1 C1] else [])
  else
    (if b.black_king_castle ∧ b.sq E8 = BK ∧ b.sq H8 = BR ∧ b.sq F8 = EMPTY ∧ b.sq G8 = EMPTY
        ∧ ¬ is_square_attacked b E8 opp ∧ ¬ is_square_attacked b F8 opp
        ∧ ¬ is_square_attacked b G8 opp
     then [Move.mk2 E8 G8] else []) ++
    (if b.black_queen_castle ∧ b.sq E8 = BK ∧ b.sq A8 = BR ∧ b.sq D8 = EMPTY ∧ b.sq C8 = EMPTY
        ∧ b.sq B8 = EMPTY
        ∧ ¬ is_square_attacked b E8 opp ∧ ¬ is_square_attacked b D8 opp
        ∧ ¬ is_square_attacked b C8 opp
     then [Move.mk2 E8 C8] else [])

/-- The function `MoveGenerator::generate_pseudo_legal_moves`. -/
def generate_pseudo_legal_moves (T : Tables) (b : Board) : List Move :=
  generate_pawn_moves b ++ generate_knight_moves T b ++ generate_bishop_moves T b ++
    generate_rook_moves T b ++ generate_queen_moves T b ++ generate_king_moves b ++
    generate_castling_moves b

/-- The search loop of `Board::is_king_in_check` (lines 339-346): the first
square that holds the king of `color`, or `-1`. -/
def king_square (b : Board) (color : Color) : Int :=
  match allSquares.find? (fun i : Nat => b.sq i = (if color = WHITE then WK else BK)) with
  | some i => i
  | none => -1

/-- The function `Board::is_king_in_check`.  The copy `temp_board_for_check_gen`
differs from the board in `side_to_move` only. -/
def is_king_in_check (T : Tables) (b : Board) (color : Color) : Bool :=
  let king_sq : Int := king_square b color
  if king_sq < 0 then false
  else
    let temp_board_for_check_gen : Board :=
      { b with side_to_move := if color = WHITE then BLACK else WHITE }
    (generate_pseudo_legal_moves T temp_board_for_check_gen).any fun m => m.dst = king_sq

/-- One iteration of the loop of `MoveGenerator::generate_legal_moves`, on
the pair of the vector `legal` and the board. -/
def legal_step (T : Tables) (st : List Move × Board) (m : Move) : List Move × Board :=
  let us := st.2.side_to_move
  let r := make_move st.2 m EMPTY EMPTY
  if r.ok = false then st
  else
    (if is_king_in_check T r.board us = false then st.1 ++ [m] else st.1,
     unmake_move r.board m r.captured_piece r.moved_piece)

/-- The function `MoveGenerator::generate_legal_moves`: the returned vector
and the board as the call leaves it. -/
def generate_legal_moves (T : Tables) (b : Board) : List Move × Board :=
  (generate_pseudo_legal_moves T b).foldl (legal_step T) ([], b)

/-- The standard starting position, as `load_fen` builds it from
`rnbqkbnr/pppppppp/8/8/8/8/PPPPPPPP/RNBQKBNR w KQkq - 0 1`. -/
def startpos : Board :=
  { Board.new with
    squares := packSquares
      [WR, WN, WB, WQ, WK, WB, WN, WR,
       WP, WP, WP, WP, WP, WP, WP, WP,
       0, 0, 0, 0, 0, 0, 0, 0,
       0, 0, 0, 0, 0, 0, 0, 0,
       0, 0, 0, 0, 0, 0, 0, 0,
       0, 0, 0, 0, 0, 0, 0, 0,
       BP, BP, BP, BP, BP, BP, BP, BP,
       BR, BN, BB, BQ, BK, BB, BN, BR] }

/-! ## Positions of a game -/

/-- The positions reachable from the standard starting position by moves that
`generate_legal_moves` returns at the position where they are played. -/
inductive Reachable (T : Tables) : Board → Prop
  | start : Reachable T startpos
  | step (b : Board) (m : Move) : Reachable T b → m ∈ (generate_legal_moves T b).1 →
      Reachable T (make_move b m EMPTY EMPTY).board

/-- No pawn of the side to move stands directly behind the en-passant target:
the straight advance of such a pawn is the one generated move that
`make_move` takes for an en-passant capture. -/
def EPSafe (b : Board) : Prop :=
  0 ≤ b.en_passant_square →
    (b.side_to_move = WHITE → b.sq (b.en_passant_square - 8) ≠ WP) ∧
    (b.side_to_move = BLACK → b.sq (b.en_passant_square + 8) ≠ BP)

/-- What the generators guarantee about a pseudo-legal move. -/
structure PseudoShape (b : Board) (m : Move) : Prop where
  src_range : 0 ≤ m.src ∧ m.src < 64
  dst_range : 0 ≤ m.dst ∧ m.dst < 64
  own : ¬ empty_or_theirs b.side_to_move (b.sq m.src)
  promo_lt : m.promotion < 13
  promo : m.promotion ≠ EMPTY → b.sq m.src = WP ∨ b.sq m.src = BP
  pawn : b.sq m.src = WP ∨ b.sq m.src = BP →
    ∀ dir : Int, dir = (if b.side_to_move = WHITE then 8 else -8) →
      (m.dst = m.src + dir ∧ b.sq m.dst = EMPTY) ∨
      (m.dst = m.src + 2 * dir ∧ m.src / 8 = (if b.side_to_move = WHITE then 1 else 6) ∧
        m.promotion = EMPTY) ∨
      (((m.dst = m.src + dir - 1 ∧ m.src % 8 > 0) ∨ (m.dst = m.src + dir + 1 ∧ m.src % 8 < 7)) ∧
        b.sq m.dst ≠ EMPTY)
  castle_wk : b.sq m.src = WK → m.src = E1 → m.dst = G1 →
    b.sq H1 = WR ∧ b.sq F1 = EMPTY ∧ b.sq G1 = EMPTY
  castle_wq : b.sq m.src = WK → m.src = E1 → m.dst = C1 →
    b.sq A1 = WR ∧ b.sq D1 = EMPTY ∧ b.sq C1 = EMPTY
  castle_bk : b.sq m.src = BK → m.src = E8 → m.dst = G8 →
    b.sq H8 = BR ∧ b.sq F8 = EMPTY ∧ b.sq G8 = EMPTY
  castle_bq : b.sq m.src = BK → m.src = E8 → m.dst = C8 →
    b.sq A8 = BR ∧ b.sq D8 = EMPTY ∧ b.sq C8 = EMPTY

/-! ## Positions used as test inputs -/

/-- Puts the listed pieces on an empty board. -/
def place (l : List (Int × Piece)) : Nat :=
  l.foldl (fun s x => setSq s x.1 x.2) 0

/-- A position as `load_fen` leaves it for a notation with castling field `-`,
clocks `0 1` and the given placement, side and en-passant target. -/
def position (s : Nat) (side : Color) (ep : Int) : Board :=
  { squares := s, side_to_move := side, white_king_castle := false,
    white_queen_castle := false, black_king_castle := false, black_queen_castle := false,
    en_passant_square := ep, halfmove_clock := 0, fullmove_number := 1, history := [] }

/-- The position `8/8/8/4P3/8/4K3/8/7k w - e6 0 1`: a white pawn on e5 right
behind the en-passant target e6. -/
def fen_pawn_behind_target : Board :=
  position (place [(20, WK), (36, WP), (7, BK)]) WHITE 44

/-- The position `4k3/8/8/3pP3/8/8/8/4K3 w - d6 0 1`: Black has just played
d7-d5 next to the white pawn on e5. -/
def fen_en_passant : Board :=
  position (place [(4, WK), (36, WP), (35, BP), (60, BK)]) WHITE 43

/-- The position `4k3/8/8/8/8/n7/8/4K3 w - - 0 1`: a black knight on a3. -/
def fen_knight_a3 : Board :=
  position (place [(4, WK), (16, BN), (60, BK)]) WHITE (-1)

/-- The position `4k3/8/8/8/8/8/8/4K2R w K - 0 1`: White may castle king-side. -/
def fen_castle : Board :=
  { position (place [(4, WK), (7, WR), (60, BK)]) WHITE (-1) with white_king_castle := true }

/-! ## The rules of chess movement, after the spec -/

/-- The squares strictly between `t` and `s`, which share a rank, a file or a
diagonal, are all empty. -/
def path_clear (b : Board) (t s : Int) : Prop :=
  ∀ k : Nat, k < max (Int.natAbs (s / 8 - t / 8)) (Int.natAbs (s % 8 - t % 8)) → 0 < k →
    b.sq (t + k * (8 * Int.sign (s / 8 - t / 8) + Int.sign (s % 8 - t % 8))) = EMPTY

instance (b : Board) (t s : Int) : Decidable (path_clear b t s) :=
  inferInstanceAs (Decidable (∀ k : Nat,
    k < max (Int.natAbs (s / 8 - t / 8)) (Int.natAbs (s % 8 - t % 8)) → 0 < k →
    b.sq (t + k * (8 * Int.sign (s / 8 - t / 8) + Int.sign (s % 8 - t % 8))) = EMPTY))

/-- The piece on square `t` attacks square `s` for colour `c` under chess
geometry, in the words of the spec: a pawn of `c` diagonally one rank behind
`s` on an adjacent file, a knight of `c` at rank/file deltas (1,2) or (2,1), a
king of `c` on an adjacent square, a rook or queen of `c` on the same rank or
file with only empty squares between, a bishop or queen of `c` on the same
diagonal with only empty squares between. -/
def piece_attacks (b : Board) (c : Color) (t s : Int) : Prop :=
  let p := b.sq t
  let dr := s / 8 - t / 8
  let df := s % 8 - t % 8
  (p = (if c = WHITE then WP else BP) ∧ dr = (if c = WHITE then 1 else -1) ∧
      Int.natAbs df = 1) ∨
  (p = (if c = WHITE then WN else BN) ∧
      ((Int.natAbs dr = 1 ∧ Int.natAbs df = 2) ∨ (Int.natAbs dr = 2 ∧ Int.natAbs df = 1))) ∨
  (p = (if c = WHITE then WK else BK) ∧ Int.natAbs dr ≤ 1 ∧ Int.natAbs df ≤ 1 ∧ t ≠ s) ∨
  ((p = (if c = WHITE then WR else BR) ∨ p = (if c = WHITE then WQ else BQ)) ∧
      (dr = 0 ∨ df = 0) ∧ t ≠ s ∧ path_clear b t s) ∨
  ((p = (if c = WHITE then WB else BB) ∨ p = (if c = WHITE then WQ else BQ)) ∧
      Int.natAbs dr = Int.natAbs df ∧ t ≠ s ∧ path_clear b t s)

instance (b : Board) (c : Color) (t s : Int) : Decidable (piece_attacks b c t s) := by
  unfold piece_attacks; exact inferInstance

/-- Some piece of colour `c` attacks square `s` under chess geometry. -/
def geometric_attack (b : Board) (s : Int) (c : Color) : Prop :=
  ∃ t : Nat, t < 64 ∧ piece_attacks b c t s

instance (b : Board) (s : Int) (c : Color) : Decidable (geometric_attack b s c) :=
  inferInstanceAs (Decidable (∃ t : Nat, t < 64 ∧ piece_attacks b c t s))

/-- The sub-list of the pseudo-legal moves after which the mover's king is not
in check, each move tried on the position itself: what the spec says
`generate_legal_moves` returns. -/
def legal_filter (T : Tables) (b : Board) : List Move :=
  (generate_pseudo_legal_moves T b).filter fun m =>
    (make_move b m EMPTY EMPTY).ok &&
      !is_king_in_check T (make_move b m EMPTY EMPTY).board b.side_to_move

/-! ## Move sequences -/

/-- The sequences of `n` moves playable from `b`, each move returned by
`generate_legal_moves` at the position where it is played (a move is listed
once for every time the generator returns it). -/
def legal_sequences (T : Tables) : Nat → Board → List (List Move)
  | 0, _ => [[]]
  | n + 1, b =>
    (generate_legal_moves T b).1.flatMap fun m =>
      (legal_sequences T n (make_move b m EMPTY EMPTY).board).map fun l => m :: l

/-- The number of distinct move sequences of length `n` from `b`, counted move
by move: equal moves of one list are counted once. -/
def perft (T : Tables) : Nat → Board → Nat
  | 0, _ => 1
  | n + 1, b =>
    ((generate_legal_moves T b).1.dedup.map fun m =>
      perft T n (make_move b m EMPTY EMPTY).board).sum

/-! ## A one-pass form of the legality test -/

/-- The piece on `sq` has a generated move, castling apart, that ends on `k`:
the loop bodies of the generators, selected by the piece on `sq`. -/
def attacker_hits (T : Tables) (b : Board) (k : Int) (sq : Nat) : Bool :=
  let p := b.sq sq
  if p = EMPTY then false
  else if p = WP ∨ p = BP then (pawn_moves_from b sq).any fun m => m.dst = k
  else if p = WN ∨ p = BN then (knight_moves_from T b sq).any fun m => m.dst = k
  else if p = WB ∨ p = BB then (bishop_moves_from T b sq).any fun m => m.dst = k
  else if p = WR ∨ p = BR then (rook_moves_from T b sq).any fun m => m.dst = k
  else if p = WQ ∨ p = BQ then
    ((bishop_moves_from T b sq).any fun m => m.dst = k) ||
      ((rook_moves_from T b sq).any fun m => m.dst = k)
  else (king_moves_from b sq).any fun m => m.dst = k

/-- The test of `Board::is_king_in_check` with the seven passes over the board
folded into one. -/
def check_scan (T : Tables) (b : Board) (color : Color) : Bool :=
  let king_sq : Int := king_square b color
  if king_sq < 0 then false
  else
    allSquares.any
      (attacker_hits T { b with side_to_move := if color = WHITE then BLACK else WHITE } king_sq)

/-- The pseudo-legal moves that pass the one-pass legality test, each tried on
the position itself. -/
def scan_legal (T : Tables) (b : Board) : List Move :=
  (generate_pseudo_legal_moves T b).filter fun m =>
    (make_move b m EMPTY EMPTY).ok &&
      !check_scan T (make_move b m EMPTY EMPTY).board b.side_to_move

/-- The number of distinct moves of `scan_legal`. -/
def count_moves (T : Tables) (b : Board) : Nat :=
  (scan_legal T b).dedup.length


/-! ## board.cpp: the end of the game -/

/-- The function `Board::has_legal_moves`: the answer and the board as the
call of `generate_legal_moves` leaves it. -/
def has_legal_moves (T : Tables) (b : Board) : Bool × Board :=
  let r := generate_legal_moves T b
  (!r.1.isEmpty, r.2)

/-- The function `Board::is_game_over`. -/
def is_game_over (T : Tables) (b : Board) : Bool × Board :=
  if b.halfmove_clock ≥ 100 then (true, b)
  else
    let r := has_legal_moves T b
    (!r.1, r.2)

/-- The function `Board::get_result_string`. -/
def get_result_string (T : Tables) (b : Board) : String × Board :=
  if b.halfmove_clock ≥ 100 then ("1/2-1/2 (50-move rule)", b)
  else
    let r := has_legal_moves T b
    if r.1 then ("*", r.2)
    else if is_king_in_check T r.2 r.2.side_to_move then
      (if r.2.side_to_move = WHITE then "0-1 (Black wins by checkmate)"
       else "1-0 (White wins by checkmate)", r.2)
    else ("1/2-1/2 (Stalemate)", r.2)

/-- The position `7k/5KQ1/8/8/8/8/8/8 b - - 100 80`: Black is checkmated and
the halfmove clock stands at 100. -/
def fen_mate_clock_100 : Board :=
  { position (place [(53, WK), (54, WQ), (63, BK)]) BLACK (-1) with
    halfmove_clock := 100, fullmove_number := 80 }

/-- The position `7k/5KQ1/8/8/8/8/8/8 b - - 0 1`: Black is checkmated. -/
def fen_mate : Board :=
  position (place [(53, WK), (54, WQ), (63, BK)]) BLACK (-1)

/-- The position `7k/5K2/6Q1/8/8/8/8/8 b - - 0 1`: Black is stalemated. -/
def fen_stalemate : Board :=
  position (place [(53, WK), (46, WQ), (63, BK)]) BLACK (-1)

/-- The position `kb6/8/6pp/4P2p/5K2/7r/3n4/8 w - e6 0 1`: White has no legal
move and is not in check; the white pawn on e5 stands right behind the
en-passant target e6. -/
def fen_stalemate_behind_target : Board :=
  position (place [(29, WK), (36, WP), (56, BK), (57, BB), (23, BR), (11, BN),
    (39, BP), (47, BP), (46, BP)]) WHITE 44

/-- The position `1n2k3/P7/8/8/8/8/8/4K3 w - - 0 1`: the white pawn on a7 may
advance to a8 or capture the knight on b8. -/
def fen_promotion : Board :=
  position (place [(4, WK), (48, WP), (57, BN), (60, BK)]) WHITE (-1)

/-! ## search.cpp -/

/-- The constant `INF`. -/
def INF : Int := 100000

/-- The struct `ScoredMove`. -/
structure ScoredMove where
  move : Move
  score : Int
deriving DecidableEq, Repr

/-- What search.cpp takes from outside: the tables of precomputed_moves.h,
`evaluate` (eval.cpp reads the tables of pst.h, which is not in the sources),
the answers of `is_time_up` in the order of its calls since `find_best_move`
set `start_time`, and `std::sort` with the comparator `a.score > b.score`,
whose order among equal scores the language leaves open. -/
structure Env where
  tables : Tables
  evaluate : Board → Int
  time_up : Nat → Bool
  sort : List ScoredMove → List ScoredMove

/-- What is assumed of `std::sort`: the result holds the same elements, in
descending order of score. -/
def Env.SortOk (E : Env) : Prop :=
  ∀ l, (E.sort l).Perm l ∧ (E.sort l).Pairwise fun a b => a.score ≥ b.score

/-- The deadline never expires. -/
def Env.NeverExpires (E : Env) : Prop := ∀ n, E.time_up n = false

/-- The board the search functions are passed by reference and the file-level
variables of search.cpp.  The two tables are total functions: an index outside
`killer_moves[64][2]` or `history_heuristic[64][64]` reads and writes an entry
of its own.  `clock_calls` counts the calls of `is_time_up`;
`unmake_on_empty` records that `unmake_move` was called on an empty history
(the call that prints its error message). -/
structure SearchState where
  board : Board
  time_up_flag : Bool
  killer_moves : Int → Move × Move
  history_heuristic : Int → Int → Int
  clock_calls : Nat
  unmake_on_empty : Bool

/-- The function `record_killer`. -/
def record_killer (s : SearchState) (move : Move) (ply : Int) : SearchState :=
  let k := s.killer_moves ply
  if k.1.src = move.src ∧ k.1.dst = move.dst then s
  else if k.2.src = move.src ∧ k.2.dst = move.dst then s
  else { s with killer_moves := fun i => if i = ply then (move, k.1) else s.killer_moves i }

/-- The function `record_history`. -/
def record_history (s : SearchState) (move : Move) (depth : Int) : SearchState :=
  { s with history_heuristic := fun f t =>
      if f = move.src ∧ t = move.dst then s.history_heuristic f t + depth * depth
      else s.history_heuristic f t }

/-- The function `piece_value_for_mvv`. -/
def piece_value_for_mvv (p : Piece) : Int :=
  if p = WP ∨ p = BP then 100
  else if p = WN ∨ p = BN then 320
  else if p = WB ∨ p = BB then 330
  else if p = WR ∨ p = BR then 500
  else if p = WQ ∨ p = BQ then 900
  else 0

/-- The function `score_capture`. -/
def score_capture (board : Board) (move : Move) : Int :=
  let victim := piece_value_for_mvv (board.sq move.dst)
  let attacker := piece_value_for_mvv (board.sq move.src)
  victim * 100 - attacker

/-- The function `is_time_up`: the answer and the state after the call. -/
def is_time_up (E : Env) (s : SearchState) : Bool × SearchState :=
  (E.time_up s.clock_calls, { s with clock_calls := s.clock_calls + 1 })

/-- The test `time_up_flag || is_time_up()`: the clock is not read when the
flag is set. -/
def flag_or_time_up (E : Env) (s : SearchState) : Bool × SearchState :=
  if s.time_up_flag then (true, s) else is_time_up E s

/-- A call `board.unmake_move(m, cap, mov)` of search.cpp. -/
def SearchState.unmake (s : SearchState) (m : Move) (cap mov : Piece) : SearchState :=
  { s with board := unmake_move s.board m cap mov,
           unmake_on_empty := s.unmake_on_empty || s.board.history.isEmpty }

/-- A call `generate_legal_moves()` on the board of the state. -/
def SearchState.legal_moves (E : Env) (s : SearchState) : List Move × SearchState :=
  let r := generate_legal_moves E.tables s.board
  (r.1, { s with board := r.2 })

/-- The lines `if (score > INF/2) score -= 1; if (score < -INF/2) score += 1;`. -/
def adjust_mate_distance (score : Int) : Int :=
  let score1 := if score > INF / 2 then score - 1 else score
  if score1 < -INF / 2 then score1 + 1 else score1

/-- The value returned when there is no legal move (search.cpp 65-69 and
105-109). -/
def terminal_score (E : Env) (s : SearchState) (ply : Int) : Int :=
  if is_king_in_check E.tables s.board s.board.side_to_move then -INF + ply else 0

/-- The capture loop of `quiescence` (lines 84-93); `recurse` is the call
`quiescence(board, ., ., ply+1)`.  The variables `cap` and `mov` are
uninitialised before `make_move`; they are given the value `EMPTY`. -/
def quiescence_loop (E : Env) (recurse : SearchState → Int → Int → Option (Int × SearchState))
    (beta : Int) : List ScoredMove → SearchState → Int → Option (Int × SearchState)
  | [], s, alpha => some (alpha, s)
  | sm :: rest, s, alpha =>
    let t := is_time_up E s
    if t.1 then some (alpha, t.2)
    else
      let r := make_move t.2.board sm.move EMPTY EMPTY
      match recurse { t.2 with board := r.board } (-beta) (-alpha) with
      | none => none
      | some (v, s2) =>
        let score := -v
        let s3 := s2.unmake sm.move r.captured_piece r.moved_piece
        if score ≥ beta then some (beta, s3)
        else quiescence_loop E recurse beta rest s3 (if score > alpha then score else alpha)

/-- The vector `captures` of `quiescence` before sorting (lines 76-82). -/
def capture_list (board : Board) (moves_all : List Move) : List ScoredMove :=
  (moves_all.filter fun m => board.sq m.dst ≠ EMPTY).map fun m =>
    { move := m, score := score_capture board m + 10000 }

/-- The function `quiescence`.  The first argument bounds the nesting of calls;
`none` is returned when it is used up. -/
def quiescence (E : Env) : Nat → SearchState → Int → Int → Int → Option (Int × SearchState)
  | 0, _, _, _, _ => none
  | fuel + 1, s, alpha, beta, ply =>
    let g := s.legal_moves E
    if g.1.isEmpty then some (terminal_score E g.2 ply, g.2)
    else
      let stand_pat := E.evaluate g.2.board
      if stand_pat ≥ beta then some (beta, g.2)
      else
        let alpha1 := if alpha < stand_pat then stand_pat else alpha
        let g2 := g.2.legal_moves E
        let captures := E.sort (capture_list g2.2.board g2.1)
        quiescence_loop E (fun s a b => quiescence E fuel s a b (ply + 1)) beta captures g2.2 alpha1

/-- The ordering score `alpha_beta` gives a move (lines 115-122). -/
def order_score (s : SearchState) (ply : Int) (m : Move) : Int :=
  if s.board.sq m.dst ≠ EMPTY then score_capture s.board m + 100000
  else if (s.killer_moves ply).1.src = m.src ∧ (s.killer_moves ply).1.dst = m.dst then 90000
  else if (s.killer_moves ply).2.src = m.src ∧ (s.killer_moves ply).2.dst = m.dst then 80000
  else s.history_heuristic m.src m.dst

/-- The move loop of `alpha_beta` (lines 126-147); `recurse` is the call
`alpha_beta(board, depth-1, ., ., ply+1)`. -/
def alpha_beta_loop (E : Env) (recurse : SearchState → Int → Int → Option (Int × SearchState))
    (depth beta ply : Int) : List ScoredMove → SearchState → Int → Int →
    Option (Int × SearchState)
  | [], s, _, best => some (best, s)
  | sm :: rest, s, alpha, best =>
    let t := flag_or_time_up E s
    if t.1 then some (best, { t.2 with time_up_flag := true })
    else
      let m := sm.move
      let r := make_move t.2.board m EMPTY EMPTY
      if r.ok = false then alpha_beta_loop E recurse depth beta ply rest t.2 alpha best
      else
        match recurse { t.2 with board := r.board } (-beta) (-alpha) with
        | none => none
        | some (v, s2) =>
          let score := adjust_mate_distance (-v)
          let s3 := s2.unmake m r.captured_piece r.moved_piece
          let best1 := if score > best then score else best
          let alpha1 := if score > alpha then score else alpha
          let s4 :=
            if score > alpha then
              (if s3.board.sq m.dst = EMPTY then record_history (record_killer s3 m ply) m depth
               else s3)
            else s3
          if alpha1 ≥ beta then some (best1, s4)
          else alpha_beta_loop E recurse depth beta ply rest s4 alpha1 best1

/-- The function `alpha_beta`.  The first argument bounds the nesting of calls;
`none` is returned when it is used up. -/
def alpha_beta (E : Env) : Nat → SearchState → Int → Int → Int → Int →
    Option (Int × SearchState)
  | 0, _, _, _, _, _ => none
  | fuel + 1, s, depth, alpha, beta, ply =>
    let t := flag_or_time_up E s
    if t.1 then some (E.evaluate t.2.board, { t.2 with time_up_flag := true })
    else if depth ≤ 0 then quiescence E fuel t.2 alpha beta ply
    else
      let g := t.2.legal_moves E
      if g.1.isEmpty then some (terminal_score E g.2 ply, g.2)
      else
        let scored_moves := E.sort (g.1.map fun m => { move := m, score := order_score g.2 ply m })
        alpha_beta_loop E (fun s a b => alpha_beta E fuel s (depth - 1) a b (ply + 1))
          depth beta ply scored_moves g.2 alpha (-INF)

/-- The result of the root move loop of `find_best_move`. -/
structure RootResult where
  current_best_score : Int
  current_best_move : Move
  state : SearchState

/-- The root move loop of `find_best_move` (lines 172-186); `recurse` is the
call `alpha_beta(board, depth-1, -INF, INF, 1)`. -/
def root_loop (E : Env) (recurse : SearchState → Option (Int × SearchState)) :
    List Move → SearchState → Int → Int → Move → Option RootResult
  | [], s, _, current_best_score, current_best_move =>
    some { current_best_score := current_best_score, current_best_move := current_best_move,
           state := s }
  | m :: rest, s, alpha, current_best_score, current_best_move =>
    let t := flag_or_time_up E s
    if t.1 then
      some { current_best_score := current_best_score, current_best_move := current_best_move,
             state := { t.2 with time_up_flag := true } }
    else
      let r := make_move t.2.board m EMPTY EMPTY
      if r.ok = false then root_loop E recurse rest t.2 alpha current_best_score current_best_move
      else
        match recurse { t.2 with board := r.board } with
        | none => none
        | some (v, s2) =>
          let score := adjust_mate_distance (-v)
          let s3 := s2.unmake m r.captured_piece r.moved_piece
          root_loop E recurse rest s3 (if score > alpha then score else alpha)
            (if score > current_best_score then score else current_best_score)
            (if score > current_best_score then m else current_best_move)

/-- The depth loop of `find_best_move` (lines 164-191) over the remaining
values of `depth`. -/
def depth_loop (E : Env) (fuel : Nat) : List Int → SearchState → Int → Move →
    Option (Move × SearchState)
  | [], s, _, best_move => some (best_move, s)
  | depth :: rest, s, best_score, best_move =>
    let t := is_time_up E s
    if t.1 then some (best_move, t.2)
    else
      let g := t.2.legal_moves E
      if g.1.isEmpty then some (best_move, g.2)
      else
        match root_loop E (fun s => alpha_beta E fuel s (depth - 1) (-INF) INF 1)
            g.1 g.2 (-INF) (-INF) best_move with
        | none => none
        | some r =>
          if r.state.time_up_flag = false then
            depth_loop E fuel rest r.state r.current_best_score r.current_best_move
          else depth_loop E fuel rest r.state best_score best_move

/-- The state `find_best_move` starts from (lines 151-158). -/
def initial_state (board : Board) : SearchState :=
  { board := board, time_up_flag := false,
    killer_moves := fun _ => (Move.mk2 (-1) (-1), Move.mk2 (-1) (-1)),
    history_heuristic := fun _ _ => 0, clock_calls := 0, unmake_on_empty := false }

/-- The function `find_best_move(board, max_depth, time_ms)`; the budget
`time_ms` is in the answers `E.time_up`.  The second argument bounds the
nesting of calls of `alpha_beta` and `quiescence`. -/
def find_best_move (E : Env) (fuel : Nat) (board : Board) (max_depth : Int) :
    Option (Move × SearchState) :=
  let g := (initial_state board).legal_moves E
  match g.1 with
  | [] => some (Move.none, g.2)
  | first :: _ =>
    depth_loop E fuel ((List.range max_depth.toNat).map fun i => (i : Int) + 1) g.2 (-INF) first

/-- The comparator of the two `std::sort` calls of search.cpp. -/
def by_score (a b : ScoredMove) : Prop := a.score ≥ b.score

instance : DecidableRel by_score :=
  fun a b => inferInstanceAs (Decidable (a.score ≥ b.score))

/-- A stable sort in the place of `std::sort`. -/
def stable_sort (l : List ScoredMove) : List ScoredMove := l.insertionSort by_score

/-- An environment for running the search: the geometric tables, an
evaluation that is 0 everywhere, a deadline that never expires. -/
def sample_env : Env :=
  { tables := geometry, evaluate := fun _ => 0, time_up := fun _ => false, sort := stable_sort }

/-- The position `7k/8/1n5n/4P3/4K3/r7/8/8 w - e6 0 1`: the white pawn on e5
stands right behind the en-passant target e6, in front of the white king. -/
def fen_king_behind_pawn : Board :=
  position (place [(28, WK), (36, WP), (16, BR), (41, BN), (47, BN), (63, BK)]) WHITE 44

/-- The position `7k/8/1n5n/4p3/4K3/r7/8/8 w - e6 0 1`: the position
`fen_king_behind_pawn` with a black pawn on e5 in the place of the white one. -/
def fen_king_facing_pawn : Board :=
  position (place [(28, WK), (36, BP), (16, BR), (41, BN), (47, BN), (63, BK)]) WHITE 44

/-- An unpruned full-width search of depth `depth`, after the words of the
spec: the terminal scores `-INF + ply` and 0 of `alpha_beta`, its one-unit
adjustment of mate scores, and at depth 0 the value `quiescence` returns for the
window `(-INF, INF)`.  Every legal move is searched and no window is passed
down. -/
def negamax (E : Env) (fuel : Nat) : Nat → Board → Int → Option Int
  | 0, b, ply => (quiescence E fuel (initial_state b) (-INF) INF ply).map Prod.fst
  | depth + 1, b, ply =>
    let moves := (generate_legal_moves E.tables b).1
    if moves.isEmpty then
      some (if is_king_in_check E.tables b b.side_to_move then -INF + ply else 0)
    else
      moves.foldl (fun best m =>
        match best, negamax E fuel depth (make_move b m EMPTY EMPTY).board (ply + 1) with
        | some x, some v => some (max x (adjust_mate_distance (-v)))
        | _, _ => none) (some (-INF))

/-- The position `8/8/8/4q3/8/1p6/1Pk4P/K7 w - - 0 1`: White can only move
the h-pawn, and after either move Black mates by Qxb2. -/
def fen_two_ways_mated : Board :=
  position (place [(0, WK), (9, WP), (15, WP), (10, BK), (17, BP), (36, BQ)]) WHITE (-1)

/-- What the proofs use about a move `m` on the board `b` that lets the
opponent mate by the capture `c`, which the sorted capture list holds twice:
the reply position has legal moves, `c` leaves no legal move and gives check,
the generator leaves the boards as they are and the two moves are undone
exactly. -/
structure Trap (T : Tables) (srt : List ScoredMove → List ScoredMove) (b : Board) (m : Move)
    (c : ScoredMove) : Prop where
  ok : (make_move b m EMPTY EMPTY).ok = true
  some_reply : (generate_legal_moves T (make_move b m EMPTY EMPTY).board).1.isEmpty = false
  reply_board : (generate_legal_moves T (make_move b m EMPTY EMPTY).board).2 =
    (make_move b m EMPTY EMPTY).board
  captures : srt (capture_list (make_move b m EMPTY EMPTY).board
    (generate_legal_moves T (make_move b m EMPTY EMPTY).board).1) = [c, c]
  no_move : generate_legal_moves T
      (make_move (make_move b m EMPTY EMPTY).board c.move EMPTY EMPTY).board =
    ([], (make_move (make_move b m EMPTY EMPTY).board c.move EMPTY EMPTY).board)
  check : is_king_in_check T
    (make_move (make_move b m EMPTY EMPTY).board c.move EMPTY EMPTY).board
    (make_move (make_move b m EMPTY EMPTY).board c.move EMPTY EMPTY).board.side_to_move = true
  capture_back :
    unmake_move (make_move (make_move b m EMPTY EMPTY).board c.move EMPTY EMPTY).board
      c.move (make_move (make_move b m EMPTY EMPTY).board c.move EMPTY EMPTY).captured_piece
      (make_move (make_move b m EMPTY EMPTY).board c.move EMPTY EMPTY).moved_piece =
    (make_move b m EMPTY EMPTY).board
  back : unmake_move (make_move b m EMPTY EMPTY).board m
    (make_move b m EMPTY EMPTY).captured_piece (make_move b m EMPTY EMPTY).moved_piece = b

/-- The squares of `m` are on the board: the test `make_move` starts with. -/
def Move.OnBoard (m : Move) : Prop := 0 ≤ m.src ∧ m.src < 64 ∧ 0 ≤ m.dst ∧ m.dst < 64

/-- Between the states `s0` and `s` every `make_move` has been undone: the
undo history is the same and no new call of `unmake_move` found it empty. -/
def SearchState.Balanced (s0 s : SearchState) : Prop :=
  s.board.history = s0.board.history ∧ s.unmake_on_empty = s0.unmake_on_empty

/-- The position `7k/8/8/8/8/8/8/2B1K3 w - - 0 1`: a single white bishop. -/
def fen_bishop : Board :=
  position (place [(2, WB), (4, WK), (63, BK)]) WHITE (-1)

/-- The position `4k3/8/8/8/8/n7/8/6K1 w - - 0 1`: a black knight on a3 and
the white king on g1. -/
def fen_knight_a3_king_g1 : Board :=
  position (place [(6, WK), (16, BN), (60, BK)]) WHITE (-1)

/-- The position `7k/8/8/3p4/8/2N5/8/4K3 w - - 0 1`: the knight on c3 can
capture the pawn on d5. -/
def fen_knight_takes_pawn : Board :=
  position (place [(4, WK), (18, WN), (35, BP), (63, BK)]) WHITE (-1)

/-- A state of the search on `board` in which every entry of the history
table holds `value`. -/
def state_with_history (board : Board) (value : Int) : SearchState :=
  { initial_state board with history_heuristic := fun _ _ => value }

/-- The position `7k/8/8/4P3/5K2/8/P7/8 w - e6 0 1`: the white pawn on e5
stands right behind the en-passant target e6, next to the white king on f4. -/
def fen_king_beside_pawn : Board :=
  position (place [(8, WP), (29, WK), (36, WP), (63, BK)]) WHITE 44

/-- The number of squares that hold the piece `p`. -/
def piece_count (b : Board) (p : Piece) : Nat :=
  (allSquares.filter fun i : Nat => b.sq i = p).length

/-- The position `4rbn1/1pp1pkp1/1p4p1/1p1KPpP1/8/8/8/8 w - e6 0 1`: the
advance e5-e6 mates, and the white pawn on e5 stands right behind the
en-passant target. -/
def fen_push_mates : Board :=
  position (place [(35, WK), (36, WP), (38, WP), (53, BK), (60, BR), (61, BB), (62, BN),
    (52, BP), (54, BP), (46, BP), (49, BP), (50, BP), (41, BP), (33, BP), (37, BP)]) WHITE 44

/-- The position `fen_push_mates` with a black pawn on e5 in the place of the
white one. -/
def fen_push_mates_recoloured : Board :=
  position (place [(35, WK), (36, BP), (38, WP), (53, BK), (60, BR), (61, BB), (62, BN),
    (52, BP), (54, BP), (46, BP), (49, BP), (50, BP), (41, BP), (33, BP), (37, BP)]) WHITE 44

/-! ## Index-checked reads of the board -/

/-- The read `squares[i]` with the index checked against the array
`Piece squares[64]`: `none` for an index outside `0..63`. -/
def squares_at (s : Nat) (i : Int) : Option Piece :=
  if 0 ≤ i ∧ i < 64 then some (getSq s i) else none

/-- A sequence of tests, each of which returns `true` from the function on a
hit; a test whose read is off the array stops the sequence with `none`. -/
def any_checked {α : Type} (f : α → Option Bool) : List α → Option Bool
  | [] => some false
  | a :: l =>
    match f a with
    | none => none
    | some true => some true
    | some false => any_checked f l

/-- One pawn test of `Board::is_square_attacked`,
`guard && squares[i] == pawn && file_test`: the operator `&&` evaluates the
read exactly when `guard` holds. -/
def pawn_test_checked (guard : Bool) (s : Nat) (i : Int) (pawn : Piece) (file_test : Bool) :
    Option Bool :=
  if guard then (squares_at s i).map fun p => decide (p = pawn) && file_test
  else some false

/-- The function `Board::is_square_attacked`, pawn attacks (lines 400-406),
with checked reads. -/
def pawn_attack_checked (s : Nat) (square : Int) (attacker : Color) : Option Bool :=
  if attacker = WHITE then
    any_checked id
      [pawn_test_checked (square ≥ 9) s (square - 9) WP (square % 8 ≠ 0),
       pawn_test_checked (square ≥ 7) s (square - 7) WP (square % 8 ≠ 7)]
  else
    any_checked id
      [pawn_test_checked (square ≤ 55) s (square + 7) BP (square % 8 ≠ 0),
       pawn_test_checked (square ≤ 55) s (square + 9) BP (square % 8 ≠ 7)]

/-- The function `Board::is_square_attacked`, knight attacks (lines 409-414),
with checked reads. -/
def knight_attack_checked (s : Nat) (square : Int) (attacker : Color) : Option Bool :=
  any_checked (fun offset : Int =>
    let to_sq := square + offset
    if to_sq < 0 ∨ to_sq ≥ 64 then some false
    else
      (squares_at s to_sq).map fun p =>
        decide ((attacker = WHITE ∧ p = WN) ∨ (attacker = BLACK ∧ p = BN)))
    [-17, -15, -10, -6, 6, 10, 15, 17]

/-- The function `Board::is_square_attacked`, king attacks (lines 417-425),
with checked reads. -/
def king_attack_checked (s : Nat) (square : Int) (attacker : Color) : Option Bool :=
  let rank := square / 8
  let file := square % 8
  any_checked (fun offset : Int =>
    let to_sq := square + offset
    if to_sq < 0 ∨ to_sq ≥ 64 then some false
    else
      let dr := Int.natAbs (to_sq / 8 - rank)
      let df := Int.natAbs (to_sq % 8 - file)
      if dr > 1 ∨ df > 1 then some false
      else
        (squares_at s to_sq).map fun p =>
          decide ((attacker = WHITE ∧ p = WK) ∨ (attacker = BLACK ∧ p = BK)))
    [-9, -8, -7, -1, 1, 7, 8, 9]

/-- The function `Board::is_square_attacked`, rook loop body (lines 431-441),
with checked reads. -/
def rook_ray_checked (s : Nat) (attacker : Color) (rank file dir : Int) :
    Nat → Int → Option Bool
  | 0, _ => some false
  | fuel + 1, cur =>
    let to_sq := cur + dir
    if to_sq < 0 ∨ to_sq ≥ 64 then some false
    else
      let r := to_sq / 8
      let f := to_sq % 8
      if Int.natAbs (r - rank) > 7 ∨ Int.natAbs (f - file) > 7 then some false
      else
        match squares_at s to_sq with
        | none => none
        | some p =>
          if p = EMPTY then rook_ray_checked s attacker rank file dir fuel to_sq
          else if attacker = WHITE ∧ (p = WR ∨ p = WQ) then some true
          else if attacker = BLACK ∧ (p = BR ∨ p = BQ) then some true
          else some false

/-- The function `Board::is_square_attacked`, bishop loop body (lines 448-458),
with checked reads. -/
def bishop_ray_checked (s : Nat) (attacker : Color) (rank file dir : Int) :
    Nat → Int → Option Bool
  | 0, _ => some false
  | fuel + 1, cur =>
    let to_sq := cur + dir
    if to_sq < 0 ∨ to_sq ≥ 64 then some false
    else
      let r := to_sq / 8
      let f := to_sq % 8
      if Int.natAbs (r - rank) > 7 ∨ Int.natAbs (f - file) > 7 ∨
          Int.natAbs (r - rank) ≠ Int.natAbs (f - file) then some false
      else
        match squares_at s to_sq with
        | none => none
        | some p =>
          if p = EMPTY then bishop_ray_checked s attacker rank file dir fuel to_sq
          else if attacker = WHITE ∧ (p = WB ∨ p = WQ) then some true
          else if attacker = BLACK ∧ (p = BB ∨ p = BQ) then some true
          else some false

/-- The function `Board::is_square_attacked` with every read `squares[i]`
checked: the five sections in source order, `none` when a read is off the
array, otherwise the returned value. -/
def is_square_attacked_checked (b : Board) (square : Int) (attacker : Color) : Option Bool :=
  let s := b.squares
  let rank := square / 8
  let file := square % 8
  any_checked id
    [pawn_attack_checked s square attacker,
     knight_attack_checked s square attacker,
     king_attack_checked s square attacker,
     any_checked (fun dir => rook_ray_checked s attacker rank file dir 64 square) [-8, -1, 1, 8],
     any_checked (fun dir => bishop_ray_checked s attacker rank file dir 64 square) [-9, -7, 7, 9]]

/-! ## The search with its table accesses checked -/

/-- The constant `MAX_PLY`, the number of rows of `killer_moves`. -/
def MAX_PLY : Int := 64

/-- What a run of the search is checked against: `node d depth ply` is
evaluated on entry to every call `alpha_beta(board, depth, ., ., ply)` made
during the iteration `depth = d` of `find_best_move`, and `index ply` at
every access `killer_moves[ply]`. -/
structure Checks where
  node : Int → Int → Int → Bool
  index : Int → Bool

/-- The checks `ply >= 1`, `ply + depth = d` at a node and `1 <= ply <= 63` at
an access `killer_moves[ply]`. -/
def ply_checks : Checks :=
  { node := fun d depth ply => decide (1 ≤ ply ∧ ply + depth = d),
    index := fun ply => decide (1 ≤ ply ∧ ply ≤ 63) }

/-- The read `killer_moves[ply]` of a checked run: `none` when the check of
the index fails. -/
def killer_at (C : Checks) (s : SearchState) (ply : Int) : Option (Move × Move) :=
  if C.index ply then some (s.killer_moves ply) else none

/-- The function `record_killer` in a checked run; its first statement reads
`killer_moves[ply][0]`. -/
def record_killer_checked (C : Checks) (s : SearchState) (move : Move) (ply : Int) :
    Option SearchState :=
  match killer_at C s ply with
  | none => none
  | some k =>
    if k.1.src = move.src ∧ k.1.dst = move.dst then some s
    else if k.2.src = move.src ∧ k.2.dst = move.dst then some s
    else some { s with killer_moves := fun i => if i = ply then (move, k.1) else s.killer_moves i }

/-- The ordering score `alpha_beta` gives a move (lines 115-122) in a checked
run: the killer table is read for a move to an empty square only. -/
def order_score_checked (C : Checks) (s : SearchState) (ply : Int) (m : Move) : Option Int :=
  if s.board.sq m.dst ≠ EMPTY then some (score_capture s.board m + 100000)
  else
    match killer_at C s ply with
    | none => none
    | some k =>
      if k.1.src = m.src ∧ k.1.dst = m.dst then some 90000
      else if k.2.src = m.src ∧ k.2.dst = m.dst then some 80000
      else some (s.history_heuristic m.src m.dst)

/-- The scoring loop of `alpha_beta` (lines 113-124) in a checked run. -/
def score_moves_checked (C : Checks) (s : SearchState) (ply : Int) :
    List Move → Option (List ScoredMove)
  | [] => some []
  | m :: rest =>
    match order_score_checked C s ply m with
    | none => none
    | some sc =>
      (score_moves_checked C s ply rest).map fun l => { move := m, score := sc } :: l

/-- The move loop of `alpha_beta` (lines 126-147) in a checked run. -/
def alpha_beta_loop_checked (C : Checks) (E : Env)
    (recurse : SearchState → Int → Int → Option (Int × SearchState))
    (depth beta ply : Int) : List ScoredMove → SearchState → Int → Int →
    Option (Int × SearchState)
  | [], s, _, best => some (best, s)
  | sm :: rest, s, alpha, best =>
    let t := flag_or_time_up E s
    if t.1 then some (best, { t.2 with time_up_flag := true })
    else
      let m := sm.move
      let r := make_move t.2.board m EMPTY EMPTY
      if r.ok = false then alpha_beta_loop_checked C E recurse depth beta ply rest t.2 alpha best
      else
        match recurse { t.2 with board := r.board } (-beta) (-alpha) with
        | none => none
        | some (v, s2) =>
          let score := adjust_mate_distance (-v)
          let s3 := s2.unmake m r.captured_piece r.moved_piece
          let best1 := if score > best then score else best
          let alpha1 := if score > alpha then score else alpha
          let s4 : Option SearchState :=
            if score > alpha then
              (if s3.board.sq m.dst = EMPTY then
                 (record_killer_checked C s3 m ply).map fun k => record_history k m depth
               else some s3)
            else some s3
          match s4 with
          | none => none
          | some s4 =>
            if alpha1 ≥ beta then some (best1, s4)
            else alpha_beta_loop_checked C E recurse depth beta ply rest s4 alpha1 best1

/-- The function `alpha_beta` in a checked run of the iteration `depth = d`
of `find_best_move`: `none` when the nesting bound is used up or a check
fails. -/
def alpha_beta_checked (C : Checks) (E : Env) (d : Int) : Nat → SearchState → Int → Int → Int →
    Int → Option (Int × SearchState)
  | 0, _, _, _, _, _ => none
  | fuel + 1, s, depth, alpha, beta, ply =>
    if C.node d depth ply = false then none
    else
      let t := flag_or_time_up E s
      if t.1 then some (E.evaluate t.2.board, { t.2 with time_up_flag := true })
      else if depth ≤ 0 then quiescence E fuel t.2 alpha beta ply
      else
        let g := t.2.legal_moves E
        if g.1.isEmpty then some (terminal_score E g.2 ply, g.2)
        else
          match score_moves_checked C g.2 ply g.1 with
          | none => none
          | some scored =>
            alpha_beta_loop_checked C E
              (fun s a b => alpha_beta_checked C E d fuel s (depth - 1) a b (ply + 1))
              depth beta ply (E.sort scored) g.2 alpha (-INF)

/-- The depth loop of `find_best_move` (lines 164-191) in a checked run. -/
def depth_loop_checked (C : Checks) (E : Env) (fuel : Nat) : List Int → SearchState → Int →
    Move → Option (Move × SearchState)
  | [], s, _, best_move => some (best_move, s)
  | depth :: rest, s, best_score, best_move =>
    let t := is_time_up E s
    if t.1 then some (best_move, t.2)
    else
      let g := t.2.legal_moves E
      if g.1.isEmpty then some (best_move, g.2)
      else
        match root_loop E (fun s => alpha_beta_checked C E depth fuel s (depth - 1) (-INF) INF 1)
            g.1 g.2 (-INF) (-INF) best_move with
        | none => none
        | some r =>
          if r.state.time_up_flag = false then
            depth_loop_checked C E fuel rest r.state r.current_best_score r.current_best_move
          else depth_loop_checked C E fuel rest r.state best_score best_move

/-- The function `find_best_move(board, max_depth, time_ms)` in a checked
run. -/
def find_best_move_checked (C : Checks) (E : Env) (fuel : Nat) (board : Board)
    (max_depth : Int) : Option (Move × SearchState) :=
  let g := (initial_state board).legal_moves E
  match g.1 with
  | [] => some (Move.none, g.2)
  | first :: _ =>
    depth_loop_checked C E fuel ((List.range max_depth.toNat).map fun i => (i : Int) + 1)
      g.2 (-INF) first

/-! ## Occupied squares -/

/-- The number of occupied squares of the board. -/
def occupied (b : Board) : Nat :=
  (allSquares.filter fun i : Nat => b.sq i ≠ EMPTY).length

/-- A pawn of the side to move stands on its fifth rank right behind the
en-passant target, and the target is empty: the one case in which a generated
move, the straight advance of this pawn, is taken by `make_move` for an
en-passant capture. -/
def PushOnTarget (b : Board) : Prop :=
  b.sq b.en_passant_square = EMPTY ∧
  ((b.side_to_move = WHITE ∧ b.sq (b.en_passant_square - 8) = WP ∧
      (b.en_passant_square - 8) / 8 = 4) ∨
   (b.side_to_move = BLACK ∧ b.sq (b.en_passant_square + 8) = BP ∧
      (b.en_passant_square + 8) / 8 = 3))

instance (b : Board) : Decidable (PushOnTarget b) :=
  inferInstanceAs (Decidable (b.sq b.en_passant_square = EMPTY ∧
    ((b.side_to_move = WHITE ∧ b.sq (b.en_passant_square - 8) = WP ∧
        (b.en_passant_square - 8) / 8 = 4) ∨
     (b.side_to_move = BLACK ∧ b.sq (b.en_passant_square + 8) = BP ∧
        (b.en_passant_square + 8) / 8 = 3))))

/-- The board with the pawn behind the en-passant target given the other
colour: what `unmake_move` leaves after the straight advance of that pawn. -/
def recoloured (b : Board) : Board :=
  { b with squares :=
      if b.side_to_move = WHITE then setSq b.squares (b.en_passant_square - 8) BP
      else setSq b.squares (b.en_passant_square + 8) WP }

/-! ## A clock at the largest `int` -/

/-- The position `4k3/8/8/8/8/8/8/4K1N1 w - - 2147483647 1`: the halfmove
clock holds `INT_MAX`, which `load_fen` reads with `stoi`. -/
def fen_clock_at_max : Board :=
  { position (place [(4, WK), (6, WN), (60, BK)]) WHITE (-1) with
    halfmove_clock := 2147483647 }

/-! # Theorems -/


/-! ## The packed array -/

theorem getSq_lt (s : Nat) (i : Int) : getSq s i < 13 := by
  unfold getSq
  split
  · decide
  · exact Nat.mod_lt _ (by decide)

theorem digit_set_same (s k p : Nat) (hp : p < 13) :
    (s % 13 ^ k + p * 13 ^ k + s / 13 ^ (k + 1) * 13 ^ (k + 1)) / 13 ^ k % 13 = p := by
  have hB : 0 < 13 ^ k := by positivity
  have e : s % 13 ^ k + p * 13 ^ k + s / 13 ^ (k + 1) * 13 ^ (k + 1)
      = s % 13 ^ k + (p + s / 13 ^ (k + 1) * 13) * 13 ^ k := by
    rw [pow_succ]; ring
  rw [e, Nat.add_mul_div_right _ _ hB, Nat.div_eq_of_lt (Nat.mod_lt _ hB), Nat.zero_add,
    Nat.add_mul_mod_self_right, Nat.mod_eq_of_lt hp]

theorem digit_set_below (s k p j : Nat) (hj : j < k) :
    (s % 13 ^ k + p * 13 ^ k + s / 13 ^ (k + 1) * 13 ^ (k + 1)) / 13 ^ j % 13 = s / 13 ^ j % 13 := by
  have hd : 13 ^ (j + 1) ∣ 13 ^ k := pow_dvd_pow 13 hj
  obtain ⟨c, hc⟩ := hd
  have key : ∀ n : Nat, n / 13 ^ j % 13 = n % 13 ^ (j + 1) / 13 ^ j := by
    intro n
    rw [pow_succ, Nat.mod_mul_right_div_self]
  rw [key, key s]
  congr 1
  have e : s % 13 ^ k + p * 13 ^ k + s / 13 ^ (k + 1) * 13 ^ (k + 1)
      = s % 13 ^ k + 13 ^ (j + 1) * (c * (p + s / 13 ^ (k + 1) * 13)) := by
    rw [pow_succ 13 k, hc]; ring
  rw [e, Nat.add_mul_mod_self_left, hc, Nat.mod_mul_right_mod]

theorem digit_set_above (s k p j : Nat) (hp : p < 13) (hj : k < j) :
    (s % 13 ^ k + p * 13 ^ k + s / 13 ^ (k + 1) * 13 ^ (k + 1)) / 13 ^ j % 13 = s / 13 ^ j % 13 := by
  have hB : 0 < 13 ^ k := by positivity
  have hB1 : 0 < 13 ^ (k + 1) := by positivity
  obtain ⟨d, rfl⟩ : ∃ d, j = (k + 1) + d := ⟨j - (k + 1), by omega⟩
  have hlt : s % 13 ^ k + p * 13 ^ k < 13 ^ (k + 1) := by
    have h1 : s % 13 ^ k < 13 ^ k := Nat.mod_lt _ hB
    have h2 : p * 13 ^ k ≤ 12 * 13 ^ k := Nat.mul_le_mul_right _ (by omega)
    rw [pow_succ]; omega
  have e : 13 ^ (k + 1 + d) = 13 ^ (k + 1) * 13 ^ d := pow_add 13 (k + 1) d
  rw [e, ← Nat.div_div_eq_div_mul, ← Nat.div_div_eq_div_mul,
    Nat.add_mul_div_right _ _ hB1, Nat.div_eq_of_lt hlt, Nat.zero_add]

theorem getSq_setSq_same (s : Nat) (i : Int) (p : Piece) (hi : 0 ≤ i) (hp : p < 13) :
    getSq (setSq s i p) i = p := by
  unfold getSq setSq
  rw [if_neg (by omega), if_neg (by omega)]
  exact digit_set_same s i.toNat p hp

theorem getSq_setSq_other (s : Nat) (i j : Int) (p : Piece) (hp : p < 13) (hij : i ≠ j) :
    getSq (setSq s i p) j = getSq s j := by
  unfold getSq setSq
  by_cases hj : j < 0
  · rw [if_pos hj, if_pos hj]
  · rw [if_neg hj, if_neg hj]
    by_cases hi : i < 0
    · rw [if_pos hi]
    · rw [if_neg hi]
      have hne : i.toNat ≠ j.toNat := by omega
      rcases Nat.lt_or_gt_of_ne hne with h | h
      · exact digit_set_above s i.toNat p j.toNat hp h
      · exact digit_set_below s i.toNat p j.toNat h

theorem nat_eq_of_digits : ∀ n s t : Nat, s + t ≤ n →
    (∀ k, s / 13 ^ k % 13 = t / 13 ^ k % 13) → s = t := by
  intro n
  induction n with
  | zero => intro s t h _; omega
  | succ n ih =>
    intro s t h hd
    by_cases h0 : s + t = 0
    · omega
    · have h1 : s / 13 = t / 13 := by
        apply ih
        · omega
        · intro k
          have := hd (k + 1)
          rw [pow_succ, Nat.mul_comm, ← Nat.div_div_eq_div_mul, ← Nat.div_div_eq_div_mul] at this
          exact this
      have h2 := hd 0
      simp only [pow_zero, Nat.div_one] at h2
      omega

theorem squares_ext (s t : Nat) (h : ∀ i : Int, 0 ≤ i → getSq s i = getSq t i) : s = t := by
  apply nat_eq_of_digits (s + t) s t (le_refl _)
  intro k
  have := h (k : Int) (by omega)
  unfold getSq at this
  rw [if_neg (by omega), if_neg (by omega)] at this
  simpa using this

theorem getSq_setSq (s : Nat) (i j : Int) (p : Piece) (hi : 0 ≤ i) (hp : p < 13) :
    getSq (setSq s i p) j = if j = i then p else getSq s j := by
  split
  · next h => subst h; exact getSq_setSq_same s j p hi hp
  · next h => exact getSq_setSq_other s i j p hp (fun e => h e.symm)

/-! ## Legal moves are pseudo-legal moves -/

theorem legal_fold_subset (T : Tables) (l : List Move) :
    ∀ st : List Move × Board, ∀ m ∈ (l.foldl (legal_step T) st).1, m ∈ st.1 ∨ m ∈ l := by
  induction l with
  | nil => intro st m hm; exact Or.inl hm
  | cons a l ih =>
    intro st m hm
    rw [List.foldl_cons] at hm
    rcases ih _ m hm with h | h
    · unfold legal_step at h
      simp only at h
      split at h
      · exact Or.inl h
      · simp only at h
        split at h
        · rcases List.mem_append.mp h with h | h
          · exact Or.inl h
          · rw [List.mem_singleton] at h
            exact Or.inr (h ▸ List.mem_cons_self _ _)
        · exact Or.inl h
    · exact Or.inr (List.mem_cons_of_mem _ h)

theorem legal_subset_pseudo (T : Tables) (b : Board) (m : Move)
    (hm : m ∈ (generate_legal_moves T b).1) : m ∈ generate_pseudo_legal_moves T b := by
  rcases legal_fold_subset T _ _ m hm with h | h
  · simp at h
  · exact h

/-! ## The shape of pseudo-legal moves -/

theorem own_of_eq_pawn (b : Board) (i : Int)
    (h : b.sq i = (if b.side_to_move = WHITE then WP else BP)) :
    ¬ empty_or_theirs b.side_to_move (b.sq i) := by
  unfold empty_or_theirs
  cases hs : b.side_to_move <;> simp only [hs, if_true, if_false, reduceCtorEq] at h <;>
    rw [h] <;> decide

theorem mem_pawn_target (us : Color) (c : Prop) [Decidable c] (s d : Int) (m : Move)
    (h : m ∈ if c then promotion_moves us s d else [Move.mk2 s d]) :
    m.src = s ∧ m.dst = d ∧ m.promotion < 13 ∧ m.is_en_passant_capture = false := by
  split at h
  · cases us <;> simp [promotion_moves, Move.mk3] at h <;>
      rcases h with rfl | rfl | rfl | rfl <;> simp <;> decide
  · simp [Move.mk2] at h
    subst h
    simp

/-- The moves `generate_pawn_moves` appends for one square. -/
theorem mem_pawn_moves_from (b : Board) (sq : Nat) (m : Move) (hsq : sq < 64)
    (hm : m ∈ pawn_moves_from b sq) :
    b.sq sq = (if b.side_to_move = WHITE then WP else BP) ∧ m.src = sq ∧ m.promotion < 13 ∧
    0 ≤ m.dst ∧ m.dst < 64 ∧
    ((m.dst = sq + (if b.side_to_move = WHITE then 8 else -8) ∧ b.sq m.dst = EMPTY) ∨
     (m.dst = sq + 2 * (if b.side_to_move = WHITE then 8 else -8) ∧
        (sq : Int) / 8 = (if b.side_to_move = WHITE then 1 else 6) ∧ m.promotion = EMPTY ∧
        b.sq m.dst = EMPTY) ∨
     (((m.dst = sq + (if b.side_to_move = WHITE then 8 else -8) - 1 ∧ (sq : Int) % 8 > 0) ∨
       (m.dst = sq + (if b.side_to_move = WHITE then 8 else -8) + 1 ∧ (sq : Int) % 8 < 7)) ∧
        (if b.side_to_move = WHITE then BP else WP) ≤ b.sq m.dst ∧
        b.sq m.dst ≤ (if b.side_to_move = WHITE then BK else WK))) := by
  unfold pawn_moves_from at hm
  cases hs : b.side_to_move <;> simp only [hs, if_true, if_false, reduceCtorEq] at hm ⊢ <;>
  (split at hm
   · simp at hm
   · rename_i hp
     rw [not_not] at hp
     refine ⟨hp, ?_⟩
     rw [List.mem_append] at hm
     rcases hm with hm | hm
     · split at hm
       · rename_i h1
         rw [List.mem_append] at hm
         rcases hm with hm | hm
         · obtain ⟨e1, e2, e3, -⟩ := mem_pawn_target _ _ _ _ _ hm
           refine ⟨e1, e3, ?_, ?_, Or.inl ⟨e2, ?_⟩⟩
           · rw [e2]; exact h1.1
           · rw [e2]; exact h1.2.1
           · rw [e2]; exact h1.2.2
         · split at hm
           · rename_i h2
             split at hm
             · rename_i h3
               simp only [List.mem_singleton] at hm
               subst hm
               refine ⟨rfl, ?_, ?_, ?_, Or.inr (Or.inl ⟨rfl, h2, rfl, h3⟩)⟩ <;>
                 simp only [Move.mk2] <;> first | omega | decide
             · simp at hm
           · simp at hm
       · simp at hm
     · rw [List.mem_flatMap] at hm
       obtain ⟨target, ht, hm⟩ := hm
       split at hm
       · simp at hm
       · rename_i hr
         split at hm
         · rename_i hc
           obtain ⟨e1, e2, e3, -⟩ := mem_pawn_target _ _ _ _ _ hm
           rw [e2]
           refine ⟨e1, e3, by omega, by omega, Or.inr (Or.inr ⟨?_, hc.1, hc.2⟩)⟩
           simp only [List.mem_cons, List.mem_singleton, List.not_mem_nil, or_false] at ht
           rcases ht with rfl | rfl
           · left; split_ifs at hr ⊢ <;> omega
           · right; split_ifs at hr ⊢ <;> omega
         · simp at hm)

theorem pawn_shape (b : Board) (m : Move) (hm : m ∈ generate_pawn_moves b) :
    PseudoShape b m := by
  unfold generate_pawn_moves at hm
  rw [List.mem_flatMap] at hm
  obtain ⟨sq, hsq, hm⟩ := hm
  have hsq64 : sq < 64 := by simpa [allSquares] using hsq
  obtain ⟨hp, e1, e3, h0, h64, hd⟩ := mem_pawn_moves_from b sq m hsq64 hm
  have hown := own_of_eq_pawn b sq hp
  have hpc : b.sq m.src = WP ∨ b.sq m.src = BP := by
    rw [e1, hp]; split <;> simp
  have hnk : b.sq m.src ≠ WK ∧ b.sq m.src ≠ BK := by
    rcases hpc with h | h <;> rw [h] <;> decide
  refine ⟨by omega, ⟨h0, h64⟩, by rw [e1]; exact hown, e3, fun _ => hpc, ?_,
    fun h => absurd h hnk.1, fun h => absurd h hnk.1, fun h => absurd h hnk.2,
    fun h => absurd h hnk.2⟩
  intro _ dir hdir
  rw [e1, hdir]
  rcases hd with ⟨h1, h2⟩ | ⟨h1, h2, h3, _⟩ | ⟨h1, h2, _⟩
  · exact Or.inl ⟨h1, h2⟩
  · exact Or.inr (Or.inl ⟨h1, h2, h3⟩)
  · refine Or.inr (Or.inr ⟨h1, ?_⟩)
    intro h0
    rw [h0] at h2
    split at h2 <;> simp at h2

/-- A move of a knight, slider or king: not a pawn move, not a castling move. -/
theorem shape_plain (b : Board) (src dst : Int) (hs : 0 ≤ src ∧ src < 64)
    (hd : 0 ≤ dst ∧ dst < 64) (hown : ¬ empty_or_theirs b.side_to_move (b.sq src))
    (hnp : b.sq src ≠ WP ∧ b.sq src ≠ BP)
    (hk : b.sq src = WK ∨ b.sq src = BK → dst ≠ src + 2 ∧ dst ≠ src - 2) :
    PseudoShape b (Move.mk2 src dst) := by
  have hpl : (Move.mk2 src dst).promotion < 13 := by simp [Move.mk2]
  refine ⟨hs, hd, hown, hpl, fun h => absurd rfl h, fun h => ?_, ?_, ?_, ?_, ?_⟩
  · rcases h with h | h
    · exact absurd h hnp.1
    · exact absurd h hnp.2
  all_goals
    intro h1 h2 h3
    simp only [Move.mk2] at h1 h2 h3
    have := hk (by first | exact Or.inl h1 | exact Or.inr h1)
    simp only [E1, G1, C1, E8, G8, C8] at h2 h3
    omega

theorem mem_slide (b : Board) (sq : Int) (l : List Int) (m : Move) (hm : m ∈ slide b sq l) :
    m = Move.mk2 sq m.dst ∧ m.dst ∈ l ∧
      (b.sq m.dst = EMPTY ∨ theirs b.side_to_move (b.sq m.dst)) := by
  induction l with
  | nil => simp [slide] at hm
  | cons t rest ih =>
    unfold slide at hm
    split at hm
    · rename_i he
      rcases List.mem_cons.mp hm with h | h
      · subst h
        exact ⟨rfl, List.mem_cons_self _ _, Or.inl he⟩
      · obtain ⟨h1, h2, h3⟩ := ih h
        exact ⟨h1, List.mem_cons_of_mem _ h2, h3⟩
    · split at hm
      · rename_i ht
        simp only [List.mem_singleton] at hm
        subst hm
        exact ⟨rfl, List.mem_cons_self _ _, Or.inr ht⟩
      · simp at hm

theorem knight_shape (T : Tables) (hT : T.InRange) (b : Board) (m : Move)
    (hm : m ∈ generate_knight_moves T b) : PseudoShape b m := by
  unfold generate_knight_moves at hm
  rw [List.mem_flatMap] at hm
  obtain ⟨sq, hsq, hm⟩ := hm
  have hsq64 : sq < 64 := by simpa [allSquares] using hsq
  unfold knight_moves_from at hm
  simp only [] at hm
  split at hm
  · simp at hm
  · rename_i hown
    split at hm
    · simp at hm
    · rename_i hp
      rw [List.mem_flatMap] at hm
      obtain ⟨target, ht, hm⟩ := hm
      split at hm
      · simp only [List.mem_singleton] at hm
        subst hm
        have hr := hT.1 sq target ht
        apply shape_plain b sq target (by omega) hr hown
        · constructor <;> intro h <;> rw [h] at hp <;> simp at hp
        · intro h; rcases h with h | h <;> rw [h] at hp <;> simp at hp
      · simp at hm

theorem slider_shape (b : Board) (sq : Nat) (hsq : sq < 64) (l : List Int) (m : Move)
    (hl : ∀ t ∈ l, 0 ≤ t ∧ t < 64)
    (hown : ¬ empty_or_theirs b.side_to_move (b.sq sq))
    (hp : b.sq sq = WB ∨ b.sq sq = BB ∨ b.sq sq = WR ∨ b.sq sq = BR ∨ b.sq sq = WQ ∨
      b.sq sq = BQ)
    (hm : m ∈ slide b sq l) : PseudoShape b m := by
  obtain ⟨h1, h2, _⟩ := mem_slide b sq l m hm
  rw [h1]
  apply shape_plain b sq m.dst (by omega) (hl _ h2) hown
  · constructor <;> intro h <;> rw [h] at hp <;> simp at hp
  · intro h; rcases h with h | h <;> rw [h] at hp <;> simp at hp

theorem bishop_shape (T : Tables) (hT : T.InRange) (b : Board) (m : Move)
    (hm : m ∈ generate_bishop_moves T b) : PseudoShape b m := by
  unfold generate_bishop_moves at hm
  rw [List.mem_flatMap] at hm
  obtain ⟨sq, hsq, hm⟩ := hm
  have hsq64 : sq < 64 := by simpa [allSquares] using hsq
  unfold bishop_moves_from at hm
  simp only [] at hm
  split at hm
  · simp at hm
  · rename_i hown
    split at hm
    · simp at hm
    · rename_i hp
      rw [List.mem_flatMap] at hm
      obtain ⟨d, _, hm⟩ := hm
      exact slider_shape b sq hsq64 _ m (hT.2.1 sq d) hown
        (by dsimp only [Piece] at hp ⊢; omega) hm

theorem rook_shape (T : Tables) (hT : T.InRange) (b : Board) (m : Move)
    (hm : m ∈ generate_rook_moves T b) : PseudoShape b m := by
  unfold generate_rook_moves at hm
  rw [List.mem_flatMap] at hm
  obtain ⟨sq, hsq, hm⟩ := hm
  have hsq64 : sq < 64 := by simpa [allSquares] using hsq
  unfold rook_moves_from at hm
  simp only [] at hm
  split at hm
  · simp at hm
  · rename_i hown
    split at hm
    · simp at hm
    · rename_i hp
      rw [List.mem_flatMap] at hm
      obtain ⟨d, _, hm⟩ := hm
      exact slider_shape b sq hsq64 _ m (hT.2.2 sq d) hown
        (by dsimp only [Piece] at hp ⊢; omega) hm

theorem king_shape (b : Board) (m : Move) (hm : m ∈ generate_king_moves b) :
    PseudoShape b m := by
  unfold generate_king_moves at hm
  rw [List.mem_flatMap] at hm
  obtain ⟨sq, hsq, hm⟩ := hm
  have hsq64 : sq < 64 := by simpa [allSquares] using hsq
  unfold king_moves_from at hm
  simp only [] at hm
  split at hm
  · simp at hm
  · rename_i hown
    split at hm
    · simp at hm
    · rename_i hp
      rw [List.mem_flatMap] at hm
      obtain ⟨offset, ho, hm⟩ := hm
      split at hm
      · simp at hm
      · rename_i hr
        split at hm
        · simp at hm
        · split at hm
          · simp only [List.mem_singleton] at hm
            subst hm
            apply shape_plain b sq (sq + offset) (by omega) (by omega) hown
            · constructor <;> intro h <;> rw [h] at hp <;> simp at hp
            · intro _
              simp only [List.mem_cons, List.mem_singleton, List.not_mem_nil, or_false] at ho
              omega
          · simp at hm

theorem castling_shape (b : Board) (m : Move) (hm : m ∈ generate_castling_moves b) :
    PseudoShape b m := by
  unfold generate_castling_moves at hm
  simp only [] at hm
  split at hm
  · rename_i hs
    rw [List.mem_append] at hm
    rcases hm with hm | hm <;> split at hm <;>
      first
      | (exfalso; simp at hm; done)
      | (rename_i hc
         simp only [List.mem_singleton] at hm
         subst hm
         have hk : b.sq E1 = WK := hc.2.1
         refine ⟨by decide, by decide, ?_, by simp [Move.mk2], fun h => absurd rfl h, ?_, ?_, ?_, ?_, ?_⟩
         · show ¬ empty_or_theirs b.side_to_move (b.sq E1)
           rw [hk, hs]; decide
         · intro h
           change b.sq E1 = WP ∨ b.sq E1 = BP at h
           rw [hk] at h; simp at h
         all_goals
           intro h1 h2 h3
           first
           | exact ⟨hc.2.2.1, hc.2.2.2.1, hc.2.2.2.2.1⟩
           | (exfalso; revert h1 h2 h3; simp [Move.mk2, hk]))
  · rename_i hs
    have hs2 : b.side_to_move = BLACK := by cases h : b.side_to_move <;> simp_all
    rw [List.mem_append] at hm
    rcases hm with hm | hm <;> split at hm <;>
      first
      | (exfalso; simp at hm; done)
      | (rename_i hc
         simp only [List.mem_singleton] at hm
         subst hm
         have hk : b.sq E8 = BK := hc.2.1
         refine ⟨by decide, by decide, ?_, by simp [Move.mk2], fun h => absurd rfl h, ?_, ?_, ?_, ?_, ?_⟩
         · show ¬ empty_or_theirs b.side_to_move (b.sq E8)
           rw [hk, hs2]; decide
         · intro h
           change b.sq E8 = WP ∨ b.sq E8 = BP at h
           rw [hk] at h; simp at h
         all_goals
           intro h1 h2 h3
           first
           | exact ⟨hc.2.2.1, hc.2.2.2.1, hc.2.2.2.2.1⟩
           | (exfalso; revert h1 h2 h3; simp [Move.mk2, hk]))

/-- Every pseudo-legal move has the shape `PseudoShape`. -/
theorem pseudo_shape (T : Tables) (hT : T.InRange) (b : Board) (m : Move)
    (hm : m ∈ generate_pseudo_legal_moves T b) : PseudoShape b m := by
  unfold generate_pseudo_legal_moves generate_queen_moves at hm
  simp only [List.mem_append] at hm
  rcases hm with (((((h | h) | h) | h) | (h | h)) | h) | h
  · exact pawn_shape b m h
  · exact knight_shape T hT b m h
  · exact bishop_shape T hT b m h
  · exact rook_shape T hT b m h
  · exact bishop_shape T hT b m h
  · exact rook_shape T hT b m h
  · exact king_shape b m h
  · exact castling_shape b m h
/-! ## Apply and undo -/

theorem setSq_getSq_self (s : Nat) (i : Int) : setSq s i (getSq s i) = s := by
  by_cases hi : i < 0
  · unfold setSq; rw [if_pos hi]
  · apply squares_ext
    intro j _
    rw [getSq_setSq s i j _ (by omega) (getSq_lt s i)]
    split
    · next h => rw [h]
    · rfl

theorem move_back (s : Nat) (src dst : Int) (x : Piece) (hs : 0 ≤ src) (hd : 0 ≤ dst)
    (hx : x < 13) :
    setSq (setSq (setSq (setSq s dst x) src EMPTY) src (getSq s src)) dst (getSq s dst) = s := by
  apply squares_ext
  intro j _
  rw [getSq_setSq _ dst j _ hd (getSq_lt s dst), getSq_setSq _ src j _ hs (getSq_lt s src),
    getSq_setSq _ src j _ hs (by decide), getSq_setSq _ dst j _ hd hx]
  split_ifs <;> simp_all

theorem castle_back (s : Nat) (k r : Piece) (e f g h : Int) (hk : k < 13) (hr : r < 13)
    (he : 0 ≤ e) (hf : 0 ≤ f) (hg : 0 ≤ g) (hh : 0 ≤ h)
    (h1 : getSq s e = k) (h2 : getSq s h = r) (h3 : getSq s f = EMPTY)
    (h4 : getSq s g = EMPTY) :
    setSq (setSq (setSq (setSq (setSq (setSq (setSq (setSq s g k) e EMPTY) f r) h EMPTY)
      e k) g EMPTY) h r) f EMPTY = s := by
  apply squares_ext
  intro j _
  rw [getSq_setSq _ f j _ hf (by decide), getSq_setSq _ h j _ hh hr,
    getSq_setSq _ g j _ hg (by decide), getSq_setSq _ e j _ he hk,
    getSq_setSq _ h j _ hh (by decide), getSq_setSq _ f j _ hf hr,
    getSq_setSq _ e j _ he (by decide), getSq_setSq _ g j _ hg hk]
  split_ifs <;> simp_all


/-- A generated move never takes the en-passant branch of `make_move` on a
board that is `EPSafe`. -/
theorem no_en_passant_branch (b : Board) (m : Move) (hsh : PseudoShape b m) (hep : EPSafe b) :
    ¬ (((getSq b.squares m.src = WP ∧ m.src / 8 = 4 ∧ m.dst = b.en_passant_square) ∨
        (getSq b.squares m.src = BP ∧ m.src / 8 = 3 ∧ m.dst = b.en_passant_square)) ∧
       getSq b.squares m.dst = EMPTY) := by
  rintro ⟨h, he⟩
  have hown := hsh.own
  have hd := hsh.dst_range
  unfold empty_or_theirs at hown
  unfold EPSafe at hep
  rcases h with ⟨h1, h2, h3⟩ | ⟨h1, h2, h3⟩
  · have h1b : b.sq m.src = WP := h1
    have hs : b.side_to_move = WHITE := by
      cases hs : b.side_to_move
      · rfl
      · rw [h1b, hs] at hown; exact absurd (by decide) hown
    have hp := hsh.pawn (Or.inl h1) 8 (by rw [hs]; rfl)
    have hep2 := (hep (by omega)).1 hs
    rcases hp with ⟨p1, _⟩ | ⟨_, p2, _⟩ | ⟨_, p2⟩
    · apply hep2
      rw [← h3, p1]
      have : m.src + 8 - 8 = m.src := by omega
      rw [this]; exact h1
    · rw [hs] at p2; simp only [if_true] at p2; omega
    · exact p2 he
  · have h1b : b.sq m.src = BP := h1
    have hs : b.side_to_move = BLACK := by
      cases hs : b.side_to_move
      · rw [h1b, hs] at hown; exact absurd (by decide) hown
      · rfl
    have hp := hsh.pawn (Or.inr h1) (-8) (by rw [hs]; rfl)
    have hep2 := (hep (by omega)).2 hs
    rcases hp with ⟨p1, _⟩ | ⟨_, p2, _⟩ | ⟨_, p2⟩
    · apply hep2
      rw [← h3, p1]
      have : m.src + -8 + 8 = m.src := by omega
      rw [this]; exact h1
    · rw [hs] at p2; simp only [reduceCtorEq, if_false] at p2; omega
    · exact p2 he

/-- The squares come back: the writes of `unmake_move` undo those of `make_move`
when the move is plain or a castling move with the rook and the empty squares
in place. -/
theorem squares_back (s : Nat) (src dst : Int) (x : Piece) (hs : 0 ≤ src) (hd : 0 ≤ dst)
    (hx : x < 13)
    (h_wk : getSq s src = WK → src = E1 → dst = G1 →
      getSq s H1 = WR ∧ getSq s F1 = EMPTY ∧ getSq s G1 = EMPTY)
    (h_wq : getSq s src = WK → src = E1 → dst = C1 →
      getSq s A1 = WR ∧ getSq s D1 = EMPTY ∧ getSq s C1 = EMPTY)
    (h_bk : getSq s src = BK → src = E8 → dst = G8 →
      getSq s H8 = BR ∧ getSq s F8 = EMPTY ∧ getSq s G8 = EMPTY)
    (h_bq : getSq s src = BK → src = E8 → dst = C8 →
      getSq s A8 = BR ∧ getSq s D8 = EMPTY ∧ getSq s C8 = EMPTY)
    (hxk : getSq s src = WK ∨ getSq s src = BK → x = getSq s src) :
    uncastle_rook (setSq (setSq (castle_rook (setSq (setSq s dst x) src EMPTY)
      (getSq s src) src dst) src (getSq s src)) dst (getSq s dst)) (getSq s src) src dst = s := by
  unfold castle_rook uncastle_rook
  by_cases c1 : getSq s src = WK ∧ src = E1
  · rw [if_pos c1, if_pos c1]
    obtain ⟨k1, k2⟩ := c1
    subst k2
    have hx2 := hxk (Or.inl k1)
    by_cases c2 : dst = G1
    · subst c2
      rw [if_pos rfl, if_pos rfl]
      obtain ⟨r1, r2, r3⟩ := h_wk k1 rfl rfl
      rw [hx2, k1, r3]
      exact castle_back s WK WR E1 F1 G1 H1 (by decide) (by decide) (by decide) (by decide)
        (by decide) (by decide) k1 r1 r2 r3
    · rw [if_neg c2, if_neg c2]
      by_cases c3 : dst = C1
      · subst c3
        rw [if_pos rfl, if_pos rfl]
        obtain ⟨r1, r2, r3⟩ := h_wq k1 rfl rfl
        rw [hx2, k1, r3]
        exact castle_back s WK WR E1 D1 C1 A1 (by decide) (by decide) (by decide) (by decide)
          (by decide) (by decide) k1 r1 r2 r3
      · rw [if_neg c3, if_neg c3]
        exact move_back s E1 dst x hs hd hx
  · rw [if_neg c1, if_neg c1]
    by_cases c1b : getSq s src = BK ∧ src = E8
    · rw [if_pos c1b, if_pos c1b]
      obtain ⟨k1, k2⟩ := c1b
      subst k2
      have hx2 := hxk (Or.inr k1)
      by_cases c2 : dst = G8
      · subst c2
        rw [if_pos rfl, if_pos rfl]
        obtain ⟨r1, r2, r3⟩ := h_bk k1 rfl rfl
        rw [hx2, k1, r3]
        exact castle_back s BK BR E8 F8 G8 H8 (by decide) (by decide) (by decide) (by decide)
          (by decide) (by decide) k1 r1 r2 r3
      · rw [if_neg c2, if_neg c2]
        by_cases c3 : dst = C8
        · subst c3
          rw [if_pos rfl, if_pos rfl]
          obtain ⟨r1, r2, r3⟩ := h_bq k1 rfl rfl
          rw [hx2, k1, r3]
          exact castle_back s BK BR E8 D8 C8 A8 (by decide) (by decide) (by decide) (by decide)
            (by decide) (by decide) k1 r1 r2 r3
        · rw [if_neg c3, if_neg c3]
          exact move_back s E8 dst x hs hd hx
    · rw [if_neg c1b, if_neg c1b]
      exact move_back s src dst x hs hd hx

theorem round_trip_of_shape (b : Board) (m : Move) (c0 m0 : Piece) (hsh : PseudoShape b m)
    (hep : EPSafe b) :
    (make_move b m c0 m0).ok = true ∧
    unmake_move (make_move b m c0 m0).board m (make_move b m c0 m0).captured_piece
      (make_move b m c0 m0).moved_piece = b := by
  have hne := no_en_passant_branch b m hsh hep
  have hs := hsh.src_range
  have hd := hsh.dst_range
  have hown := hsh.own
  have hx : (if m.promotion ≠ EMPTY then m.promotion else getSq b.squares m.src) < 13 := by
    split
    · exact hsh.promo_lt
    · exact getSq_lt _ _
  have hxk : getSq b.squares m.src = WK ∨ getSq b.squares m.src = BK →
      (if m.promotion ≠ EMPTY then m.promotion else getSq b.squares m.src)
        = getSq b.squares m.src := by
    intro hk
    split
    · next hp =>
      have := hsh.promo hp
      change getSq b.squares m.src = WP ∨ getSq b.squares m.src = BP at this
      rcases hk with hk | hk <;> rw [hk] at this <;> simp at this
    · rfl
  have core := squares_back b.squares m.src m.dst _ hs.1 hd.1 hx hsh.castle_wk hsh.castle_wq
    hsh.castle_bk hsh.castle_bq hxk
  unfold make_move
  simp only []
  rw [if_neg (by omega)]
  simp only [hne, decide_False, Bool.false_eq_true, if_false]
  refine ⟨trivial, ?_⟩
  unfold unmake_move
  simp only [ne_eq, not_true_eq_false, if_false]
  rw [core]
  have hpawn : m.promotion ≠ EMPTY →
      setSq (setSq b.squares m.src (if b.side_to_move = WHITE then WP else BP)) m.dst
        (getSq b.squares m.dst) = b.squares := by
    intro hp
    have h1 := hsh.promo hp
    have h2 : (if b.side_to_move = WHITE then WP else BP) = b.sq m.src := by
      unfold empty_or_theirs at hown
      cases hs : b.side_to_move <;> rcases h1 with h1 | h1 <;> rw [h1, hs] at hown <;>
        first
        | (rw [h1]; rfl)
        | exact absurd (by decide) hown
    change (if b.side_to_move = WHITE then WP else BP) = getSq b.squares m.src at h2
    rw [h2, setSq_getSq_self, setSq_getSq_self]
  cases b
  simp only [Board.mk.injEq, and_true]
  split
  · next hp => exact hpawn hp
  · rfl
/-! ## Reachable positions -/

theorem castle_rook_of_pawn (s : Nat) (p : Piece) (src dst : Int) (hp : p = WP ∨ p = BP) :
    castle_rook s p src dst = s := by
  unfold castle_rook
  rcases hp with h | h <;> subst h <;> simp

theorem epsafe_step (b : Board) (m : Move) (c0 m0 : Piece) (hsh : PseudoShape b m)
    (hep : EPSafe b) : EPSafe (make_move b m c0 m0).board := by
  have hne := no_en_passant_branch b m hsh hep
  have hs := hsh.src_range
  have hd := hsh.dst_range
  have hown := hsh.own
  unfold empty_or_theirs at hown
  unfold make_move
  simp only []
  rw [if_neg (by omega)]
  simp only [hne, decide_False, Bool.false_eq_true, if_false]
  unfold EPSafe Board.sq
  simp only []
  by_cases hw : getSq b.squares m.src = WP ∧ m.src / 8 = 1 ∧ m.dst / 8 = 3
  · rw [if_pos hw]
    obtain ⟨h1, h2, h3⟩ := hw
    have h1b : b.sq m.src = WP := h1
    have hside : b.side_to_move = WHITE := by
      cases hs : b.side_to_move
      · rfl
      · rw [h1b, hs] at hown; exact absurd (by decide) hown
    have hp := hsh.pawn (Or.inl h1) 8 (by rw [hside]; rfl)
    have hdst : m.dst = m.src + 16 ∧ m.promotion = EMPTY := by
      rcases hp with ⟨p1, _⟩ | ⟨p1, _, p3⟩ | ⟨p1, _⟩
      · omega
      · exact ⟨by omega, p3⟩
      · omega
    intro _
    rw [hside]
    refine ⟨fun h => by simp at h, fun _ => ?_⟩
    rw [castle_rook_of_pawn _ _ _ _ (Or.inl h1), h1, hdst.2]
    have e : m.src + 8 + 8 = m.dst := by omega
    rw [e, getSq_setSq _ _ _ _ hs.1 (by decide), if_neg (by omega),
      getSq_setSq_same _ _ _ hd.1 (by decide)]
    decide
  · rw [if_neg hw]
    by_cases hb : getSq b.squares m.src = BP ∧ m.src / 8 = 6 ∧ m.dst / 8 = 4
    · rw [if_pos hb]
      obtain ⟨h1, h2, h3⟩ := hb
      have h1b : b.sq m.src = BP := h1
      have hside : b.side_to_move = BLACK := by
        cases hs : b.side_to_move
        · rw [h1b, hs] at hown; exact absurd (by decide) hown
        · rfl
      have hp := hsh.pawn (Or.inr h1) (-8) (by rw [hside]; rfl)
      have hdst : m.dst = m.src - 16 ∧ m.promotion = EMPTY := by
        rcases hp with ⟨p1, _⟩ | ⟨p1, _, p3⟩ | ⟨p1, _⟩
        · omega
        · exact ⟨by omega, p3⟩
        · omega
      intro _
      rw [hside]
      refine ⟨fun _ => ?_, fun h => by simp at h⟩
      rw [castle_rook_of_pawn _ _ _ _ (Or.inr h1), h1, hdst.2]
      have e : m.src - 8 - 8 = m.dst := by omega
      rw [e, getSq_setSq _ _ _ _ hs.1 (by decide), if_neg (by omega),
        getSq_setSq_same _ _ _ hd.1 (by decide)]
      decide
    · rw [if_neg hb]
      intro h
      exact absurd h (by decide)

theorem startpos_epsafe : EPSafe startpos := by
  intro h
  exact absurd h (by decide)

theorem reachable_epsafe (T : Tables) (hT : T.InRange) (b : Board) (hb : Reachable T b) :
    EPSafe b := by
  induction hb with
  | start => exact startpos_epsafe
  | step b m _ hm ih =>
    exact epsafe_step b m EMPTY EMPTY (pseudo_shape T hT b m (legal_subset_pseudo T b m hm)) ih

/-! ## The geometry tables -/

theorem mem_row_entries (n : Nat) (row : List Int) (t : Int) (h : t ∈ row_entries n row) :
    t ∈ row :=
  List.mem_of_mem_take (List.takeWhile_subset _ h)

theorem ray_range (sq : Nat) (dr df : Int) (t : Int) (h : t ∈ ray sq dr df) :
    0 ≤ t ∧ t < 64 := by
  unfold ray at h
  rw [List.mem_map] at h
  obtain ⟨p, hp, rfl⟩ := h
  have := List.mem_takeWhile_imp hp
  simp only [decide_eq_true_eq] at this
  omega

theorem knight_targets_range (sq : Nat) (t : Int) (h : t ∈ knight_targets sq) :
    0 ≤ t ∧ t < 64 := by
  unfold knight_targets at h
  rw [List.mem_map] at h
  obtain ⟨p, hp, rfl⟩ := h
  have := (List.mem_filter.mp hp).2
  simp only [decide_eq_true_eq] at this
  omega

theorem geometry_inRange : geometry.InRange := by
  refine ⟨fun sq t h => knight_targets_range sq t (mem_row_entries _ _ _ h), fun sq d t h => ?_,
    fun sq d t h => ?_⟩
  · have h2 := mem_row_entries _ _ _ h
    unfold geometry at h2
    simp only at h2
    split at h2 <;> exact ray_range _ _ _ _ h2
  · have h2 := mem_row_entries _ _ _ h
    unfold geometry at h2
    simp only at h2
    split at h2 <;> exact ray_range _ _ _ _ h2

/-! ## C1: apply/undo round trip on reachable positions -/

theorem e2e4_legal : Move.mk2 12 28 ∈ (generate_legal_moves geometry startpos).1 := by
  decide!

/-- C1. For every position reachable from the standard starting position by
moves returned by `generate_legal_moves`, and every move `m` that
`generate_legal_moves` returns there, `make_move` returns `true` and
`unmake_move` with the two reported pieces restores the `Board` field for
field, including the squares and the undo history (the entries the generator
loops read from the precomputed tables being squares of the board). -/
theorem make_unmake_round_trip (T : Tables) (hT : T.InRange) (b : Board)
    (hb : Reachable T b) (m : Move) (hm : m ∈ (generate_legal_moves T b).1)
    (c0 m0 : Piece) :
    (make_move b m c0 m0).ok = true ∧
    unmake_move (make_move b m c0 m0).board m (make_move b m c0 m0).captured_piece
      (make_move b m c0 m0).moved_piece = b :=
  round_trip_of_shape b m c0 m0 (pseudo_shape T hT b m (legal_subset_pseudo T b m hm))
    (reachable_epsafe T hT b hb)

theorem make_unmake_round_trip_witness :
    geometry.InRange ∧ Reachable geometry startpos ∧
    Move.mk2 12 28 ∈ (generate_legal_moves geometry startpos).1 ∧
    ((make_move startpos (Move.mk2 12 28) EMPTY EMPTY).ok = true ∧
     unmake_move (make_move startpos (Move.mk2 12 28) EMPTY EMPTY).board (Move.mk2 12 28)
       (make_move startpos (Move.mk2 12 28) EMPTY EMPTY).captured_piece
       (make_move startpos (Move.mk2 12 28) EMPTY EMPTY).moved_piece = startpos) :=
  ⟨geometry_inRange, Reachable.start, e2e4_legal,
    make_unmake_round_trip geometry geometry_inRange startpos Reachable.start (Move.mk2 12 28)
      e2e4_legal EMPTY EMPTY⟩

/-! ## C2: out-of-range coordinates -/

/-- C2. For every position and every move whose origin or destination lies
outside `0..63`, `make_move` returns `false`, leaves the two reference
parameters alone and changes no field of the `Board` (no undo frame is
pushed). -/
theorem make_move_out_of_range (b : Board) (m : Move) (c0 m0 : Piece)
    (h : m.src < 0 ∨ m.src ≥ 64 ∨ m.dst < 0 ∨ m.dst ≥ 64) :
    (make_move b m c0 m0).ok = false ∧ (make_move b m c0 m0).board = b ∧
    (make_move b m c0 m0).captured_piece = c0 ∧ (make_move b m c0 m0).moved_piece = m0 := by
  unfold make_move
  simp only []
  rw [if_pos h]
  exact ⟨rfl, rfl, rfl, rfl⟩

theorem make_move_out_of_range_witness :
    ((Move.mk2 12 64).src < 0 ∨ (Move.mk2 12 64).src ≥ 64 ∨ (Move.mk2 12 64).dst < 0 ∨
      (Move.mk2 12 64).dst ≥ 64) ∧
    ((make_move startpos (Move.mk2 12 64) WQ BK).ok = false ∧
     (make_move startpos (Move.mk2 12 64) WQ BK).board = startpos ∧
     (make_move startpos (Move.mk2 12 64) WQ BK).captured_piece = WQ ∧
     (make_move startpos (Move.mk2 12 64) WQ BK).moved_piece = BK) :=
  ⟨by decide, make_move_out_of_range startpos (Move.mk2 12 64) WQ BK (by decide)⟩

/-! ## C3: undo on an empty history -/

/-- C3. `unmake_move` on a position whose undo history is empty changes no
field of the `Board`, whatever the move and the two piece arguments. -/
theorem unmake_move_empty_history (b : Board) (m : Move) (captured_piece moved_piece : Piece)
    (h : b.history = []) : unmake_move b m captured_piece moved_piece = b := by
  unfold unmake_move
  rw [h]

theorem unmake_move_empty_history_witness :
    startpos.history = [] ∧ unmake_move startpos (Move.mk2 12 28) BQ WP = startpos :=
  ⟨rfl, unmake_move_empty_history startpos (Move.mk2 12 28) BQ WP rfl⟩

/-! ## C4, C5: the straight advance onto the en-passant target -/

/-- C4 (code evaluated at the failing input).  In the position
`8/8/8/4P3/8/4K3/8/7k w - e6 0 1` the king moves e3-d4 and e3-f4 are
pseudo-legal and leave the white king out of check when tried on the position,
but `generate_legal_moves` does not return them: the list it returns is not
the filtered list. -/
theorem legal_moves_drop_legal_king_moves :
    Move.mk2 20 27 ∈ legal_filter geometry fen_pawn_behind_target ∧
    Move.mk2 20 29 ∈ legal_filter geometry fen_pawn_behind_target ∧
    Move.mk2 20 27 ∉ (generate_legal_moves geometry fen_pawn_behind_target).1 ∧
    Move.mk2 20 29 ∉ (generate_legal_moves geometry fen_pawn_behind_target).1 ∧
    (generate_legal_moves geometry fen_pawn_behind_target).1
      ≠ legal_filter geometry fen_pawn_behind_target := by
  decide!

/-- C5 (code evaluated at the failing input).  In the position
`8/8/8/4P3/8/4K3/8/7k w - e6 0 1`, `generate_legal_moves` returns with a black
pawn on e5, where a white pawn stood before the call. -/
theorem legal_moves_corrupt_board :
    fen_pawn_behind_target.sq 36 = WP ∧
    (generate_legal_moves geometry fen_pawn_behind_target).2.sq 36 = BP ∧
    (generate_legal_moves geometry fen_pawn_behind_target).2 ≠ fen_pawn_behind_target := by
  decide!

/-! ## C8: en-passant captures are not generated -/

/-- C8 (code evaluated at the failing input).  In the position
`4k3/8/8/3pP3/8/8/8/4K3 w - d6 0 1` the capture e5xd6 en passant leaves the
white king out of check, yet neither the pseudo-legal nor the legal list holds
a move from e5 to d6. -/
theorem en_passant_capture_not_generated :
    is_king_in_check geometry
      (make_move fen_en_passant (Move.mk2 36 43) EMPTY EMPTY).board WHITE = false ∧
    (∀ m ∈ generate_pseudo_legal_moves geometry fen_en_passant, ¬ (m.src = 36 ∧ m.dst = 43)) ∧
    (∀ m ∈ (generate_legal_moves geometry fen_en_passant).1, ¬ (m.src = 36 ∧ m.dst = 43)) := by
  decide!

/-! ## C10: the attacked-square test -/

/-- C10 (code evaluated at the failing input).  With a black knight on a3,
`is_square_attacked` reports g1 as attacked by Black (offset 10 from g1 wraps
around the board edge), although no black piece attacks g1. -/
theorem knight_attack_wraps :
    is_square_attacked fen_knight_a3 G1 BLACK = true ∧
    ¬ geometric_attack fen_knight_a3 G1 BLACK := by
  decide!

/-! ## C9: `is_square_attacked` misses no attack -/

theorem pawn_attack_complete (b : Board) (c : Color) (t : Nat) (s : Int) (ht : t < 64)
    (hs : 0 ≤ s ∧ s < 64) (hp : b.sq t = (if c = WHITE then WP else BP))
    (hdr : s / 8 - (t : Int) / 8 = (if c = WHITE then 1 else -1))
    (hdf : Int.natAbs (s % 8 - (t : Int) % 8) = 1) :
    pawn_attack b.squares s c = true := by
  unfold pawn_attack
  cases c
  · simp only [if_true] at hp hdr ⊢
    rw [decide_eq_true_eq]
    by_cases h : s % 8 - t % 8 = 1
    · left
      have e : s - 9 = t := by omega
      rw [e]
      exact ⟨by omega, hp, by omega⟩
    · right
      have e : s - 7 = t := by omega
      rw [e]
      exact ⟨by omega, hp, by omega⟩
  · simp only [reduceCtorEq, if_false] at hp hdr ⊢
    rw [decide_eq_true_eq]
    by_cases h : s % 8 - t % 8 = 1
    · left
      have e : s + 7 = t := by omega
      rw [e]
      exact ⟨by omega, hp, by omega⟩
    · right
      have e : s + 9 = t := by omega
      rw [e]
      exact ⟨by omega, hp, by omega⟩

theorem knight_attack_complete (b : Board) (c : Color) (t : Nat) (s : Int) (ht : t < 64)
    (hp : b.sq t = (if c = WHITE then WN else BN))
    (hd : (Int.natAbs (s / 8 - (t : Int) / 8) = 1 ∧ Int.natAbs (s % 8 - (t : Int) % 8) = 2) ∨
      (Int.natAbs (s / 8 - (t : Int) / 8) = 2 ∧ Int.natAbs (s % 8 - (t : Int) % 8) = 1)) :
    knight_attack b.squares s c = true := by
  unfold knight_attack
  rw [List.any_eq_true]
  refine ⟨t - s, ?_, ?_⟩
  · simp only [List.mem_cons, List.mem_singleton, List.not_mem_nil, or_false]
    omega
  · have e : s + ((t : Int) - s) = t := by omega
    simp only [e]
    rw [if_neg (by omega), decide_eq_true_eq]
    cases c
    · exact Or.inl ⟨rfl, hp⟩
    · exact Or.inr ⟨rfl, hp⟩

theorem king_attack_complete (b : Board) (c : Color) (t : Nat) (s : Int) (ht : t < 64)
    (hp : b.sq t = (if c = WHITE then WK else BK))
    (hdr : Int.natAbs (s / 8 - (t : Int) / 8) ≤ 1)
    (hdf : Int.natAbs (s % 8 - (t : Int) % 8) ≤ 1) (hne : (t : Int) ≠ s) :
    king_attack b.squares s c = true := by
  unfold king_attack
  rw [List.any_eq_true]
  refine ⟨t - s, ?_, ?_⟩
  · simp only [List.mem_cons, List.mem_singleton, List.not_mem_nil, or_false]
    omega
  · have e : s + ((t : Int) - s) = t := by omega
    simp only [e]
    rw [if_neg (by omega), if_neg (by omega), decide_eq_true_eq]
    cases c
    · exact Or.inl ⟨rfl, hp⟩
    · exact Or.inr ⟨rfl, hp⟩

/-- A rook ray started `n` steps away from a rook or queen of the attacker,
over empty squares of the board, reports the attack. -/
theorem rook_ray_hit (s : Nat) (c : Color) (rank file dir : Int) (hr : 0 ≤ rank ∧ rank < 8)
    (hf : 0 ≤ file ∧ file < 8) :
    ∀ (n fuel : Nat) (cur : Int), 1 ≤ n → n ≤ fuel →
      (∀ j : Nat, 0 < j → j ≤ n → 0 ≤ cur + j * dir ∧ cur + j * dir < 64) →
      (∀ j : Nat, 0 < j → j < n → getSq s (cur + j * dir) = EMPTY) →
      (getSq s (cur + n * dir) = (if c = WHITE then WR else BR) ∨
        getSq s (cur + n * dir) = (if c = WHITE then WQ else BQ)) →
      rook_ray s c rank file dir fuel cur = true := by
  intro n
  induction n with
  | zero => intro fuel cur h; omega
  | succ n ih =>
    intro fuel cur _ hfuel hrange hempty hpiece
    obtain ⟨fuel, rfl⟩ : ∃ f, fuel = f + 1 := ⟨fuel - 1, by omega⟩
    unfold rook_ray
    have h1 := hrange 1 (by omega) (by omega)
    simp only [Nat.cast_one, one_mul] at h1
    simp only []
    rw [if_neg (by omega), if_neg (by omega)]
    by_cases hn : n = 0
    · subst hn
      simp only [zero_add, Nat.cast_one, one_mul] at hpiece
      have hne : getSq s (cur + dir) ≠ EMPTY := by
        rcases hpiece with h | h <;> rw [h] <;> cases c <;> decide
      rw [if_neg hne]
      cases c
      · simp only [if_true] at hpiece
        rw [if_pos ⟨rfl, hpiece⟩]
      · simp only [reduceCtorEq, if_false] at hpiece
        rw [if_neg (by simp), if_pos ⟨rfl, hpiece⟩]
    · have he := hempty 1 (by omega) (by omega)
      simp only [Nat.cast_one, one_mul] at he
      rw [if_pos he]
      apply ih fuel (cur + dir) (by omega) (by omega)
      · intro j hj1 hj2
        have := hrange (j + 1) (by omega) (by omega)
        have e : cur + dir + (j : Int) * dir = cur + ((j + 1 : Nat) : Int) * dir := by
          push_cast; ring
        rw [e]; exact this
      · intro j hj1 hj2
        have := hempty (j + 1) (by omega) (by omega)
        have e : cur + dir + (j : Int) * dir = cur + ((j + 1 : Nat) : Int) * dir := by
          push_cast; ring
        rw [e]; exact this
      · have e : cur + dir + (n : Int) * dir = cur + ((n + 1 : Nat) : Int) * dir := by
          push_cast; ring
        rw [e]; exact hpiece


/-- The bishop ray, as `rook_ray_hit`; the squares of the ray lie on a diagonal
of the square the test is about. -/
theorem bishop_ray_hit (s : Nat) (c : Color) (rank file dir : Int)
    (hf : 0 ≤ file ∧ file < 8) :
    ∀ (n fuel : Nat) (cur : Int), 1 ≤ n → n ≤ fuel →
      (∀ j : Nat, 0 < j → j ≤ n → 0 ≤ cur + j * dir ∧ cur + j * dir < 64 ∧
        Int.natAbs ((cur + j * dir) / 8 - rank) = Int.natAbs ((cur + j * dir) % 8 - file)) →
      (∀ j : Nat, 0 < j → j < n → getSq s (cur + j * dir) = EMPTY) →
      (getSq s (cur + n * dir) = (if c = WHITE then WB else BB) ∨
        getSq s (cur + n * dir) = (if c = WHITE then WQ else BQ)) →
      bishop_ray s c rank file dir fuel cur = true := by
  intro n
  induction n with
  | zero => intro fuel cur h; omega
  | succ n ih =>
    intro fuel cur _ hfuel hrange hempty hpiece
    obtain ⟨fuel, rfl⟩ : ∃ f, fuel = f + 1 := ⟨fuel - 1, by omega⟩
    unfold bishop_ray
    have h1 := hrange 1 (by omega) (by omega)
    simp only [Nat.cast_one, one_mul] at h1
    simp only []
    rw [if_neg (by omega), if_neg (by omega)]
    by_cases hn : n = 0
    · subst hn
      simp only [zero_add, Nat.cast_one, one_mul] at hpiece
      have hne : getSq s (cur + dir) ≠ EMPTY := by
        rcases hpiece with h | h <;> rw [h] <;> cases c <;> decide
      rw [if_neg hne]
      cases c
      · simp only [if_true] at hpiece
        rw [if_pos ⟨rfl, hpiece⟩]
      · simp only [reduceCtorEq, if_false] at hpiece
        rw [if_neg (by simp), if_pos ⟨rfl, hpiece⟩]
    · have he := hempty 1 (by omega) (by omega)
      simp only [Nat.cast_one, one_mul] at he
      rw [if_pos he]
      apply ih fuel (cur + dir) (by omega) (by omega)
      · intro j hj1 hj2
        have := hrange (j + 1) (by omega) (by omega)
        have e : cur + dir + (j : Int) * dir = cur + ((j + 1 : Nat) : Int) * dir := by
          push_cast; ring
        rw [e]; exact this
      · intro j hj1 hj2
        have := hempty (j + 1) (by omega) (by omega)
        have e : cur + dir + (j : Int) * dir = cur + ((j + 1 : Nat) : Int) * dir := by
          push_cast; ring
        rw [e]; exact this
      · have e : cur + dir + (n : Int) * dir = cur + ((n + 1 : Nat) : Int) * dir := by
          push_cast; ring
        rw [e]; exact hpiece

theorem rook_line_complete (b : Board) (c : Color) (t : Nat) (s : Int) (n : Nat)
    (step dir : Int) (hdir : dir = -step)
    (hstep : step = 1 ∨ step = -1 ∨ step = 8 ∨ step = -8) (hn : 1 ≤ n)
    (hst : s = t + n * step) (ht : t < 64) (hs : 0 ≤ s ∧ s < 64)
    (hclear : ∀ k : Nat, k < n → 0 < k → b.sq (t + k * step) = EMPTY)
    (hp : b.sq t = (if c = WHITE then WR else BR) ∨ b.sq t = (if c = WHITE then WQ else BQ)) :
    rook_ray b.squares c (s / 8) (s % 8) dir 64 s = true := by
  subst hdir
  apply rook_ray_hit b.squares c (s / 8) (s % 8) (-step) (by omega) (by omega) n 64 s hn
  · rcases hstep with rfl | rfl | rfl | rfl <;> omega
  · intro j hj1 hj2
    rcases hstep with rfl | rfl | rfl | rfl <;> omega
  · intro j hj1 hj2
    have := hclear (n - j) (by omega) (by omega)
    have e : s + (j : Int) * (-step) = t + ((n - j : Nat) : Int) * step := by
      rcases hstep with rfl | rfl | rfl | rfl <;> omega
    rw [e]; exact this
  · have e : s + (n : Int) * (-step) = t := by
      rcases hstep with rfl | rfl | rfl | rfl <;> omega
    rw [e]; exact hp

theorem bishop_line_complete (b : Board) (c : Color) (t : Nat) (s : Int) (n : Nat)
    (step dir : Int) (hdir : dir = -step)
    (hstep : (step = 9 ∧ s % 8 - (t : Int) % 8 = n) ∨ (step = 7 ∧ (t : Int) % 8 - s % 8 = n) ∨
      (step = -7 ∧ s % 8 - (t : Int) % 8 = n) ∨ (step = -9 ∧ (t : Int) % 8 - s % 8 = n))
    (hn : 1 ≤ n) (hst : s = t + n * step) (ht : t < 64) (hs : 0 ≤ s ∧ s < 64)
    (hclear : ∀ k : Nat, k < n → 0 < k → b.sq (t + k * step) = EMPTY)
    (hp : b.sq t = (if c = WHITE then WB else BB) ∨ b.sq t = (if c = WHITE then WQ else BQ)) :
    bishop_ray b.squares c (s / 8) (s % 8) dir 64 s = true := by
  subst hdir
  apply bishop_ray_hit b.squares c (s / 8) (s % 8) (-step) (by omega) n 64 s hn
  · rcases hstep with ⟨rfl, h⟩ | ⟨rfl, h⟩ | ⟨rfl, h⟩ | ⟨rfl, h⟩ <;> omega
  · intro j hj1 hj2
    have a0 : 0 ≤ s + (j : Int) * (-step) ∧ s + (j : Int) * (-step) < 64 := by
      rcases hstep with ⟨rfl, h⟩ | ⟨rfl, h⟩ | ⟨rfl, h⟩ | ⟨rfl, h⟩ <;> omega
    have a1 : Int.natAbs ((s + (j : Int) * (-step)) / 8 - s / 8) = j := by
      rcases hstep with ⟨rfl, h⟩ | ⟨rfl, h⟩ | ⟨rfl, h⟩ | ⟨rfl, h⟩ <;> omega
    have a2 : Int.natAbs ((s + (j : Int) * (-step)) % 8 - s % 8) = j := by
      rcases hstep with ⟨rfl, h⟩ | ⟨rfl, h⟩ | ⟨rfl, h⟩ | ⟨rfl, h⟩ <;> omega
    exact ⟨a0.1, a0.2, by rw [a1, a2]⟩
  · intro j hj1 hj2
    have := hclear (n - j) (by omega) (by omega)
    have e : s + (j : Int) * (-step) = t + ((n - j : Nat) : Int) * step := by
      rcases hstep with ⟨rfl, h⟩ | ⟨rfl, h⟩ | ⟨rfl, h⟩ | ⟨rfl, h⟩ <;> omega
    rw [e]; exact this
  · have e : s + (n : Int) * (-step) = t := by
      rcases hstep with ⟨rfl, h⟩ | ⟨rfl, h⟩ | ⟨rfl, h⟩ | ⟨rfl, h⟩ <;> omega
    rw [e]; exact hp

/-- Every attack under chess geometry is reported by `is_square_attacked`. -/
theorem is_square_attacked_complete (b : Board) (s : Int) (c : Color) (hs : 0 ≤ s ∧ s < 64)
    (h : geometric_attack b s c) : is_square_attacked b s c = true := by
  obtain ⟨t, ht, hp⟩ := h
  unfold piece_attacks at hp
  simp only [] at hp
  unfold is_square_attacked
  simp only [Bool.or_eq_true]
  rcases hp with ⟨h1, h2, h3⟩ | ⟨h1, h2⟩ | ⟨h1, h2, h3, h4⟩ | ⟨h1, h2, h3, h4⟩ | ⟨h1, h2, h3, h4⟩
  · exact Or.inl (Or.inl (Or.inl (Or.inl (pawn_attack_complete b c t s ht hs h1 h2 h3))))
  · exact Or.inl (Or.inl (Or.inl (Or.inr (knight_attack_complete b c t s ht h1 h2))))
  · exact Or.inl (Or.inl (Or.inr (king_attack_complete b c t s ht h1 h2 h3 h4)))
  · refine Or.inl (Or.inr ?_)
    rw [List.any_eq_true]
    unfold path_clear at h4
    have hcases : (s / 8 - (t : Int) / 8 = 0 ∧ 0 < s % 8 - (t : Int) % 8) ∨
        (s / 8 - (t : Int) / 8 = 0 ∧ s % 8 - (t : Int) % 8 < 0) ∨
        (0 < s / 8 - (t : Int) / 8 ∧ s % 8 - (t : Int) % 8 = 0) ∨
        (s / 8 - (t : Int) / 8 < 0 ∧ s % 8 - (t : Int) % 8 = 0) := by omega
    rcases hcases with ⟨e1, e2⟩ | ⟨e1, e2⟩ | ⟨e1, e2⟩ | ⟨e1, e2⟩
    · rw [e1, Int.sign_zero, Int.sign_eq_one_of_pos e2] at h4
      have hn : max (Int.natAbs 0) (Int.natAbs (s % 8 - (t : Int) % 8))
          = Int.natAbs (s % 8 - (t : Int) % 8) := by omega
      rw [hn] at h4
      exact ⟨-1, by simp, rook_line_complete b c t s _ (8 * 0 + 1) (-1) (by decide)
        (by decide) (by omega) (by omega) ht hs h4 h1⟩
    · rw [e1, Int.sign_zero, Int.sign_eq_neg_one_of_neg e2] at h4
      have hn : max (Int.natAbs 0) (Int.natAbs (s % 8 - (t : Int) % 8))
          = Int.natAbs (s % 8 - (t : Int) % 8) := by omega
      rw [hn] at h4
      exact ⟨1, by simp, rook_line_complete b c t s _ (8 * 0 + -1) 1 (by decide)
        (by decide) (by omega) (by omega) ht hs h4 h1⟩
    · rw [e2, Int.sign_zero, Int.sign_eq_one_of_pos e1] at h4
      have hn : max (Int.natAbs (s / 8 - (t : Int) / 8)) (Int.natAbs 0)
          = Int.natAbs (s / 8 - (t : Int) / 8) := by omega
      rw [hn] at h4
      exact ⟨-8, by simp, rook_line_complete b c t s _ (8 * 1 + 0) (-8) (by decide)
        (by decide) (by omega) (by omega) ht hs h4 h1⟩
    · rw [e2, Int.sign_zero, Int.sign_eq_neg_one_of_neg e1] at h4
      have hn : max (Int.natAbs (s / 8 - (t : Int) / 8)) (Int.natAbs 0)
          = Int.natAbs (s / 8 - (t : Int) / 8) := by omega
      rw [hn] at h4
      exact ⟨8, by simp, rook_line_complete b c t s _ (8 * -1 + 0) 8 (by decide)
        (by decide) (by omega) (by omega) ht hs h4 h1⟩
  · refine Or.inr ?_
    rw [List.any_eq_true]
    unfold path_clear at h4
    have hn : max (Int.natAbs (s / 8 - (t : Int) / 8)) (Int.natAbs (s % 8 - (t : Int) % 8))
        = Int.natAbs (s % 8 - (t : Int) % 8) := by omega
    rw [hn] at h4
    have hcases : (0 < s / 8 - (t : Int) / 8 ∧ 0 < s % 8 - (t : Int) % 8) ∨
        (0 < s / 8 - (t : Int) / 8 ∧ s % 8 - (t : Int) % 8 < 0) ∨
        (s / 8 - (t : Int) / 8 < 0 ∧ 0 < s % 8 - (t : Int) % 8) ∨
        (s / 8 - (t : Int) / 8 < 0 ∧ s % 8 - (t : Int) % 8 < 0) := by omega
    rcases hcases with ⟨e1, e2⟩ | ⟨e1, e2⟩ | ⟨e1, e2⟩ | ⟨e1, e2⟩
    · rw [Int.sign_eq_one_of_pos e1, Int.sign_eq_one_of_pos e2] at h4
      exact ⟨-9, by simp, bishop_line_complete b c t s _ (8 * 1 + 1) (-9) (by decide)
        (Or.inl ⟨by decide, by omega⟩) (by omega) (by omega) ht hs h4 h1⟩
    · rw [Int.sign_eq_one_of_pos e1, Int.sign_eq_neg_one_of_neg e2] at h4
      exact ⟨-7, by simp, bishop_line_complete b c t s _ (8 * 1 + -1) (-7) (by decide)
        (Or.inr (Or.inl ⟨by decide, by omega⟩)) (by omega) (by omega) ht hs h4 h1⟩
    · rw [Int.sign_eq_neg_one_of_neg e1, Int.sign_eq_one_of_pos e2] at h4
      exact ⟨7, by simp, bishop_line_complete b c t s _ (8 * -1 + 1) 7 (by decide)
        (Or.inr (Or.inr (Or.inl ⟨by decide, by omega⟩))) (by omega) (by omega) ht hs h4 h1⟩
    · rw [Int.sign_eq_neg_one_of_neg e1, Int.sign_eq_neg_one_of_neg e2] at h4
      exact ⟨9, by simp, bishop_line_complete b c t s _ (8 * -1 + -1) 9 (by decide)
        (Or.inr (Or.inr (Or.inr ⟨by decide, by omega⟩))) (by omega) (by omega) ht hs h4 h1⟩

theorem not_geometric_attack (b : Board) (s : Int) (c : Color) (hs : 0 ≤ s ∧ s < 64)
    (h : ¬ (is_square_attacked b s c = true)) : ¬ geometric_attack b s c :=
  fun hg => h (is_square_attacked_complete b s c hs hg)

/-- What `generate_castling_moves` has tested before it emits a move. -/
theorem mem_castling_moves (b : Board) (m : Move) (hm : m ∈ generate_castling_moves b) :
    (m = Move.mk2 E1 G1 ∧ b.side_to_move = WHITE ∧ b.white_king_castle = true ∧
      b.sq E1 = WK ∧ b.sq H1 = WR ∧ b.sq F1 = EMPTY ∧ b.sq G1 = EMPTY ∧
      ¬ geometric_attack b E1 BLACK ∧ ¬ geometric_attack b F1 BLACK ∧
      ¬ geometric_attack b G1 BLACK) ∨
    (m = Move.mk2 E1 C1 ∧ b.side_to_move = WHITE ∧ b.white_queen_castle = true ∧
      b.sq E1 = WK ∧ b.sq A1 = WR ∧ b.sq D1 = EMPTY ∧ b.sq C1 = EMPTY ∧ b.sq B1 = EMPTY ∧
      ¬ geometric_attack b E1 BLACK ∧ ¬ geometric_attack b D1 BLACK ∧
      ¬ geometric_attack b C1 BLACK) ∨
    (m = Move.mk2 E8 G8 ∧ b.side_to_move = BLACK ∧ b.black_king_castle = true ∧
      b.sq E8 = BK ∧ b.sq H8 = BR ∧ b.sq F8 = EMPTY ∧ b.sq G8 = EMPTY ∧
      ¬ geometric_attack b E8 WHITE ∧ ¬ geometric_attack b F8 WHITE ∧
      ¬ geometric_attack b G8 WHITE) ∨
    (m = Move.mk2 E8 C8 ∧ b.side_to_move = BLACK ∧ b.black_queen_castle = true ∧
      b.sq E8 = BK ∧ b.sq A8 = BR ∧ b.sq D8 = EMPTY ∧ b.sq C8 = EMPTY ∧ b.sq B8 = EMPTY ∧
      ¬ geometric_attack b E8 WHITE ∧ ¬ geometric_attack b D8 WHITE ∧
      ¬ geometric_attack b C8 WHITE) := by
  unfold generate_castling_moves at hm
  simp only [] at hm
  split at hm
  · rename_i hs
    rw [List.mem_append] at hm
    rcases hm with hm | hm
    · split at hm
      · rename_i hc
        obtain ⟨c1, c2, c3, c4, c5, c6, c7, c8⟩ := hc
        rw [List.mem_singleton] at hm
        exact Or.inl ⟨hm, hs, c1, c2, c3, c4, c5,
          not_geometric_attack b E1 BLACK (by decide) c6,
          not_geometric_attack b F1 BLACK (by decide) c7,
          not_geometric_attack b G1 BLACK (by decide) c8⟩
      · simp at hm
    · split at hm
      · rename_i hc
        obtain ⟨c1, c2, c3, c4, c5, c6, c7, c8, c9⟩ := hc
        rw [List.mem_singleton] at hm
        exact Or.inr (Or.inl ⟨hm, hs, c1, c2, c3, c4, c5, c6,
          not_geometric_attack b E1 BLACK (by decide) c7,
          not_geometric_attack b D1 BLACK (by decide) c8,
          not_geometric_attack b C1 BLACK (by decide) c9⟩)
      · simp at hm
  · rename_i hs
    have hs2 : b.side_to_move = BLACK := by cases h : b.side_to_move <;> simp_all
    rw [List.mem_append] at hm
    rcases hm with hm | hm
    · split at hm
      · rename_i hc
        obtain ⟨c1, c2, c3, c4, c5, c6, c7, c8⟩ := hc
        rw [List.mem_singleton] at hm
        exact Or.inr (Or.inr (Or.inl ⟨hm, hs2, c1, c2, c3, c4, c5,
          not_geometric_attack b E8 WHITE (by decide) c6,
          not_geometric_attack b F8 WHITE (by decide) c7,
          not_geometric_attack b G8 WHITE (by decide) c8⟩))
      · simp at hm
    · split at hm
      · rename_i hc
        obtain ⟨c1, c2, c3, c4, c5, c6, c7, c8, c9⟩ := hc
        rw [List.mem_singleton] at hm
        exact Or.inr (Or.inr (Or.inr ⟨hm, hs2, c1, c2, c3, c4, c5, c6,
          not_geometric_attack b E8 WHITE (by decide) c7,
          not_geometric_attack b D8 WHITE (by decide) c8,
          not_geometric_attack b C8 WHITE (by decide) c9⟩))
      · simp at hm

/-- C9. Every move `generate_castling_moves` emits is a king move e1-g1,
e1-c1, e8-g8 or e8-c8 of the side to move, emitted only when the matching
castling right is held, the king and that rook stand on their original
squares, every square between them is empty, and no piece of the other colour
attacks, under chess geometry, the king's origin, transit or destination
square. -/
theorem castling_never_illegal (b : Board) (m : Move) (hm : m ∈ generate_castling_moves b) :
    (m = Move.mk2 E1 G1 ∧ b.side_to_move = WHITE ∧ b.white_king_castle = true ∧
      b.sq E1 = WK ∧ b.sq H1 = WR ∧ b.sq F1 = EMPTY ∧ b.sq G1 = EMPTY ∧
      ¬ geometric_attack b E1 BLACK ∧ ¬ geometric_attack b F1 BLACK ∧
      ¬ geometric_attack b G1 BLACK) ∨
    (m = Move.mk2 E1 C1 ∧ b.side_to_move = WHITE ∧ b.white_queen_castle = true ∧
      b.sq E1 = WK ∧ b.sq A1 = WR ∧ b.sq D1 = EMPTY ∧ b.sq C1 = EMPTY ∧ b.sq B1 = EMPTY ∧
      ¬ geometric_attack b E1 BLACK ∧ ¬ geometric_attack b D1 BLACK ∧
      ¬ geometric_attack b C1 BLACK) ∨
    (m = Move.mk2 E8 G8 ∧ b.side_to_move = BLACK ∧ b.black_king_castle = true ∧
      b.sq E8 = BK ∧ b.sq H8 = BR ∧ b.sq F8 = EMPTY ∧ b.sq G8 = EMPTY ∧
      ¬ geometric_attack b E8 WHITE ∧ ¬ geometric_attack b F8 WHITE ∧
      ¬ geometric_attack b G8 WHITE) ∨
    (m = Move.mk2 E8 C8 ∧ b.side_to_move = BLACK ∧ b.black_queen_castle = true ∧
      b.sq E8 = BK ∧ b.sq A8 = BR ∧ b.sq D8 = EMPTY ∧ b.sq C8 = EMPTY ∧ b.sq B8 = EMPTY ∧
      ¬ geometric_attack b E8 WHITE ∧ ¬ geometric_attack b D8 WHITE ∧
      ¬ geometric_attack b C8 WHITE) :=
  mem_castling_moves b m hm

theorem castling_never_illegal_witness :
    Move.mk2 E1 G1 ∈ generate_castling_moves fen_castle ∧
    ((Move.mk2 E1 G1 = Move.mk2 E1 G1 ∧ fen_castle.side_to_move = WHITE ∧
      fen_castle.white_king_castle = true ∧
      fen_castle.sq E1 = WK ∧ fen_castle.sq H1 = WR ∧ fen_castle.sq F1 = EMPTY ∧
      fen_castle.sq G1 = EMPTY ∧
      ¬ geometric_attack fen_castle E1 BLACK ∧ ¬ geometric_attack fen_castle F1 BLACK ∧
      ¬ geometric_attack fen_castle G1 BLACK) ∨
    (Move.mk2 E1 G1 = Move.mk2 E1 C1 ∧ fen_castle.side_to_move = WHITE ∧
      fen_castle.white_queen_castle = true ∧
      fen_castle.sq E1 = WK ∧ fen_castle.sq A1 = WR ∧ fen_castle.sq D1 = EMPTY ∧
      fen_castle.sq C1 = EMPTY ∧ fen_castle.sq B1 = EMPTY ∧
      ¬ geometric_attack fen_castle E1 BLACK ∧ ¬ geometric_attack fen_castle D1 BLACK ∧
      ¬ geometric_attack fen_castle C1 BLACK) ∨
    (Move.mk2 E1 G1 = Move.mk2 E8 G8 ∧ fen_castle.side_to_move = BLACK ∧
      fen_castle.black_king_castle = true ∧
      fen_castle.sq E8 = BK ∧ fen_castle.sq H8 = BR ∧ fen_castle.sq F8 = EMPTY ∧
      fen_castle.sq G8 = EMPTY ∧
      ¬ geometric_attack fen_castle E8 WHITE ∧ ¬ geometric_attack fen_castle F8 WHITE ∧
      ¬ geometric_attack fen_castle G8 WHITE) ∨
    (Move.mk2 E1 G1 = Move.mk2 E8 C8 ∧ fen_castle.side_to_move = BLACK ∧
      fen_castle.black_queen_castle = true ∧
      fen_castle.sq E8 = BK ∧ fen_castle.sq A8 = BR ∧ fen_castle.sq D8 = EMPTY ∧
      fen_castle.sq C8 = EMPTY ∧ fen_castle.sq B8 = EMPTY ∧
      ¬ geometric_attack fen_castle E8 WHITE ∧ ¬ geometric_attack fen_castle D8 WHITE ∧
      ¬ geometric_attack fen_castle C8 WHITE)) :=
  ⟨by decide!, castling_never_illegal fen_castle (Move.mk2 E1 G1) (by decide!)⟩
/-! ## C6: move counts from the starting position -/

/-- The number of distinct legal sequences is the move-by-move count. -/
theorem card_legal_sequences (T : Tables) (n : Nat) :
    ∀ b : Board, (legal_sequences T n b).toFinset.card = perft T n b := by
  induction n with
  | zero => intro b; rfl
  | succ n ih =>
    intro b
    unfold legal_sequences perft
    have h1 : ((generate_legal_moves T b).1.flatMap fun m =>
        (legal_sequences T n (make_move b m EMPTY EMPTY).board).map fun l => m :: l).toFinset
        = (generate_legal_moves T b).1.toFinset.biUnion fun m =>
          ((legal_sequences T n (make_move b m EMPTY EMPTY).board).toFinset).image
            (fun l => m :: l) := by
      ext x
      simp only [List.mem_toFinset, List.mem_flatMap, List.mem_map, Finset.mem_biUnion,
        Finset.mem_image]
    rw [h1, Finset.card_biUnion]
    · have h2 : ∀ m : Move,
          (((legal_sequences T n (make_move b m EMPTY EMPTY).board).toFinset).image
            (fun l => m :: l)).card = perft T n (make_move b m EMPTY EMPTY).board := by
        intro m
        rw [Finset.card_image_of_injective _ (List.cons_injective), ih]
      simp only [h2]
      have h3 : (generate_legal_moves T b).1.toFinset
          = (generate_legal_moves T b).1.dedup.toFinset := by
        ext x; simp
      rw [h3, List.sum_toFinset _ (List.nodup_dedup _)]
    · intro x _ y _ hxy
      rw [Finset.disjoint_left]
      intro l hl1 hl2
      simp only [Finset.mem_image, List.mem_toFinset] at hl1 hl2
      obtain ⟨l1, _, rfl⟩ := hl1
      obtain ⟨l2, _, e⟩ := hl2
      exact hxy (List.cons.inj e).1.symm

/-! ## The legal moves as a filter -/

theorem legal_fold_eq (T : Tables) (b : Board) (hep : EPSafe b) :
    ∀ (l : List Move), (∀ m ∈ l, PseudoShape b m) → ∀ acc : List Move,
      l.foldl (legal_step T) (acc, b) =
        (acc ++ l.filter (fun m => (make_move b m EMPTY EMPTY).ok &&
          !is_king_in_check T (make_move b m EMPTY EMPTY).board b.side_to_move), b) := by
  intro l
  induction l with
  | nil => intro _ acc; simp
  | cons a l ih =>
    intro hl acc
    have hrt := round_trip_of_shape b a EMPTY EMPTY (hl a (List.mem_cons_self _ _)) hep
    have hl2 : ∀ m ∈ l, PseudoShape b m := fun m hm => hl m (List.mem_cons_of_mem _ hm)
    rw [List.foldl_cons]
    have hstep : legal_step T (acc, b) a =
        (if is_king_in_check T (make_move b a EMPTY EMPTY).board b.side_to_move = false
          then acc ++ [a] else acc, b) := by
      unfold legal_step
      simp only []
      rw [if_neg (by rw [hrt.1]; simp), hrt.2]
    rw [hstep, ih hl2, List.filter_cons, hrt.1]
    by_cases hc : is_king_in_check T (make_move b a EMPTY EMPTY).board b.side_to_move = false
    · rw [if_pos hc, hc]
      simp
    · rw [if_neg hc]
      have hc2 : is_king_in_check T (make_move b a EMPTY EMPTY).board b.side_to_move = true := by
        simpa using hc
      rw [hc2]
      simp

/-- On a board that is `EPSafe`, `generate_legal_moves` returns the filtered
list of the spec and leaves the board as it found it. -/
theorem legal_eq_filter (T : Tables) (hT : T.InRange) (b : Board) (hep : EPSafe b) :
    generate_legal_moves T b = (legal_filter T b, b) := by
  unfold generate_legal_moves legal_filter
  rw [legal_fold_eq T b hep _ (fun m hm => pseudo_shape T hT b m hm) []]
  simp

/-! ## The check test in one pass -/

theorem pawn_moves_from_nil (b : Board) (sq : Nat) (h : b.sq sq ≠ WP ∧ b.sq sq ≠ BP) :
    pawn_moves_from b sq = [] := by
  unfold pawn_moves_from
  simp only []
  rw [if_pos]
  split
  · exact h.1
  · exact h.2

theorem knight_moves_from_nil (T : Tables) (b : Board) (sq : Nat)
    (h : b.sq sq ≠ WN ∧ b.sq sq ≠ BN) : knight_moves_from T b sq = [] := by
  unfold knight_moves_from
  simp only []
  split <;> rfl

theorem bishop_moves_from_nil (T : Tables) (b : Board) (sq : Nat)
    (h : (b.sq sq ≠ WB ∧ b.sq sq ≠ BB) ∧ (b.sq sq ≠ WQ ∧ b.sq sq ≠ BQ)) :
    bishop_moves_from T b sq = [] := by
  unfold bishop_moves_from
  simp only []
  split <;> rfl

theorem rook_moves_from_nil (T : Tables) (b : Board) (sq : Nat)
    (h : (b.sq sq ≠ WR ∧ b.sq sq ≠ BR) ∧ (b.sq sq ≠ WQ ∧ b.sq sq ≠ BQ)) :
    rook_moves_from T b sq = [] := by
  unfold rook_moves_from
  simp only []
  split <;> rfl

theorem king_moves_from_nil (b : Board) (sq : Nat) (h : b.sq sq ≠ WK ∧ b.sq sq ≠ BK) :
    king_moves_from b sq = [] := by
  unfold king_moves_from
  simp only []
  split <;> rfl

/-- The six loop bodies together hit `k` from `sq` exactly when the selected
one does. -/
theorem attacker_hits_eq (T : Tables) (b : Board) (k : Int) (sq : Nat) :
    ((pawn_moves_from b sq).any (fun m => m.dst = k) ||
      (knight_moves_from T b sq).any (fun m => m.dst = k) ||
      (bishop_moves_from T b sq).any (fun m => m.dst = k) ||
      (rook_moves_from T b sq).any (fun m => m.dst = k) ||
      ((bishop_moves_from T b sq).any (fun m => m.dst = k) ||
        (rook_moves_from T b sq).any (fun m => m.dst = k)) ||
      (king_moves_from b sq).any (fun m => m.dst = k)) = attacker_hits T b k sq := by
  have hlt : b.sq sq < 13 := getSq_lt _ _
  unfold attacker_hits
  simp only []
  generalize hp : b.sq sq = p at hlt
  have hpn := pawn_moves_from_nil b sq
  have hkn := knight_moves_from_nil T b sq
  have hbn := bishop_moves_from_nil T b sq
  have hrn := rook_moves_from_nil T b sq
  have hgn := king_moves_from_nil b sq
  rw [hp] at hpn hkn hbn hrn hgn
  dsimp only [Piece] at p hlt hpn hkn hbn hrn hgn
  interval_cases p <;>
    simp [hpn, hkn, hbn, hrn, hgn, EMPTY, WP, WN, WB, WR, WQ, WK, BP, BN, BB, BR, BQ, BK]

theorem any_or_any {α : Type} (l : List α) (f g : α → Bool) :
    (l.any f || l.any g) = l.any fun a => f a || g a := by
  induction l with
  | nil => rfl
  | cons a l ih =>
    simp only [List.any_cons, ← ih]
    cases f a <;> cases g a <;> cases l.any f <;> cases l.any g <;> rfl

/-- No castling move ends on an occupied square. -/
theorem castling_any_dst (b : Board) (k : Int) (hk : b.sq k ≠ EMPTY) :
    (generate_castling_moves b).any (fun m => m.dst = k) = false := by
  rw [Bool.eq_false_iff]
  intro h
  rw [List.any_eq_true] at h
  obtain ⟨m, hm, hd⟩ := h
  simp only [decide_eq_true_eq] at hd
  have := mem_castling_moves b m hm
  rcases this with ⟨rfl, _, _, _, _, _, h5, _⟩ | ⟨rfl, _, _, _, _, _, h5, _⟩ |
    ⟨rfl, _, _, _, _, _, h5, _⟩ | ⟨rfl, _, _, _, _, _, h5, _⟩ <;>
    (simp only [Move.mk2] at hd; rw [← hd] at hk; exact hk h5)

/-- The pseudo-legal moves reach an occupied square `k` exactly when some
square passes `attacker_hits`. -/
theorem pseudo_any_dst (T : Tables) (b : Board) (k : Int) (hk : b.sq k ≠ EMPTY) :
    (generate_pseudo_legal_moves T b).any (fun m => m.dst = k) =
      allSquares.any (attacker_hits T b k) := by
  unfold generate_pseudo_legal_moves generate_queen_moves generate_pawn_moves
    generate_knight_moves generate_bishop_moves generate_rook_moves generate_king_moves
  simp only [List.any_append, List.any_flatMap, castling_any_dst b k hk, Bool.or_false]
  simp only [any_or_any]
  congr 1
  funext sq
  exact attacker_hits_eq T b k sq

theorem king_square_holds (b : Board) (color : Color) (h : ¬ king_square b color < 0) :
    b.sq (king_square b color) = (if color = WHITE then WK else BK) := by
  unfold king_square at h ⊢
  split at h
  · rename_i i hfind
    have hp := List.find?_some hfind
    simp only [decide_eq_true_eq] at hp
    exact hp
  · exact absurd (by decide) h

theorem is_king_in_check_eq_scan (T : Tables) (b : Board) (color : Color) :
    is_king_in_check T b color = check_scan T b color := by
  unfold is_king_in_check check_scan
  simp only []
  by_cases h : king_square b color < 0
  · rw [if_pos h, if_pos h]
  · rw [if_neg h, if_neg h]
    apply pseudo_any_dst
    show b.sq (king_square b color) ≠ EMPTY
    rw [king_square_holds b color h]
    split <;> decide

theorem legal_filter_eq_scan (T : Tables) (b : Board) : legal_filter T b = scan_legal T b := by
  unfold legal_filter scan_legal
  simp only [is_king_in_check_eq_scan]

theorem scan_legal_shape (T : Tables) (hT : T.InRange) (b : Board) (m : Move)
    (hm : m ∈ scan_legal T b) : PseudoShape b m :=
  pseudo_shape T hT b m (List.mem_filter.mp hm).1

theorem perft_one (T : Tables) (hT : T.InRange) (b : Board) (hep : EPSafe b) :
    perft T 1 b = count_moves T b := by
  unfold perft count_moves perft
  rw [legal_eq_filter T hT b hep, legal_filter_eq_scan]
  simp

theorem perft_two (T : Tables) (hT : T.InRange) (b : Board) (hep : EPSafe b) :
    perft T 2 b =
      ((scan_legal T b).dedup.map fun m => count_moves T (make_move b m EMPTY EMPTY).board).sum := by
  rw [perft]
  rw [legal_eq_filter T hT b hep, legal_filter_eq_scan]
  congr 1
  apply List.map_congr_left
  intro m hm
  have hm2 : m ∈ scan_legal T b := List.mem_dedup.mp hm
  exact perft_one T hT _ (epsafe_step b m EMPTY EMPTY (scan_legal_shape T hT b m hm2) hep)


/-! ## Move counts from the starting position -/

/-- The twenty moves `generate_legal_moves` returns at the starting position,
in the order of generation. -/
theorem startpos_moves :
    (scan_legal geometry startpos).dedup =
      [Move.mk2 8 16, Move.mk2 8 24, Move.mk2 9 17, Move.mk2 9 25,
       Move.mk2 10 18, Move.mk2 10 26, Move.mk2 11 19, Move.mk2 11 27,
       Move.mk2 12 20, Move.mk2 12 28, Move.mk2 13 21, Move.mk2 13 29,
       Move.mk2 14 22, Move.mk2 14 30, Move.mk2 15 23, Move.mk2 15 31,
       Move.mk2 1 18, Move.mk2 1 16, Move.mk2 6 23, Move.mk2 6 21] := by
  decide!

theorem startpos_child_8_16 :
    count_moves geometry (make_move startpos (Move.mk2 8 16) EMPTY EMPTY).board = 20 := by
  decide!

theorem startpos_child_8_24 :
    count_moves geometry (make_move startpos (Move.mk2 8 24) EMPTY EMPTY).board = 20 := by
  decide!

theorem startpos_child_9_17 :
    count_moves geometry (make_move startpos (Move.mk2 9 17) EMPTY EMPTY).board = 20 := by
  decide!

theorem startpos_child_9_25 :
    count_moves geometry (make_move startpos (Move.mk2 9 25) EMPTY EMPTY).board = 20 := by
  decide!

theorem startpos_child_10_18 :
    count_moves geometry (make_move startpos (Move.mk2 10 18) EMPTY EMPTY).board = 20 := by
  decide!

theorem startpos_child_10_26 :
    count_moves geometry (make_move startpos (Move.mk2 10 26) EMPTY EMPTY).board = 20 := by
  decide!

theorem startpos_child_11_19 :
    count_moves geometry (make_move startpos (Move.mk2 11 19) EMPTY EMPTY).board = 20 := by
  decide!

theorem startpos_child_11_27 :
    count_moves geometry (make_move startpos (Move.mk2 11 27) EMPTY EMPTY).board = 20 := by
  decide!

theorem startpos_child_12_20 :
    count_moves geometry (make_move startpos (Move.mk2 12 20) EMPTY EMPTY).board = 20 := by
  decide!

theorem startpos_child_12_28 :
    count_moves geometry (make_move startpos (Move.mk2 12 28) EMPTY EMPTY).board = 20 := by
  decide!

theorem startpos_child_13_21 :
    count_moves geometry (make_move startpos (Move.mk2 13 21) EMPTY EMPTY).board = 20 := by
  decide!

theorem startpos_child_13_29 :
    count_moves geometry (make_move startpos (Move.mk2 13 29) EMPTY EMPTY).board = 20 := by
  decide!

theorem startpos_child_14_22 :
    count_moves geometry (make_move startpos (Move.mk2 14 22) EMPTY EMPTY).board = 20 := by
  decide!

theorem startpos_child_14_30 :
    count_moves geometry (make_move startpos (Move.mk2 14 30) EMPTY EMPTY).board = 20 := by
  decide!

theorem startpos_child_15_23 :
    count_moves geometry (make_move startpos (Move.mk2 15 23) EMPTY EMPTY).board = 20 := by
  decide!

theorem startpos_child_15_31 :
    count_moves geometry (make_move startpos (Move.mk2 15 31) EMPTY EMPTY).board = 20 := by
  decide!

theorem startpos_child_1_18 :
    count_moves geometry (make_move startpos (Move.mk2 1 18) EMPTY EMPTY).board = 20 := by
  decide!

theorem startpos_child_1_16 :
    count_moves geometry (make_move startpos (Move.mk2 1 16) EMPTY EMPTY).board = 20 := by
  decide!

theorem startpos_child_6_23 :
    count_moves geometry (make_move startpos (Move.mk2 6 23) EMPTY EMPTY).board = 20 := by
  decide!

theorem startpos_child_6_21 :
    count_moves geometry (make_move startpos (Move.mk2 6 21) EMPTY EMPTY).board = 20 := by
  decide!

theorem perft_one_startpos : perft geometry 1 startpos = 20 := by
  rw [perft_one geometry geometry_inRange startpos startpos_epsafe]
  unfold count_moves
  rw [startpos_moves]
  rfl

theorem perft_two_startpos : perft geometry 2 startpos = 400 := by
  rw [perft_two geometry geometry_inRange startpos startpos_epsafe, startpos_moves]
  simp only [List.map_cons, List.map_nil, List.sum_cons, List.sum_nil,
    startpos_child_8_16, startpos_child_8_24, startpos_child_9_17, startpos_child_9_25,
    startpos_child_10_18, startpos_child_10_26, startpos_child_11_19, startpos_child_11_27,
    startpos_child_12_20, startpos_child_12_28, startpos_child_13_21, startpos_child_13_29,
    startpos_child_14_22, startpos_child_14_30, startpos_child_15_23, startpos_child_15_31,
    startpos_child_1_18, startpos_child_1_16, startpos_child_6_23, startpos_child_6_21]
  norm_num

/-- C6. From the standard starting position, with the tables holding the true
board geometry, the number of distinct sequences of one move in which every
move is returned by `generate_legal_moves` at the position where it is played
is 20, and the number of such sequences of two moves is 400. -/
theorem perft_depth_one_two :
    (legal_sequences geometry 1 startpos).toFinset.card = 20 ∧
      (legal_sequences geometry 2 startpos).toFinset.card = 400 := by
  rw [card_legal_sequences, card_legal_sequences]
  exact ⟨perft_one_startpos, perft_two_startpos⟩

/-! ## The end of the game -/

/-- C13. In every position with `halfmove_clock >= 100`, `is_game_over`
returns true and `get_result_string` returns the fifty-move draw result,
whatever the placement, the side to move, the check status and the moves
available; neither call touches the board. -/
theorem fifty_move_rule (T : Tables) (b : Board) (h : b.halfmove_clock ≥ 100) :
    is_game_over T b = (true, b) ∧ get_result_string T b = ("1/2-1/2 (50-move rule)", b) := by
  unfold is_game_over get_result_string
  rw [if_pos h, if_pos h]
  exact ⟨rfl, rfl⟩

theorem fifty_move_rule_witness :
    is_game_over geometry fen_mate_clock_100 = (true, fen_mate_clock_100) ∧
      get_result_string geometry fen_mate_clock_100 =
        ("1/2-1/2 (50-move rule)", fen_mate_clock_100) :=
  fifty_move_rule geometry fen_mate_clock_100 (by decide)

/-- C12, counterexample. In `7k/5KQ1/8/8/8/8/8/8 b - - 100 80` Black has no
legal move and is in check, and `get_result_string` reports the fifty-move
draw, not a win by checkmate. -/
theorem checkmate_reported_as_draw :
    (generate_legal_moves geometry fen_mate_clock_100).1 = [] ∧
      is_king_in_check geometry fen_mate_clock_100 fen_mate_clock_100.side_to_move = true ∧
      (get_result_string geometry fen_mate_clock_100).1 = "1/2-1/2 (50-move rule)" ∧
      (get_result_string geometry fen_mate_clock_100).1 ≠ "1-0 (White wins by checkmate)" := by
  decide!

theorem fen_mate_no_moves : (generate_legal_moves geometry fen_mate).1 = [] := by
  decide!

/-- C12, amended. In every position with `halfmove_clock < 100` in which no
pawn of the side to move stands right behind the en-passant target and
`generate_legal_moves` is empty, `get_result_string` reports a win by
checkmate of the side not to move when the king of the side to move is in check
and stalemate when it is not; the board is left as it was. -/
theorem result_string_no_moves (T : Tables) (hT : T.InRange) (b : Board) (hep : EPSafe b)
    (hclock : b.halfmove_clock < 100) (hnone : (generate_legal_moves T b).1 = []) :
    get_result_string T b =
      (if is_king_in_check T b b.side_to_move = true then
         (if b.side_to_move = WHITE then "0-1 (Black wins by checkmate)"
          else "1-0 (White wins by checkmate)")
       else "1/2-1/2 (Stalemate)", b) := by
  have hb : (generate_legal_moves T b).2 = b := by rw [legal_eq_filter T hT b hep]
  unfold get_result_string has_legal_moves
  rw [if_neg (not_le.mpr hclock)]
  simp only [hnone, hb, List.isEmpty_nil, Bool.not_true, Bool.false_eq_true, if_false]
  split <;> rfl

theorem result_string_no_moves_witness :
    get_result_string geometry fen_mate =
      (if is_king_in_check geometry fen_mate fen_mate.side_to_move = true then
         (if fen_mate.side_to_move = WHITE then "0-1 (Black wins by checkmate)"
          else "1-0 (White wins by checkmate)")
       else "1/2-1/2 (Stalemate)", fen_mate) :=
  result_string_no_moves geometry geometry_inRange fen_mate
    (fun h => absurd h (by decide)) (by decide) fen_mate_no_moves

/-! ## The halfmove clock -/

/-- C20, counterexample. In the position
`4k3/8/8/8/8/8/8/4K1N1 w - - 2147483647 1` the knight move g1-f3 succeeds,
moves no pawn and captures nothing, and the halfmove clock, a 32-bit `int`,
does not become the previous clock plus one: it holds `-2147483648`. -/
theorem halfmove_clock_overflows :
    (make_move fen_clock_at_max (Move.mk2 6 21) EMPTY EMPTY).ok = true ∧
    (make_move fen_clock_at_max (Move.mk2 6 21) EMPTY EMPTY).moved_piece = WN ∧
    (make_move fen_clock_at_max (Move.mk2 6 21) EMPTY EMPTY).captured_piece = EMPTY ∧
    fen_clock_at_max.halfmove_clock = 2147483647 ∧
    (make_move fen_clock_at_max (Move.mk2 6 21) EMPTY EMPTY).board.halfmove_clock =
      -2147483648 ∧
    (make_move fen_clock_at_max (Move.mk2 6 21) EMPTY EMPTY).board.halfmove_clock ≠
      fen_clock_at_max.halfmove_clock + 1 := by
  decide

theorem wrap_int_succ (x : Int) (hlo : -2147483648 ≤ x) (hhi : x < 2147483647) :
    wrap_int (x + 1) = x + 1 := by
  unfold wrap_int
  omega

/-- C20, amended. After a successful `make_move` the halfmove clock is 0 when
the moved piece (the piece that stood on the origin square) is a pawn or the
reported captured piece is not `EMPTY`, which covers the en-passant capture;
otherwise it is the previous clock plus one when the previous clock is an `int`
below `INT_MAX = 2147483647`, and it is `INT_MIN = -2147483648` when the
previous clock is `INT_MAX`. -/
theorem halfmove_clock_after_make_move (b : Board) (m : Move) (c0 m0 : Piece)
    (hok : (make_move b m c0 m0).ok = true) :
    (make_move b m c0 m0).moved_piece = b.sq m.src ∧
    ((make_move b m c0 m0).moved_piece = WP ∨ (make_move b m c0 m0).moved_piece = BP ∨
        (make_move b m c0 m0).captured_piece ≠ EMPTY →
      (make_move b m c0 m0).board.halfmove_clock = 0) ∧
    (¬ ((make_move b m c0 m0).moved_piece = WP ∨ (make_move b m c0 m0).moved_piece = BP ∨
        (make_move b m c0 m0).captured_piece ≠ EMPTY) →
      -2147483648 ≤ b.halfmove_clock → b.halfmove_clock < 2147483647 →
      (make_move b m c0 m0).board.halfmove_clock = b.halfmove_clock + 1) ∧
    (¬ ((make_move b m c0 m0).moved_piece = WP ∨ (make_move b m c0 m0).moved_piece = BP ∨
        (make_move b m c0 m0).captured_piece ≠ EMPTY) →
      b.halfmove_clock = 2147483647 →
      (make_move b m c0 m0).board.halfmove_clock = -2147483648) := by
  unfold make_move at hok ⊢
  simp only [] at hok ⊢
  split
  · rename_i h
    rw [if_pos h] at hok
    exact Bool.noConfusion hok
  · simp only []
    refine ⟨rfl, ?_, ?_, ?_⟩
    · intro h
      rw [if_pos]
      rcases h with h | h | h
      · exact Or.inr (Or.inl h)
      · exact Or.inr (Or.inr h)
      · exact Or.inl h
    · intro h hlo hhi
      rw [if_neg, wrap_int_succ _ hlo hhi]
      rintro (h2 | h2 | h2)
      · exact h (Or.inr (Or.inr h2))
      · exact h (Or.inl h2)
      · exact h (Or.inr (Or.inl h2))
    · intro h hmax
      rw [if_neg, hmax]
      · decide
      · rintro (h2 | h2 | h2)
        · exact h (Or.inr (Or.inr h2))
        · exact h (Or.inl h2)
        · exact h (Or.inr (Or.inl h2))

theorem halfmove_clock_after_make_move_witness :
    (make_move startpos (Move.mk2 6 21) EMPTY EMPTY).ok = true ∧
    (make_move startpos (Move.mk2 6 21) EMPTY EMPTY).board.halfmove_clock =
      startpos.halfmove_clock + 1 :=
  ⟨by decide,
    (halfmove_clock_after_make_move startpos (Move.mk2 6 21) EMPTY EMPTY (by decide)).2.2.1
      (by decide) (by decide) (by decide)⟩

/-! ## Promotions -/

theorem mem_knight_src (T : Tables) (b : Board) (i : Nat) (m : Move)
    (hm : m ∈ knight_moves_from T b i) : m.src = i ∧ (b.sq i = WN ∨ b.sq i = BN) := by
  unfold knight_moves_from at hm
  simp only [] at hm
  split at hm
  · simp at hm
  · split at hm
    · simp at hm
    · rename_i hp
      rw [List.mem_flatMap] at hm
      obtain ⟨t, -, hm⟩ := hm
      split at hm
      · simp only [List.mem_singleton] at hm
        subst hm
        exact ⟨rfl, by tauto⟩
      · simp at hm

theorem mem_bishop_src (T : Tables) (b : Board) (i : Nat) (m : Move)
    (hm : m ∈ bishop_moves_from T b i) :
    m.src = i ∧ (b.sq i = WB ∨ b.sq i = BB ∨ b.sq i = WQ ∨ b.sq i = BQ) := by
  unfold bishop_moves_from at hm
  simp only [] at hm
  split at hm
  · simp at hm
  · split at hm
    · simp at hm
    · rename_i hp
      rw [List.mem_flatMap] at hm
      obtain ⟨d, -, hm⟩ := hm
      have h := (mem_slide b i _ m hm).1
      refine ⟨by rw [h]; rfl, by tauto⟩

theorem mem_rook_src (T : Tables) (b : Board) (i : Nat) (m : Move)
    (hm : m ∈ rook_moves_from T b i) :
    m.src = i ∧ (b.sq i = WR ∨ b.sq i = BR ∨ b.sq i = WQ ∨ b.sq i = BQ) := by
  unfold rook_moves_from at hm
  simp only [] at hm
  split at hm
  · simp at hm
  · split at hm
    · simp at hm
    · rename_i hp
      rw [List.mem_flatMap] at hm
      obtain ⟨d, -, hm⟩ := hm
      have h := (mem_slide b i _ m hm).1
      refine ⟨by rw [h]; rfl, by tauto⟩

theorem mem_king_src (b : Board) (i : Nat) (m : Move)
    (hm : m ∈ king_moves_from b i) : m.src = i ∧ (b.sq i = WK ∨ b.sq i = BK) := by
  unfold king_moves_from at hm
  simp only [] at hm
  split at hm
  · simp at hm
  · split at hm
    · simp at hm
    · rename_i hp
      rw [List.mem_flatMap] at hm
      obtain ⟨t, -, hm⟩ := hm
      split at hm
      · simp at hm
      · split at hm
        · simp at hm
        · split at hm
          · simp only [List.mem_singleton] at hm
            subst hm
            exact ⟨rfl, by tauto⟩
          · simp at hm

theorem knight_src_piece (T : Tables) (b : Board) (m : Move)
    (hm : m ∈ generate_knight_moves T b) : b.sq m.src = WN ∨ b.sq m.src = BN := by
  unfold generate_knight_moves at hm
  rw [List.mem_flatMap] at hm
  obtain ⟨i, -, hm⟩ := hm
  obtain ⟨h1, h2⟩ := mem_knight_src T b i m hm
  rw [h1]; exact h2

theorem bishop_src_piece (T : Tables) (b : Board) (m : Move)
    (hm : m ∈ generate_bishop_moves T b) :
    b.sq m.src = WB ∨ b.sq m.src = BB ∨ b.sq m.src = WQ ∨ b.sq m.src = BQ := by
  unfold generate_bishop_moves at hm
  rw [List.mem_flatMap] at hm
  obtain ⟨i, -, hm⟩ := hm
  obtain ⟨h1, h2⟩ := mem_bishop_src T b i m hm
  rw [h1]; exact h2

theorem rook_src_piece (T : Tables) (b : Board) (m : Move)
    (hm : m ∈ generate_rook_moves T b) :
    b.sq m.src = WR ∨ b.sq m.src = BR ∨ b.sq m.src = WQ ∨ b.sq m.src = BQ := by
  unfold generate_rook_moves at hm
  rw [List.mem_flatMap] at hm
  obtain ⟨i, -, hm⟩ := hm
  obtain ⟨h1, h2⟩ := mem_rook_src T b i m hm
  rw [h1]; exact h2

theorem king_src_piece (b : Board) (m : Move)
    (hm : m ∈ generate_king_moves b) : b.sq m.src = WK ∨ b.sq m.src = BK := by
  unfold generate_king_moves at hm
  rw [List.mem_flatMap] at hm
  obtain ⟨i, -, hm⟩ := hm
  obtain ⟨h1, h2⟩ := mem_king_src b i m hm
  rw [h1]; exact h2

theorem castling_src_piece (b : Board) (m : Move)
    (hm : m ∈ generate_castling_moves b) : b.sq m.src = WK ∨ b.sq m.src = BK := by
  rcases mem_castling_moves b m hm with
    ⟨h1, -, -, h2, -⟩ | ⟨h1, -, -, h2, -⟩ | ⟨h1, -, -, h2, -⟩ | ⟨h1, -, -, h2, -⟩
  · rw [h1]; exact Or.inl h2
  · rw [h1]; exact Or.inl h2
  · rw [h1]; exact Or.inr h2
  · rw [h1]; exact Or.inr h2

/-- The moves of the other generators never start on a square that holds a
pawn. -/
theorem other_src_not_pawn (T : Tables) (b : Board) (m : Move)
    (hm : m ∈ generate_knight_moves T b ∨ m ∈ generate_bishop_moves T b ∨
      m ∈ generate_rook_moves T b ∨ m ∈ generate_king_moves b ∨
      m ∈ generate_castling_moves b) : ¬ (b.sq m.src = WP ∨ b.sq m.src = BP) := by
  intro hp
  rcases hm with hm | hm | hm | hm | hm
  · rcases knight_src_piece T b m hm with h | h <;> rw [h] at hp <;> exact absurd hp (by decide)
  · rcases bishop_src_piece T b m hm with h | h | h | h <;> rw [h] at hp <;>
      exact absurd hp (by decide)
  · rcases rook_src_piece T b m hm with h | h | h | h <;> rw [h] at hp <;>
      exact absurd hp (by decide)
  · rcases king_src_piece b m hm with h | h <;> rw [h] at hp <;> exact absurd hp (by decide)
  · rcases castling_src_piece b m hm with h | h <;> rw [h] at hp <;> exact absurd hp (by decide)

theorem filter_flatMap_range (f : Nat → List Move) (p : Move → Bool) (sq n : Nat)
    (hsq : sq < n) (h : ∀ i m, i < n → m ∈ f i → p m = true → i = sq) :
    ((List.range n).flatMap f).filter p = (f sq).filter p := by
  induction n with
  | zero => omega
  | succ n ih =>
    rw [List.range_succ, List.flatMap_append, List.filter_append]
    simp only [List.flatMap_cons, List.flatMap_nil, List.append_nil]
    by_cases hlt : sq < n
    · rw [ih hlt (fun i m hi => h i m (by omega))]
      have : (f n).filter p = [] := by
        rw [List.filter_eq_nil_iff]
        intro m hm hpm
        have := h n m (by omega) hm hpm
        omega
      rw [this, List.append_nil]
    · have hn : sq = n := by omega
      have : ((List.range n).flatMap f).filter p = [] := by
        rw [List.filter_eq_nil_iff]
        intro m hm hpm
        rw [List.mem_flatMap] at hm
        obtain ⟨i, hi, hm⟩ := hm
        rw [List.mem_range] at hi
        have := h i m (by omega) hm hpm
        omega
      rw [this, List.nil_append, hn]

/-- Among the pseudo-legal moves, those selected by a test that fixes the
origin to a square holding a pawn are the selected moves of the pawn loop body
of that square, in the same order and number. -/
theorem filter_pseudo_pawn (T : Tables) (b : Board) (sq : Nat) (hsq : sq < 64)
    (hp : b.sq sq = WP ∨ b.sq sq = BP) (p : Move → Bool)
    (hsrc : ∀ m, p m = true → m.src = sq) :
    (generate_pseudo_legal_moves T b).filter p = (pawn_moves_from b sq).filter p := by
  have hnil : ∀ l : List Move,
      (∀ m ∈ l, ¬ (b.sq m.src = WP ∨ b.sq m.src = BP)) → l.filter p = [] := by
    intro l hl
    rw [List.filter_eq_nil_iff]
    intro m hm hpm
    apply hl m hm
    rw [hsrc m hpm]
    exact hp
  unfold generate_pseudo_legal_moves generate_queen_moves
  simp only [List.filter_append]
  rw [hnil (generate_knight_moves T b) (fun m hm => other_src_not_pawn T b m (Or.inl hm)),
    hnil (generate_bishop_moves T b)
      (fun m hm => other_src_not_pawn T b m (Or.inr (Or.inl hm))),
    hnil (generate_rook_moves T b)
      (fun m hm => other_src_not_pawn T b m (Or.inr (Or.inr (Or.inl hm)))),
    hnil (generate_king_moves b)
      (fun m hm => other_src_not_pawn T b m (Or.inr (Or.inr (Or.inr (Or.inl hm))))),
    hnil (generate_castling_moves b)
      (fun m hm => other_src_not_pawn T b m (Or.inr (Or.inr (Or.inr (Or.inr hm)))))]
  simp only [List.append_nil]
  unfold generate_pawn_moves allSquares
  apply filter_flatMap_range _ _ _ _ hsq
  intro i m hi hm hpm
  have h1 := (mem_pawn_moves_from b i m hi hm).2.1
  have h2 := hsrc m hpm
  omega
theorem promotion_moves_filter (us : Color) (sq : Nat) (t d : Int) :
    (promotion_moves us sq t).filter (fun m => m.src = (sq : Int) ∧ m.dst = d) =
      if t = d then promotion_moves us sq t else [] := by
  unfold promotion_moves Move.mk3
  by_cases h : t = d
  · simp [h]
  · simp [h]

theorem pawn_last_step_white (b : Board) (sq : Nat) (hsq : sq < 64)
    (hs : b.side_to_move = WHITE) (hp : b.sq sq = WP) (hr : (sq : Int) / 8 = 6) :
    pawn_moves_from b sq =
      (if b.sq ((sq : Int) + 8) = EMPTY then promotion_moves WHITE sq ((sq : Int) + 8) else []) ++
      ((if (sq : Int) % 8 > 0 ∧ BP ≤ b.sq ((sq : Int) + 8 - 1) ∧ b.sq ((sq : Int) + 8 - 1) ≤ BK
        then promotion_moves WHITE sq ((sq : Int) + 8 - 1) else []) ++
       (if (sq : Int) % 8 < 7 ∧ BP ≤ b.sq ((sq : Int) + 8 + 1) ∧ b.sq ((sq : Int) + 8 + 1) ≤ BK
        then promotion_moves WHITE sq ((sq : Int) + 8 + 1) else [])) := by
  unfold pawn_moves_from
  simp only [hs, hp, ↓reduceIte, reduceCtorEq, ne_eq, not_true_eq_false]
  have e1 : ((sq : Int) + 8) / 8 = 7 := by omega
  have e2 : ¬ ((sq : Int) / 8 = 1) := by omega
  have e3 : (sq : Int) + 8 ≥ 0 ∧ (sq : Int) + 8 < 64 := by omega
  simp only [e1, e2, e3, ↓reduceIte, true_and, List.append_nil]
  congr 1
  simp only [List.flatMap_cons, List.flatMap_nil, List.append_nil]
  congr 1
  · by_cases hf : (sq : Int) % 8 > 0
    · have e4 : ¬ ((sq : Int) + 8 - 1 < 0 ∨ (sq : Int) + 8 - 1 ≥ 64) := by omega
      have e5 : ((sq : Int) + 8 - 1) / 8 = 7 := by omega
      simp only [hf, e4, e5, ↓reduceIte, true_and, ge_iff_le]
    · simp only [hf, ↓reduceIte, false_and]
      rfl
  · by_cases hf : (sq : Int) % 8 < 7
    · have e4 : ¬ ((sq : Int) + 8 + 1 < 0 ∨ (sq : Int) + 8 + 1 ≥ 64) := by omega
      have e5 : ((sq : Int) + 8 + 1) / 8 = 7 := by omega
      simp only [hf, e4, e5, ↓reduceIte, true_and, ge_iff_le]
    · simp only [hf, ↓reduceIte, false_and]
      rfl

theorem pawn_last_step_black (b : Board) (sq : Nat) (hsq : sq < 64)
    (hs : b.side_to_move = BLACK) (hp : b.sq sq = BP) (hr : (sq : Int) / 8 = 1) :
    pawn_moves_from b sq =
      (if b.sq ((sq : Int) + -8) = EMPTY then promotion_moves BLACK sq ((sq : Int) + -8) else []) ++
      ((if (sq : Int) % 8 > 0 ∧ WP ≤ b.sq ((sq : Int) + -8 - 1) ∧ b.sq ((sq : Int) + -8 - 1) ≤ WK
        then promotion_moves BLACK sq ((sq : Int) + -8 - 1) else []) ++
       (if (sq : Int) % 8 < 7 ∧ WP ≤ b.sq ((sq : Int) + -8 + 1) ∧ b.sq ((sq : Int) + -8 + 1) ≤ WK
        then promotion_moves BLACK sq ((sq : Int) + -8 + 1) else [])) := by
  unfold pawn_moves_from
  simp only [hs, hp, ↓reduceIte, reduceCtorEq, ne_eq, not_true_eq_false]
  have e1 : ((sq : Int) + -8) / 8 = 0 := by omega
  have e2 : ¬ ((sq : Int) / 8 = 6) := by omega
  have e3 : (sq : Int) + -8 ≥ 0 ∧ (sq : Int) + -8 < 64 := by omega
  simp only [e1, e2, e3, ↓reduceIte, true_and, List.append_nil]
  congr 1
  simp only [List.flatMap_cons, List.flatMap_nil, List.append_nil]
  congr 1
  · by_cases hf : (sq : Int) % 8 > 0
    · have e4 : ¬ ((sq : Int) + -8 - 1 < 0 ∨ (sq : Int) + -8 - 1 ≥ 64) := by omega
      have e5 : ((sq : Int) + -8 - 1) / 8 = 0 := by omega
      simp only [hf, e4, e5, ↓reduceIte, true_and, ge_iff_le]
    · simp only [hf, ↓reduceIte, false_and]
      rfl
  · by_cases hf : (sq : Int) % 8 < 7
    · have e4 : ¬ ((sq : Int) + -8 + 1 < 0 ∨ (sq : Int) + -8 + 1 ≥ 64) := by omega
      have e5 : ((sq : Int) + -8 + 1) / 8 = 0 := by omega
      simp only [hf, e4, e5, ↓reduceIte, true_and, ge_iff_le]
    · simp only [hf, ↓reduceIte, false_and]
      rfl
theorem pawn_last_step (b : Board) (sq : Nat) (hsq : sq < 64)
    (hp : b.sq sq = (if b.side_to_move = WHITE then WP else BP))
    (hr : (sq : Int) / 8 = (if b.side_to_move = WHITE then 6 else 1)) (dir : Int)
    (hdir : dir = (if b.side_to_move = WHITE then 8 else -8)) :
    pawn_moves_from b sq =
      (if b.sq ((sq : Int) + dir) = EMPTY then
         promotion_moves b.side_to_move sq ((sq : Int) + dir) else []) ++
      ((if (sq : Int) % 8 > 0 ∧ (if b.side_to_move = WHITE then BP else WP) ≤ b.sq ((sq : Int) + dir - 1)
            ∧ b.sq ((sq : Int) + dir - 1) ≤ (if b.side_to_move = WHITE then BK else WK)
        then promotion_moves b.side_to_move sq ((sq : Int) + dir - 1) else []) ++
       (if (sq : Int) % 8 < 7 ∧ (if b.side_to_move = WHITE then BP else WP) ≤ b.sq ((sq : Int) + dir + 1)
            ∧ b.sq ((sq : Int) + dir + 1) ≤ (if b.side_to_move = WHITE then BK else WK)
        then promotion_moves b.side_to_move sq ((sq : Int) + dir + 1) else [])) := by
  subst hdir
  cases hs : b.side_to_move <;> simp only [hs, ↓reduceIte, reduceCtorEq] at hp hr ⊢
  · exact pawn_last_step_white b sq hsq hs hp hr
  · exact pawn_last_step_black b sq hsq hs hp hr

theorem promotion_part_filter (c : Prop) [Decidable c] (us : Color) (sq : Nat) (t d : Int) :
    (if c then promotion_moves us sq t else []).filter (fun m => m.src = (sq : Int) ∧ m.dst = d) =
      if c ∧ t = d then promotion_moves us sq t else [] := by
  by_cases hc : c
  · rw [if_pos hc, promotion_moves_filter]
    simp only [hc, true_and]
  · rw [if_neg hc, if_neg (fun h => hc h.1)]
    rfl

theorem mem_of_mem_ite_nil (c : Prop) [Decidable c] (l : List Move) (m : Move)
    (h : m ∈ if c then l else []) : m ∈ l := by
  split at h
  · exact h
  · exact absurd h (List.not_mem_nil m)

theorem promotion_moves_promote (us : Color) (src dst : Int) (m : Move)
    (hm : m ∈ promotion_moves us src dst) : m.promotion ≠ EMPTY := by
  unfold promotion_moves Move.mk3 at hm
  simp only [List.mem_cons, List.mem_singleton, List.not_mem_nil, or_false] at hm
  rcases hm with h | h | h | h <;> subst h <;> cases us <;>
    simp only [↓reduceIte, reduceCtorEq] <;> decide

/-- C11. For every pawn of the side to move that stands one step from its last
rank, each destination it can reach (the square ahead when empty, a
forward-diagonal square on the board when it holds an enemy piece) appears in
`generate_pseudo_legal_moves` as exactly the four promotion moves to queen, rook,
bishop and knight of the mover's colour, in that order and once each, and no
move of that pawn without a promotion piece is generated. -/
theorem promotion_generation (T : Tables) (b : Board) (sq : Nat) (hsq : sq < 64)
    (hp : b.sq sq = (if b.side_to_move = WHITE then WP else BP))
    (hr : (sq : Int) / 8 = (if b.side_to_move = WHITE then 6 else 1)) (dir : Int)
    (hdir : dir = (if b.side_to_move = WHITE then 8 else -8)) :
    (∀ d : Int,
      ((d = (sq : Int) + dir ∧ b.sq d = EMPTY) ∨
       (((d = (sq : Int) + dir - 1 ∧ (sq : Int) % 8 > 0) ∨
          (d = (sq : Int) + dir + 1 ∧ (sq : Int) % 8 < 7)) ∧
        (if b.side_to_move = WHITE then BP else WP) ≤ b.sq d ∧
        b.sq d ≤ (if b.side_to_move = WHITE then BK else WK))) →
      (generate_pseudo_legal_moves T b).filter (fun m => m.src = (sq : Int) ∧ m.dst = d) =
        [{ src := sq, dst := d, promotion := if b.side_to_move = WHITE then WQ else BQ,
           is_en_passant_capture := false },
         { src := sq, dst := d, promotion := if b.side_to_move = WHITE then WR else BR,
           is_en_passant_capture := false },
         { src := sq, dst := d, promotion := if b.side_to_move = WHITE then WB else BB,
           is_en_passant_capture := false },
         { src := sq, dst := d, promotion := if b.side_to_move = WHITE then WN else BN,
           is_en_passant_capture := false }]) ∧
    (∀ m ∈ generate_pseudo_legal_moves T b, m.src = (sq : Int) → m.promotion ≠ EMPTY) := by
  have hpawn : b.sq sq = WP ∨ b.sq sq = BP := by
    rw [hp]; split
    · exact Or.inl rfl
    · exact Or.inr rfl
  have hform := pawn_last_step b sq hsq hp hr dir hdir
  constructor
  · intro d hd
    show _ = promotion_moves b.side_to_move sq d
    rw [filter_pseudo_pawn T b sq hsq hpawn _ (fun m hm => (of_decide_eq_true hm).1), hform]
    simp only [List.filter_append, promotion_part_filter]
    have n1 : ¬ ((sq : Int) + dir - 1 = (sq : Int) + dir) := by omega
    have n2 : ¬ ((sq : Int) + dir + 1 = (sq : Int) + dir) := by omega
    have n3 : ¬ ((sq : Int) + dir = (sq : Int) + dir - 1) := by omega
    have n4 : ¬ ((sq : Int) + dir + 1 = (sq : Int) + dir - 1) := by omega
    have n5 : ¬ ((sq : Int) + dir = (sq : Int) + dir + 1) := by omega
    have n6 : ¬ ((sq : Int) + dir - 1 = (sq : Int) + dir + 1) := by omega
    rcases hd with ⟨h1, h2⟩ | ⟨(⟨h1, h2⟩ | ⟨h1, h2⟩), h3, h4⟩
    · subst h1
      simp only [h2, n1, n2, and_false, and_true, ↓reduceIte, List.append_nil]
    · subst h1
      simp only [h2, h3, h4, n3, n4, and_false, and_true, and_self, ↓reduceIte, List.append_nil,
        List.nil_append]
    · subst h1
      simp only [h2, h3, h4, n5, n6, and_false, and_true, and_self, ↓reduceIte, List.append_nil,
        List.nil_append]
  · intro m hm hsrc
    have hmem : m ∈ (generate_pseudo_legal_moves T b).filter (fun m => m.src = (sq : Int)) :=
      List.mem_filter.mpr ⟨hm, decide_eq_true hsrc⟩
    rw [filter_pseudo_pawn T b sq hsq hpawn _ (fun m hm => of_decide_eq_true hm), hform] at hmem
    have hmem2 := (List.mem_filter.mp hmem).1
    simp only [List.mem_append] at hmem2
    rcases hmem2 with h | h | h <;>
      exact promotion_moves_promote _ _ _ m (mem_of_mem_ite_nil _ _ m h)

theorem promotion_generation_witness :
    (generate_pseudo_legal_moves geometry fen_promotion).filter
        (fun m => m.src = ((48 : Nat) : Int) ∧ m.dst = 57) =
      [{ src := 48, dst := 57, promotion := WQ, is_en_passant_capture := false },
       { src := 48, dst := 57, promotion := WR, is_en_passant_capture := false },
       { src := 48, dst := 57, promotion := WB, is_en_passant_capture := false },
       { src := 48, dst := 57, promotion := WN, is_en_passant_capture := false }] :=
  (promotion_generation geometry fen_promotion 48 (by decide) (by decide) (by decide) 8
    (by decide)).1 57 (Or.inr ⟨Or.inr ⟨by decide, by decide⟩, by decide, by decide⟩)

/-! ## The search -/

/-- C14. In every position in which `generate_legal_moves` is empty,
`find_best_move` returns the sentinel move `Move()`, with `from = -1`,
`to = -1` and no promotion piece, for every `max_depth`, every behaviour of the
clock, every evaluation and every bound on the nesting of calls. -/
theorem no_move_sentinel (E : Env) (fuel : Nat) (b : Board) (max_depth : Int)
    (h : (generate_legal_moves E.tables b).1 = []) :
    (find_best_move E fuel b max_depth).map Prod.fst =
      some { src := -1, dst := -1, promotion := EMPTY, is_en_passant_capture := false } := by
  unfold find_best_move SearchState.legal_moves initial_state
  simp only [h]
  rfl

theorem no_move_sentinel_witness :
    (find_best_move sample_env 0 fen_mate 20).map Prod.fst =
      some { src := -1, dst := -1, promotion := EMPTY, is_en_passant_capture := false } :=
  no_move_sentinel sample_env 0 fen_mate 20 fen_mate_no_moves

theorem stalemate_behind_target_facts :
    (generate_legal_moves geometry fen_stalemate_behind_target).1 = [] ∧
      is_king_in_check geometry fen_stalemate_behind_target
        fen_stalemate_behind_target.side_to_move = false ∧
      is_king_in_check geometry (generate_legal_moves geometry fen_stalemate_behind_target).2
        (generate_legal_moves geometry fen_stalemate_behind_target).2.side_to_move = true := by
  decide!

/-- C18, failing input. In `kb6/8/6pp/4P2p/5K2/7r/3n4/8 w - e6 0 1` White has
no legal move and is not in check, and `alpha_beta` returns `-INF + ply`, not
0, for every depth, window, ply, evaluation and sort, with a clock that has
not expired. -/
theorem stalemate_scored_as_mate (ev : Board → Int) (srt : List ScoredMove → List ScoredMove)
    (depth alpha beta ply : Int) :
    (generate_legal_moves geometry fen_stalemate_behind_target).1 = [] ∧
    is_king_in_check geometry fen_stalemate_behind_target
      fen_stalemate_behind_target.side_to_move = false ∧
    (alpha_beta { tables := geometry, evaluate := ev, time_up := fun _ => false, sort := srt } 2
      (initial_state fen_stalemate_behind_target) depth alpha beta ply).map Prod.fst =
      some (-INF + ply) := by
  obtain ⟨h1, h2, h3⟩ := stalemate_behind_target_facts
  refine ⟨h1, h2, ?_⟩
  unfold alpha_beta
  simp only [flag_or_time_up, is_time_up, initial_state, Bool.false_eq_true, ↓reduceIte]
  by_cases hd : depth ≤ 0
  · rw [if_pos hd]
    unfold quiescence
    simp only [SearchState.legal_moves, h1, List.isEmpty_nil, ↓reduceIte, terminal_score, h3,
      Option.map_some']
  · rw [if_neg hd]
    simp only [SearchState.legal_moves, h1, List.isEmpty_nil, ↓reduceIte, terminal_score, h3,
      Option.map_some']
theorem king_behind_pawn_moves :
    generate_legal_moves geometry fen_king_behind_pawn =
      ([Move.mk2 36 44], fen_king_facing_pawn) := by
  decide!

theorem king_facing_pawn_moves :
    generate_legal_moves geometry fen_king_facing_pawn =
      ([Move.mk2 28 36], fen_king_facing_pawn) := by
  decide!

theorem king_takes_pawn_facts :
    (make_move fen_king_facing_pawn (Move.mk2 28 36) EMPTY EMPTY).ok = true ∧
    (generate_legal_moves geometry
      (make_move fen_king_facing_pawn (Move.mk2 28 36) EMPTY EMPTY).board).1.isEmpty = false ∧
    (generate_legal_moves geometry
      (make_move fen_king_facing_pawn (Move.mk2 28 36) EMPTY EMPTY).board).2 =
      (make_move fen_king_facing_pawn (Move.mk2 28 36) EMPTY EMPTY).board ∧
    capture_list (make_move fen_king_facing_pawn (Move.mk2 28 36) EMPTY EMPTY).board
      (generate_legal_moves geometry
        (make_move fen_king_facing_pawn (Move.mk2 28 36) EMPTY EMPTY).board).1 = [] := by
  decide!
theorem adjust_gt_neg_inf (v : Int) (h : v ≤ INF) : adjust_mate_distance (-v) > -INF := by
  unfold adjust_mate_distance INF at *
  simp only []
  split <;> split <;> omega

theorem depths_one : ((List.range (1 : Int).toNat).map fun i => (i : Int) + 1) = [1] := by
  decide

/-- A quiescence node with legal moves and no capture returns the stand-pat
value raised to `alpha` and cut at `beta`. -/
theorem quiescence_quiet (E : Env) (hnil : E.sort [] = []) (fuel : Nat) (s : SearchState)
    (alpha beta ply : Int) (q : Board) (hq : s.board = q)
    (h1 : (generate_legal_moves E.tables q).1.isEmpty = false)
    (h2 : (generate_legal_moves E.tables q).2 = q)
    (h3 : capture_list q (generate_legal_moves E.tables q).1 = []) :
    quiescence E (fuel + 1) s alpha beta ply =
      some (if E.evaluate q ≥ beta then beta
            else if alpha < E.evaluate q then E.evaluate q else alpha, s) := by
  subst hq
  unfold quiescence
  simp only [SearchState.legal_moves, h1, h2, h3, hnil, Bool.false_eq_true, ↓reduceIte,
    quiescence_loop]
  split <;> rfl
/-- The first depth iteration when the board offers a single legal move
whose reply position is quiet: the move is chosen whatever the evaluation. -/
theorem single_move_iteration (E : Env) (hnil : E.sort [] = [])
    (hclock : E.time_up 0 = false ∧ E.time_up 1 = false ∧ E.time_up 2 = false)
    (fuel : Nat) (b p : Board) (first : Move) (rest : List Move) (m : Move)
    (h1 : generate_legal_moves E.tables b = (first :: rest, p))
    (h2 : generate_legal_moves E.tables p = ([m], p))
    (h3 : (make_move p m EMPTY EMPTY).ok = true)
    (h4 : (generate_legal_moves E.tables (make_move p m EMPTY EMPTY).board).1.isEmpty = false)
    (h5 : (generate_legal_moves E.tables (make_move p m EMPTY EMPTY).board).2 =
      (make_move p m EMPTY EMPTY).board)
    (h6 : capture_list (make_move p m EMPTY EMPTY).board
      (generate_legal_moves E.tables (make_move p m EMPTY EMPTY).board).1 = []) :
    (find_best_move E (fuel + 2) b 1).map Prod.fst = some m := by
  obtain ⟨c0, c1, c2⟩ := hclock
  unfold find_best_move
  simp only [SearchState.legal_moves, initial_state, h1, depths_one]
  unfold depth_loop
  simp only [is_time_up, c0, Bool.false_eq_true, ↓reduceIte, SearchState.legal_moves, h2,
    List.isEmpty_cons]
  unfold root_loop
  simp only [flag_or_time_up, is_time_up, c1, Bool.false_eq_true, ↓reduceIte, h3,
    Bool.true_eq_false]
  unfold alpha_beta
  simp only [flag_or_time_up, is_time_up, c2, Bool.false_eq_true, ↓reduceIte, sub_self, le_refl]
  rw [quiescence_quiet E hnil fuel _ _ _ _ (make_move p m EMPTY EMPTY).board rfl h4 h5 h6]
  simp only [root_loop, SearchState.unmake, depth_loop, Option.map_some']
  rw [if_pos trivial, Option.map_some', if_pos]
  apply adjust_gt_neg_inf
  split
  · exact le_refl _
  · split
    · omega
    · unfold INF; omega

/-- C15, failing input. In `7k/8/1n5n/4P3/4K3/r7/8/8 w - e6 0 1` the only
move of `generate_legal_moves` is e5-e6, and `find_best_move` with
`max_depth = 1` and a clock that does not expire returns Ke4xe5, the capture
of White's own pawn, whatever the evaluation. -/
theorem best_move_not_legal (ev : Board → Int) (fuel : Nat) :
    (generate_legal_moves geometry fen_king_behind_pawn).1 = [Move.mk2 36 44] ∧
    (find_best_move
        { tables := geometry, evaluate := ev, time_up := fun _ => false, sort := stable_sort }
        (fuel + 2) fen_king_behind_pawn 1).map Prod.fst = some (Move.mk2 28 36) := by
  obtain ⟨f1, f2, f3, f4⟩ := king_takes_pawn_facts
  refine ⟨by rw [king_behind_pawn_moves], ?_⟩
  exact single_move_iteration _ rfl ⟨rfl, rfl, rfl⟩ fuel fen_king_behind_pawn
    fen_king_facing_pawn (Move.mk2 36 44) [] (Move.mk2 28 36) king_behind_pawn_moves
    king_facing_pawn_moves f1 f2 f3 f4
theorem quiescence_terminal (E : Env) (fuel : Nat) (s : SearchState) (alpha beta ply : Int)
    (t : Board) (ht : s.board = t) (h1 : generate_legal_moves E.tables t = ([], t)) :
    quiescence E (fuel + 1) s alpha beta ply =
      some (if is_king_in_check E.tables t t.side_to_move then -INF + ply else 0, s) := by
  subst ht
  unfold quiescence
  simp only [SearchState.legal_moves, h1, List.isEmpty_nil, ↓reduceIte, terminal_score]

/-- A quiescence node whose only capture, listed twice, mates: the value is
the mate score `INF - (ply + 1)` cut at `beta`, when the stand-pat value and
`alpha` are below it. -/
theorem quiescence_mated_by_capture (E : Env) (fuel : Nat)
    (s : SearchState) (alpha beta ply : Int) (q : Board) (c : ScoredMove)
    (hc1 : E.time_up s.clock_calls = false) (hc2 : E.time_up (s.clock_calls + 1) = false)
    (hq : s.board = q)
    (h1 : (generate_legal_moves E.tables q).1.isEmpty = false)
    (h2 : (generate_legal_moves E.tables q).2 = q)
    (h3 : E.sort (capture_list q (generate_legal_moves E.tables q).1) = [c, c])
    (h5 : generate_legal_moves E.tables (make_move q c.move EMPTY EMPTY).board =
      ([], (make_move q c.move EMPTY EMPTY).board))
    (h6 : is_king_in_check E.tables (make_move q c.move EMPTY EMPTY).board
      (make_move q c.move EMPTY EMPTY).board.side_to_move = true)
    (h7 : unmake_move (make_move q c.move EMPTY EMPTY).board c.move
      (make_move q c.move EMPTY EMPTY).captured_piece
      (make_move q c.move EMPTY EMPTY).moved_piece = q)
    (hev : E.evaluate q < beta ∧ E.evaluate q < INF - (ply + 1)) (hab : alpha < INF - (ply + 1)) :
    quiescence E (fuel + 2) s alpha beta ply =
      some (if INF - (ply + 1) ≥ beta then beta else INF - (ply + 1),
        { s with
          clock_calls := if INF - (ply + 1) ≥ beta then s.clock_calls + 1 else s.clock_calls + 1 + 1,
          unmake_on_empty :=
            if INF - (ply + 1) ≥ beta then
              s.unmake_on_empty || (make_move q c.move EMPTY EMPTY).board.history.isEmpty
            else
              s.unmake_on_empty || (make_move q c.move EMPTY EMPTY).board.history.isEmpty ||
                (make_move q c.move EMPTY EMPTY).board.history.isEmpty }) := by
  subst hq
  unfold quiescence
  simp only [SearchState.legal_moves, h1, h2, h3, Bool.false_eq_true, ↓reduceIte,
    if_neg (not_le.mpr hev.1)]
  unfold quiescence_loop
  simp only [is_time_up, hc1, hc2, Bool.false_eq_true, ↓reduceIte]
  rw [quiescence_terminal E fuel _ _ _ _ (make_move s.board c.move EMPTY EMPTY).board rfl h5]
  have e : -(-INF + (ply + 1)) = INF - (ply + 1) := by ring
  have ha : INF - (ply + 1) >
      (if alpha < E.evaluate s.board then E.evaluate s.board else alpha) := by
    split
    · exact hev.2
    · exact hab
  simp only [h6, ↓reduceIte, SearchState.unmake, h7, e, if_pos ha]
  by_cases hb : INF - (ply + 1) ≥ beta
  · simp only [if_pos hb]
  · simp only [if_neg hb]
    unfold quiescence_loop
    simp only [is_time_up, hc1, hc2, Bool.false_eq_true, ↓reduceIte]
    rw [quiescence_terminal E fuel _ _ _ _ (make_move s.board c.move EMPTY EMPTY).board rfl h5]
    simp only [h6, ↓reduceIte, SearchState.unmake, h7, e, if_neg hb, gt_iff_lt, lt_self_iff_false,
      quiescence_loop]

theorem alpha_beta_leaf (E : Env) (fuel : Nat) (s : SearchState)
    (depth alpha beta ply : Int) (hc : E.time_up s.clock_calls = false)
    (hflag : s.time_up_flag = false) (hd : depth ≤ 0) :
    alpha_beta E (fuel + 1) s depth alpha beta ply =
      quiescence E fuel { s with clock_calls := s.clock_calls + 1 } alpha beta ply := by
  unfold alpha_beta
  simp only [flag_or_time_up, hflag, is_time_up, hc, Bool.false_eq_true, ↓reduceIte, hd]

theorem adjust_low (x : Int) (h : x < -50000) : adjust_mate_distance x = x + 1 := by
  unfold adjust_mate_distance INF
  simp only []
  split
  · omega
  · split
    · rfl
    · omega

theorem record_preserves (s : SearchState) (m : Move) (ply depth : Int) :
    (record_history (record_killer s m ply) m depth).board = s.board ∧
    (record_history (record_killer s m ply) m depth).time_up_flag = s.time_up_flag := by
  unfold record_history record_killer
  simp only []
  split
  · exact ⟨rfl, rfl⟩
  · split <;> exact ⟨rfl, rfl⟩

/-- A pass of the move loop of `alpha_beta` at depth 1, entered with
`alpha = best = -INF`, over a move that lets the opponent mate by a capture:
the move is scored `-INF + ply + 3`. -/
theorem loop_step_trap_first (E : Env) (hne : E.NeverExpires) (fuel : Nat) (s : SearchState)
    (ply : Int) (b : Board) (m : Move) (x : Int) (c : ScoredMove) (rest : List ScoredMove)
    (hb : s.board = b) (hflag : s.time_up_flag = false) (hply : 0 ≤ ply ∧ ply < 1000)
    (ok1 : (make_move b m EMPTY EMPTY).ok = true)
    (a1 : (generate_legal_moves E.tables (make_move b m EMPTY EMPTY).board).1.isEmpty = false)
    (a2 : (generate_legal_moves E.tables (make_move b m EMPTY EMPTY).board).2 =
      (make_move b m EMPTY EMPTY).board)
    (a3 : E.sort (capture_list (make_move b m EMPTY EMPTY).board
      (generate_legal_moves E.tables (make_move b m EMPTY EMPTY).board).1) = [c, c])
    (a5 : generate_legal_moves E.tables
        (make_move (make_move b m EMPTY EMPTY).board c.move EMPTY EMPTY).board =
      ([], (make_move (make_move b m EMPTY EMPTY).board c.move EMPTY EMPTY).board))
    (a6 : is_king_in_check E.tables
      (make_move (make_move b m EMPTY EMPTY).board c.move EMPTY EMPTY).board
      (make_move (make_move b m EMPTY EMPTY).board c.move EMPTY EMPTY).board.side_to_move = true)
    (a7 : unmake_move (make_move (make_move b m EMPTY EMPTY).board c.move EMPTY EMPTY).board
      c.move (make_move (make_move b m EMPTY EMPTY).board c.move EMPTY EMPTY).captured_piece
      (make_move (make_move b m EMPTY EMPTY).board c.move EMPTY EMPTY).moved_piece =
      (make_move b m EMPTY EMPTY).board)
    (a8 : unmake_move (make_move b m EMPTY EMPTY).board m
      (make_move b m EMPTY EMPTY).captured_piece (make_move b m EMPTY EMPTY).moved_piece = b)
    (a9 : E.evaluate (make_move b m EMPTY EMPTY).board < INF / 2) :
    ∃ s2, s2.board = b ∧ s2.time_up_flag = false ∧
      alpha_beta_loop E (fun s a b => alpha_beta E (fuel + 3) s (1 - 1) a b (ply + 1)) 1 INF ply
        ({ move := m, score := x } :: rest) s (-INF) (-INF) =
      alpha_beta_loop E (fun s a b => alpha_beta E (fuel + 3) s (1 - 1) a b (ply + 1)) 1 INF ply
        rest s2 (-INF + ply + 3) (-INF + ply + 3) := by
  subst hb
  have hI : INF = 100000 := rfl
  rw [alpha_beta_loop]
  simp only [flag_or_time_up, hflag, is_time_up, hne _, Bool.false_eq_true, ↓reduceIte, ok1,
    Bool.true_eq_false]
  rw [alpha_beta_leaf E (fuel + 2) _ _ _ _ _ (hne _) rfl (by decide)]
  rw [quiescence_mated_by_capture E fuel _ _ _ _ (make_move s.board m EMPTY EMPTY).board c
    (hne _) (hne _) rfl a1 a2 a3 a5 a6 a7 ⟨by rw [hI] at a9 ⊢; omega, by rw [hI] at a9 ⊢; omega⟩
    (by rw [hI]; omega)]
  simp only [SearchState.unmake, a8]
  have v1 : ¬ (INF - (ply + 1 + 1) ≥ - -INF) := by rw [hI]; omega
  have w1 : adjust_mate_distance (-(INF - (ply + 1 + 1))) = -INF + ply + 3 := by
    rw [adjust_low _ (by rw [hI]; omega)]; ring
  have v2 : -INF + ply + 3 > -INF := by omega
  have v3 : ¬ (-INF + ply + 3 ≥ INF) := by rw [hI]; omega
  simp only [if_neg v1, w1, if_pos v2, if_neg v3]
  refine ⟨_, ?_, ?_, rfl⟩
  · split
    · exact (record_preserves _ _ _ _).1
    · rfl
  · split
    · exact (record_preserves _ _ _ _).2
    · rfl

/-- The same pass entered with `alpha = best = -INF + ply + 3`: the reply
search is cut at `beta = INF - ply - 3` and the move is scored one more,
`-INF + ply + 4`. -/
theorem loop_step_trap_second (E : Env) (hne : E.NeverExpires) (fuel : Nat) (s : SearchState)
    (ply : Int) (b : Board) (m : Move) (x : Int) (c : ScoredMove) (rest : List ScoredMove)
    (hb : s.board = b) (hflag : s.time_up_flag = false) (hply : 0 ≤ ply ∧ ply < 1000)
    (ok1 : (make_move b m EMPTY EMPTY).ok = true)
    (a1 : (generate_legal_moves E.tables (make_move b m EMPTY EMPTY).board).1.isEmpty = false)
    (a2 : (generate_legal_moves E.tables (make_move b m EMPTY EMPTY).board).2 =
      (make_move b m EMPTY EMPTY).board)
    (a3 : E.sort (capture_list (make_move b m EMPTY EMPTY).board
      (generate_legal_moves E.tables (make_move b m EMPTY EMPTY).board).1) = [c, c])
    (a5 : generate_legal_moves E.tables
        (make_move (make_move b m EMPTY EMPTY).board c.move EMPTY EMPTY).board =
      ([], (make_move (make_move b m EMPTY EMPTY).board c.move EMPTY EMPTY).board))
    (a6 : is_king_in_check E.tables
      (make_move (make_move b m EMPTY EMPTY).board c.move EMPTY EMPTY).board
      (make_move (make_move b m EMPTY EMPTY).board c.move EMPTY EMPTY).board.side_to_move = true)
    (a7 : unmake_move (make_move (make_move b m EMPTY EMPTY).board c.move EMPTY EMPTY).board
      c.move (make_move (make_move b m EMPTY EMPTY).board c.move EMPTY EMPTY).captured_piece
      (make_move (make_move b m EMPTY EMPTY).board c.move EMPTY EMPTY).moved_piece =
      (make_move b m EMPTY EMPTY).board)
    (a8 : unmake_move (make_move b m EMPTY EMPTY).board m
      (make_move b m EMPTY EMPTY).captured_piece (make_move b m EMPTY EMPTY).moved_piece = b)
    (a9 : E.evaluate (make_move b m EMPTY EMPTY).board < INF / 2) :
    ∃ s2, s2.board = b ∧ s2.time_up_flag = false ∧
      alpha_beta_loop E (fun s a b => alpha_beta E (fuel + 3) s (1 - 1) a b (ply + 1)) 1 INF ply
        ({ move := m, score := x } :: rest) s (-INF + ply + 3) (-INF + ply + 3) =
      alpha_beta_loop E (fun s a b => alpha_beta E (fuel + 3) s (1 - 1) a b (ply + 1)) 1 INF ply
        rest s2 (-INF + ply + 4) (-INF + ply + 4) := by
  subst hb
  have hI : INF = 100000 := rfl
  rw [alpha_beta_loop]
  simp only [flag_or_time_up, hflag, is_time_up, hne _, Bool.false_eq_true, ↓reduceIte, ok1,
    Bool.true_eq_false]
  rw [alpha_beta_leaf E (fuel + 2) _ _ _ _ _ (hne _) rfl (by decide)]
  rw [quiescence_mated_by_capture E fuel _ _ _ _ (make_move s.board m EMPTY EMPTY).board c
    (hne _) (hne _) rfl a1 a2 a3 a5 a6 a7 ⟨by rw [hI] at a9 ⊢; omega, by rw [hI] at a9 ⊢; omega⟩
    (by rw [hI]; omega)]
  simp only [SearchState.unmake, a8]
  have v1 : INF - (ply + 1 + 1) ≥ -(-INF + ply + 3) := by rw [hI]; omega
  have w1 : adjust_mate_distance (- -(-INF + ply + 3)) = -INF + ply + 4 := by
    rw [adjust_low _ (by rw [hI]; omega)]; ring
  have v2 : -INF + ply + 4 > -INF + ply + 3 := by omega
  have v3 : ¬ (-INF + ply + 4 ≥ INF) := by rw [hI]; omega
  simp only [if_pos v1, w1, if_pos v2, if_neg v3]
  refine ⟨_, ?_, ?_, rfl⟩
  · split
    · exact (record_preserves _ _ _ _).1
    · rfl
  · split
    · exact (record_preserves _ _ _ _).2
    · rfl
theorem order_score_state (s : SearchState) (flag : Bool) (calls : Nat) (err : Bool)
    (ply : Int) (m : Move) :
    order_score
      { board := s.board, time_up_flag := flag, killer_moves := s.killer_moves,
        history_heuristic := s.history_heuristic, clock_calls := calls,
        unmake_on_empty := err } ply m =
    order_score s ply m := rfl

/-- At a node with two legal moves that both let the opponent mate by a
capture, `alpha_beta` of depth 1 with the full window returns `-INF + ply + 4`. -/
theorem pruned_two_traps (E : Env) (hne : E.NeverExpires) (fuel : Nat) (s : SearchState)
    (ply : Int) (b : Board) (m1 m2 : Move) (x1 x2 : Int) (c1 c2 : ScoredMove)
    (hb : s.board = b) (hflag : s.time_up_flag = false) (hply : 0 ≤ ply ∧ ply < 1000)
    (g : generate_legal_moves E.tables b = ([m1, m2], b))
    (hsort : E.sort ([m1, m2].map fun m => { move := m, score := order_score s ply m }) =
      [{ move := m1, score := x1 }, { move := m2, score := x2 }])
    (t1 : Trap E.tables E.sort b m1 c1) (t2 : Trap E.tables E.sort b m2 c2)
    (e1 : E.evaluate (make_move b m1 EMPTY EMPTY).board < INF / 2)
    (e2 : E.evaluate (make_move b m2 EMPTY EMPTY).board < INF / 2) :
    (alpha_beta E (fuel + 4) s 1 (-INF) INF ply).map Prod.fst = some (-INF + ply + 4) := by
  subst hb
  unfold alpha_beta
  simp only [flag_or_time_up, hflag, is_time_up, hne _, Bool.false_eq_true, ↓reduceIte,
    SearchState.legal_moves, g, List.isEmpty_cons, (by decide : ¬ ((1 : Int) ≤ 0))]
  simp only [order_score_state]
  rw [hsort]
  obtain ⟨s2, hb2, hf2, h2⟩ := loop_step_trap_first E hne fuel
    { board := s.board, time_up_flag := false, killer_moves := s.killer_moves,
      history_heuristic := s.history_heuristic, clock_calls := s.clock_calls + 1,
      unmake_on_empty := s.unmake_on_empty } ply s.board m1 x1 c1 [{ move := m2, score := x2 }]
    rfl rfl hply t1.ok t1.some_reply t1.reply_board t1.captures t1.no_move t1.check
    t1.capture_back t1.back e1
  rw [h2]
  obtain ⟨s3, -, -, h3⟩ := loop_step_trap_second E hne fuel s2 ply s.board m2 x2 c2 []
    hb2 hf2 hply t2.ok t2.some_reply t2.reply_board t2.captures t2.no_move t2.check
    t2.capture_back t2.back e2
  rw [h3]
  rfl

/-- The value of `quiescence` for the full window at a position where the
opponent mates by a capture. -/
theorem full_window_trap (E : Env) (hne : E.NeverExpires) (fuel : Nat) (ply : Int) (b : Board)
    (m : Move) (c : ScoredMove) (hply : 0 ≤ ply ∧ ply < 1000) (t : Trap E.tables E.sort b m c)
    (e : E.evaluate (make_move b m EMPTY EMPTY).board < INF / 2) :
    negamax E (fuel + 2) 0 (make_move b m EMPTY EMPTY).board (ply + 1) =
      some (INF - (ply + 1 + 1)) := by
  have hI : INF = 100000 := rfl
  unfold negamax
  rw [quiescence_mated_by_capture E fuel _ _ _ _ (make_move b m EMPTY EMPTY).board c
    (hne _) (hne _) rfl t.some_reply t.reply_board t.captures t.no_move t.check t.capture_back
    ⟨by rw [hI] at e ⊢; omega, by rw [hI] at e ⊢; omega⟩ (by rw [hI]; omega)]
  rw [if_neg (by rw [hI]; omega)]
  rfl

/-- At the same node the unpruned search of depth 1 returns `-INF + ply + 3`. -/
theorem unpruned_two_traps (E : Env) (hne : E.NeverExpires) (fuel : Nat)
    (ply : Int) (b : Board) (m1 m2 : Move) (c1 c2 : ScoredMove)
    (hply : 0 ≤ ply ∧ ply < 1000)
    (g : generate_legal_moves E.tables b = ([m1, m2], b))
    (t1 : Trap E.tables E.sort b m1 c1) (t2 : Trap E.tables E.sort b m2 c2)
    (e1 : E.evaluate (make_move b m1 EMPTY EMPTY).board < INF / 2)
    (e2 : E.evaluate (make_move b m2 EMPTY EMPTY).board < INF / 2) :
    negamax E (fuel + 2) 1 b ply = some (-INF + ply + 3) := by
  have hI : INF = 100000 := rfl
  have w : adjust_mate_distance (-(INF - (ply + 1 + 1))) = -INF + ply + 3 := by
    rw [adjust_low _ (by rw [hI]; omega)]; ring
  rw [negamax]
  simp only [g, List.isEmpty_cons, Bool.false_eq_true, ↓reduceIte, List.foldl_cons, List.foldl_nil,
    full_window_trap E hne fuel ply b m1 c1 hply t1 e1,
    full_window_trap E hne fuel ply b m2 c2 hply t2 e2, w]
  congr 1
  omega
theorem two_ways_mated_moves :
    generate_legal_moves geometry fen_two_ways_mated =
      ([Move.mk2 15 23, Move.mk2 15 31], fen_two_ways_mated) := by
  decide!

theorem two_ways_mated_order :
    stable_sort ([Move.mk2 15 23, Move.mk2 15 31].map fun m =>
        { move := m, score := order_score (initial_state fen_two_ways_mated) 0 m }) =
      [{ move := Move.mk2 15 23, score := 0 }, { move := Move.mk2 15 31, score := 0 }] := by
  decide!

theorem two_ways_mated_h3_facts :
    (make_move fen_two_ways_mated (Move.mk2 15 23) EMPTY EMPTY).ok = true ∧
    (generate_legal_moves geometry (make_move fen_two_ways_mated (Move.mk2 15 23) EMPTY EMPTY).board).1.isEmpty = false ∧
    (generate_legal_moves geometry (make_move fen_two_ways_mated (Move.mk2 15 23) EMPTY EMPTY).board).2 =
      (make_move fen_two_ways_mated (Move.mk2 15 23) EMPTY EMPTY).board ∧
    stable_sort (capture_list (make_move fen_two_ways_mated (Move.mk2 15 23) EMPTY EMPTY).board
      (generate_legal_moves geometry (make_move fen_two_ways_mated (Move.mk2 15 23) EMPTY EMPTY).board).1) =
      [{ move := Move.mk2 36 9, score := 19100 }, { move := Move.mk2 36 9, score := 19100 }] ∧
    generate_legal_moves geometry
        (make_move (make_move fen_two_ways_mated (Move.mk2 15 23) EMPTY EMPTY).board (Move.mk2 36 9) EMPTY EMPTY).board =
      ([], (make_move (make_move fen_two_ways_mated (Move.mk2 15 23) EMPTY EMPTY).board (Move.mk2 36 9) EMPTY EMPTY).board) ∧
    is_king_in_check geometry
      (make_move (make_move fen_two_ways_mated (Move.mk2 15 23) EMPTY EMPTY).board (Move.mk2 36 9) EMPTY EMPTY).board
      (make_move (make_move fen_two_ways_mated (Move.mk2 15 23) EMPTY EMPTY).board (Move.mk2 36 9) EMPTY EMPTY).board.side_to_move = true ∧
    unmake_move (make_move (make_move fen_two_ways_mated (Move.mk2 15 23) EMPTY EMPTY).board (Move.mk2 36 9) EMPTY EMPTY).board
      (Move.mk2 36 9)
      (make_move (make_move fen_two_ways_mated (Move.mk2 15 23) EMPTY EMPTY).board (Move.mk2 36 9) EMPTY EMPTY).captured_piece
      (make_move (make_move fen_two_ways_mated (Move.mk2 15 23) EMPTY EMPTY).board (Move.mk2 36 9) EMPTY EMPTY).moved_piece =
      (make_move fen_two_ways_mated (Move.mk2 15 23) EMPTY EMPTY).board ∧
    unmake_move (make_move fen_two_ways_mated (Move.mk2 15 23) EMPTY EMPTY).board (Move.mk2 15 23)
      (make_move fen_two_ways_mated (Move.mk2 15 23) EMPTY EMPTY).captured_piece
      (make_move fen_two_ways_mated (Move.mk2 15 23) EMPTY EMPTY).moved_piece = fen_two_ways_mated := by
  decide!

theorem two_ways_mated_h3 :
    Trap geometry stable_sort fen_two_ways_mated (Move.mk2 15 23)
      { move := Move.mk2 36 9, score := 19100 } := by
  obtain ⟨h1, h2, h3, h4, h5, h6, h7, h8⟩ := two_ways_mated_h3_facts
  exact ⟨h1, h2, h3, h4, h5, h6, h7, h8⟩

theorem two_ways_mated_h4_facts :
    (make_move fen_two_ways_mated (Move.mk2 15 31) EMPTY EMPTY).ok = true ∧
    (generate_legal_moves geometry (make_move fen_two_ways_mated (Move.mk2 15 31) EMPTY EMPTY).board).1.isEmpty = false ∧
    (generate_legal_moves geometry (make_move fen_two_ways_mated (Move.mk2 15 31) EMPTY EMPTY).board).2 =
      (make_move fen_two_ways_mated (Move.mk2 15 31) EMPTY EMPTY).board ∧
    stable_sort (capture_list (make_move fen_two_ways_mated (Move.mk2 15 31) EMPTY EMPTY).board
      (generate_legal_moves geometry (make_move fen_two_ways_mated (Move.mk2 15 31) EMPTY EMPTY).board).1) =
      [{ move := Move.mk2 36 9, score := 19100 }, { move := Move.mk2 36 9, score := 19100 }] ∧
    generate_legal_moves geometry
        (make_move (make_move fen_two_ways_mated (Move.mk2 15 31) EMPTY EMPTY).board (Move.mk2 36 9) EMPTY EMPTY).board =
      ([], (make_move (make_move fen_two_ways_mated (Move.mk2 15 31) EMPTY EMPTY).board (Move.mk2 36 9) EMPTY EMPTY).board) ∧
    is_king_in_check geometry
      (make_move (make_move fen_two_ways_mated (Move.mk2 15 31) EMPTY EMPTY).board (Move.mk2 36 9) EMPTY EMPTY).board
      (make_move (make_move fen_two_ways_mated (Move.mk2 15 31) EMPTY EMPTY).board (Move.mk2 36 9) EMPTY EMPTY).board.side_to_move = true ∧
    unmake_move (make_move (make_move fen_two_ways_mated (Move.mk2 15 31) EMPTY EMPTY).board (Move.mk2 36 9) EMPTY EMPTY).board
      (Move.mk2 36 9)
      (make_move (make_move fen_two_ways_mated (Move.mk2 15 31) EMPTY EMPTY).board (Move.mk2 36 9) EMPTY EMPTY).captured_piece
      (make_move (make_move fen_two_ways_mated (Move.mk2 15 31) EMPTY EMPTY).board (Move.mk2 36 9) EMPTY EMPTY).moved_piece =
      (make_move fen_two_ways_mated (Move.mk2 15 31) EMPTY EMPTY).board ∧
    unmake_move (make_move fen_two_ways_mated (Move.mk2 15 31) EMPTY EMPTY).board (Move.mk2 15 31)
      (make_move fen_two_ways_mated (Move.mk2 15 31) EMPTY EMPTY).captured_piece
      (make_move fen_two_ways_mated (Move.mk2 15 31) EMPTY EMPTY).moved_piece = fen_two_ways_mated := by
  decide!

theorem two_ways_mated_h4 :
    Trap geometry stable_sort fen_two_ways_mated (Move.mk2 15 31)
      { move := Move.mk2 36 9, score := 19100 } := by
  obtain ⟨h1, h2, h3, h4, h5, h6, h7, h8⟩ := two_ways_mated_h4_facts
  exact ⟨h1, h2, h3, h4, h5, h6, h7, h8⟩

/-- C16, failing input. In `8/8/8/4q3/8/1p6/1Pk4P/K7 w - - 0 1`, with a
clock that never expires, empty killer and history tables and any evaluation
below `INF/2`, `alpha_beta` of depth 1 with the window `(-INF, INF)` returns
`-INF + 4` at ply 0 and the unpruned search of depth 1 returns `-INF + 3`. -/
theorem pruning_changes_score (ev : Board → Int) (hev : ∀ b, ev b < INF / 2) (fuel : Nat) :
    (alpha_beta
        { tables := geometry, evaluate := ev, time_up := fun _ => false, sort := stable_sort }
        (fuel + 4) (initial_state fen_two_ways_mated) 1 (-INF) INF 0).map Prod.fst =
      some (-INF + 4) ∧
    negamax
        { tables := geometry, evaluate := ev, time_up := fun _ => false, sort := stable_sort }
        (fuel + 2) 1 fen_two_ways_mated 0 = some (-INF + 3) := by
  constructor
  · exact pruned_two_traps _ (fun _ => rfl) fuel (initial_state fen_two_ways_mated) 0
      fen_two_ways_mated (Move.mk2 15 23) (Move.mk2 15 31) 0 0 _ _ rfl rfl (by decide)
      two_ways_mated_moves two_ways_mated_order two_ways_mated_h3 two_ways_mated_h4
      (hev _) (hev _)
  · exact unpruned_two_traps _ (fun _ => rfl) fuel 0
      fen_two_ways_mated (Move.mk2 15 23) (Move.mk2 15 31) _ _ (by decide)
      two_ways_mated_moves two_ways_mated_h3 two_ways_mated_h4 (hev _) (hev _)

theorem pruning_changes_score_witness :
    (alpha_beta
        { tables := geometry, evaluate := fun _ => 0, time_up := fun _ => false,
          sort := stable_sort }
        (0 + 4) (initial_state fen_two_ways_mated) 1 (-INF) INF 0).map Prod.fst =
      some (-INF + 4) ∧
    negamax
        { tables := geometry, evaluate := fun _ => 0, time_up := fun _ => false,
          sort := stable_sort }
        (0 + 2) 1 fen_two_ways_mated 0 = some (-INF + 3) :=
  pruning_changes_score (fun _ => 0) (fun _ => (by decide : (0 : Int) < INF / 2)) 0
/-- A quiescence node whose capture loop finds the budget used up at its
first check: the stand-pat value is returned and `time_up_flag` is not set. -/
theorem quiescence_truncated (E : Env) (fuel : Nat) (s : SearchState) (alpha beta ply : Int)
    (q : Board) (c : ScoredMove) (rest : List ScoredMove)
    (hc : E.time_up s.clock_calls = true) (hq : s.board = q)
    (h1 : (generate_legal_moves E.tables q).1.isEmpty = false)
    (h2 : (generate_legal_moves E.tables q).2 = q)
    (h3 : E.sort (capture_list q (generate_legal_moves E.tables q).1) = c :: rest)
    (hev : E.evaluate q < beta) (hal : alpha < E.evaluate q) :
    quiescence E (fuel + 1) s alpha beta ply =
      some (E.evaluate q, { s with clock_calls := s.clock_calls + 1 }) := by
  subst hq
  unfold quiescence
  simp only [SearchState.legal_moves, h1, h2, h3, Bool.false_eq_true, ↓reduceIte,
    if_neg (not_le.mpr hev), if_pos hal]
  unfold quiescence_loop
  simp only [is_time_up, hc, ↓reduceIte]

theorem adjust_mid (x : Int) (h : -50000 ≤ x ∧ x ≤ 50000) : adjust_mate_distance x = x := by
  unfold adjust_mate_distance INF
  simp only []
  split
  · omega
  · split
    · omega
    · rfl

/-- The first depth iteration on a board with two legal moves, the first of
which lets the opponent mate by a capture, when the budget runs out at the eighth
reading of the clock, inside the quiescence search of the second move: the
iteration is kept and its choice, the second move, is returned. -/
theorem truncated_iteration_kept (E : Env) (fuel : Nat) (b : Board) (m1 m2 : Move)
    (c1 c2 : ScoredMove)
    (hclk : ∀ n, n < 7 → E.time_up n = false) (hup : E.time_up 7 = true)
    (g : generate_legal_moves E.tables b = ([m1, m2], b))
    (t1 : Trap E.tables E.sort b m1 c1) (t2 : Trap E.tables E.sort b m2 c2)
    (e1 : E.evaluate (make_move b m1 EMPTY EMPTY).board < INF / 2)
    (e2 : -INF / 2 < E.evaluate (make_move b m2 EMPTY EMPTY).board ∧
      E.evaluate (make_move b m2 EMPTY EMPTY).board < INF / 2) :
    (find_best_move E (fuel + 3) b 1).map Prod.fst = some m2 := by
  have hI : INF = 100000 := rfl
  have c0 := hclk 0 (by decide)
  have c1' : E.time_up (0 + 1) = false := hclk 1 (by decide)
  have c2' : E.time_up (0 + 1 + 1) = false := hclk 2 (by decide)
  unfold find_best_move
  simp only [SearchState.legal_moves, initial_state, g, depths_one]
  unfold depth_loop
  simp only [is_time_up, c0, Bool.false_eq_true, ↓reduceIte, SearchState.legal_moves, g,
    List.isEmpty_cons]
  unfold root_loop
  simp only [flag_or_time_up, is_time_up, c1', Bool.false_eq_true, ↓reduceIte, t1.ok,
    Bool.true_eq_false]
  rw [alpha_beta_leaf E (fuel + 2) _ _ _ _ _ c2' rfl (by decide)]
  rw [quiescence_mated_by_capture E fuel _ _ _ _ (make_move b m1 EMPTY EMPTY).board c1
    (hclk 3 (by decide)) (hclk 4 (by decide)) rfl t1.some_reply t1.reply_board t1.captures
    t1.no_move t1.check t1.capture_back
    ⟨by rw [hI] at e1 ⊢; omega, by rw [hI] at e1 ⊢; omega⟩ (by rw [hI]; omega)]
  have v1 : ¬ (INF - (1 + 1) ≥ INF) := by rw [hI]; omega
  have w1 : adjust_mate_distance (-(INF - (1 + 1))) = -INF + 3 := by
    rw [adjust_low _ (by rw [hI]; omega)]; rw [hI]; omega
  have v2 : -INF + 3 > -INF := by omega
  simp only [if_neg v1, w1, SearchState.unmake, t1.back, if_pos v2]
  have c5 : E.time_up (0 + 1 + 1 + 1 + 1 + 1) = false := hclk 5 (by decide)
  have c6 : E.time_up (0 + 1 + 1 + 1 + 1 + 1 + 1) = false := hclk 6 (by decide)
  have c7 : E.time_up (0 + 1 + 1 + 1 + 1 + 1 + 1 + 1) = true := hup
  unfold root_loop
  simp only [flag_or_time_up, is_time_up, c5, Bool.false_eq_true, ↓reduceIte, t2.ok,
    Bool.true_eq_false]
  rw [alpha_beta_leaf E (fuel + 2) _ _ _ _ _ c6 rfl (by decide)]
  rw [quiescence_truncated E (fuel + 1) _ _ _ _ (make_move b m2 EMPTY EMPTY).board c2 [c2]
    c7 rfl t2.some_reply t2.reply_board t2.captures (by rw [hI] at e2 ⊢; omega) (by rw [hI] at e2 ⊢; omega)]
  have w2 : adjust_mate_distance (-E.evaluate (make_move b m2 EMPTY EMPTY).board) =
      -E.evaluate (make_move b m2 EMPTY EMPTY).board :=
    adjust_mid _ (by rw [hI] at e2; omega)
  have v3 : -E.evaluate (make_move b m2 EMPTY EMPTY).board > -INF + 3 := by
    rw [hI] at e2 ⊢; omega
  simp only [w2, if_pos v3, root_loop, SearchState.unmake, depth_loop, ↓reduceIte,
    Option.map_some']

/-- C19, failing input. In `8/8/8/4q3/8/1p6/1Pk4P/K7 w - - 0 1` with
`max_depth = 1`, let the clock answer "not yet" seven times and "time is up"
from then on, so that the budget runs out at the first check of the capture
loop of `quiescence` under the second root move h2-h4.  `find_best_move` keeps
the iteration and returns h2-h4; no iteration was completed and the first
legal root move is h2-h3. -/
theorem truncated_iteration_used (ev : Board → Int)
    (hev : ∀ b, -INF / 2 < ev b ∧ ev b < INF / 2) (fuel : Nat) :
    (generate_legal_moves geometry fen_two_ways_mated).1.head? = some (Move.mk2 15 23) ∧
    (find_best_move
        { tables := geometry, evaluate := ev, time_up := fun n => decide (7 ≤ n),
          sort := stable_sort }
        (fuel + 3) fen_two_ways_mated 1).map Prod.fst = some (Move.mk2 15 31) := by
  constructor
  · rw [two_ways_mated_moves]; rfl
  · exact truncated_iteration_kept _ fuel fen_two_ways_mated (Move.mk2 15 23) (Move.mk2 15 31)
      { move := Move.mk2 36 9, score := 19100 } { move := Move.mk2 36 9, score := 19100 }
      (fun n hn => decide_eq_false (by omega)) rfl two_ways_mated_moves
      two_ways_mated_h3 two_ways_mated_h4
      (hev (make_move fen_two_ways_mated (Move.mk2 15 23) EMPTY EMPTY).board).2
      (hev (make_move fen_two_ways_mated (Move.mk2 15 31) EMPTY EMPTY).board)

theorem truncated_iteration_used_witness :
    (generate_legal_moves geometry fen_two_ways_mated).1.head? = some (Move.mk2 15 23) ∧
    (find_best_move
        { tables := geometry, evaluate := fun _ => 0, time_up := fun n => decide (7 ≤ n),
          sort := stable_sort }
        (0 + 3) fen_two_ways_mated 1).map Prod.fst = some (Move.mk2 15 31) :=
  truncated_iteration_used (fun _ => 0)
    (fun _ => ⟨(by decide : -INF / 2 < (0 : Int)), (by decide : (0 : Int) < INF / 2)⟩) 0
/-! ## Apply and undo in the search -/

theorem make_move_ok_iff (b : Board) (m : Move) (c0 m0 : Piece) :
    (make_move b m c0 m0).ok = true ↔ (0 ≤ m.src ∧ m.src < 64 ∧ 0 ≤ m.dst ∧ m.dst < 64) := by
  unfold make_move
  simp only []
  split
  · rename_i h
    simp only [Bool.false_eq_true, false_iff]
    omega
  · rename_i h
    simp only [true_iff]
    omega

theorem make_move_history (b : Board) (m : Move) (c0 m0 : Piece)
    (h : (make_move b m c0 m0).ok = true) :
    ∃ u, (make_move b m c0 m0).board.history = u :: b.history := by
  unfold make_move at h ⊢
  simp only [] at h ⊢
  split
  · rename_i hr
    rw [if_pos hr] at h
    exact Bool.noConfusion h
  · exact ⟨_, rfl⟩

theorem unmake_move_history (b : Board) (m : Move) (c p : Piece) (u : UndoInfo)
    (rest : List UndoInfo) (h : b.history = u :: rest) :
    (unmake_move b m c p).history = rest := by
  unfold unmake_move
  rw [h]

/-- A successful `make_move` followed by `unmake_move` leaves the history as
it was, whatever the move. -/
theorem make_unmake_history (b : Board) (m : Move) (c0 m0 c p : Piece)
    (h : (make_move b m c0 m0).ok = true) :
    (unmake_move (make_move b m c0 m0).board m c p).history = b.history := by
  obtain ⟨u, hu⟩ := make_move_history b m c0 m0 h
  exact unmake_move_history _ m c p u b.history hu

theorem legal_fold_history (T : Tables) (l : List Move) (st : List Move × Board) :
    (l.foldl (legal_step T) st).2.history = st.2.history ∧
    ((∀ m ∈ st.1, m.OnBoard) → ∀ m ∈ (l.foldl (legal_step T) st).1, m.OnBoard) := by
  induction l generalizing st with
  | nil => exact ⟨rfl, fun h => h⟩
  | cons x rest ih =>
    rw [List.foldl_cons]
    obtain ⟨h1, h2⟩ := ih (legal_step T st x)
    have key : (legal_step T st x).2.history = st.2.history ∧
        ((∀ m ∈ st.1, m.OnBoard) → ∀ m ∈ (legal_step T st x).1, m.OnBoard) := by
      unfold legal_step
      simp only []
      split
      · exact ⟨rfl, fun h => h⟩
      · rename_i hok
        have hok2 : (make_move st.2 x EMPTY EMPTY).ok = true := by
          cases h : (make_move st.2 x EMPTY EMPTY).ok
          · exact absurd h hok
          · rfl
        refine ⟨make_unmake_history st.2 x EMPTY EMPTY _ _ hok2, ?_⟩
        intro hall m hm
        split at hm
        · rcases List.mem_append.mp hm with h | h
          · exact hall m h
          · rw [List.mem_singleton] at h
            subst h
            exact (make_move_ok_iff st.2 m EMPTY EMPTY).mp hok2
        · exact hall m hm
    exact ⟨h1.trans key.1, fun h => h2 (key.2 h)⟩

/-- The generator leaves the undo history as it was, and every move it
returns has its squares on the board. -/
theorem legal_moves_history (T : Tables) (b : Board) :
    (generate_legal_moves T b).2.history = b.history ∧
    ∀ m ∈ (generate_legal_moves T b).1, m.OnBoard := by
  unfold generate_legal_moves
  obtain ⟨h1, h2⟩ := legal_fold_history T (generate_pseudo_legal_moves T b) ([], b)
  exact ⟨h1, h2 (fun m hm => absurd hm (List.not_mem_nil m))⟩

theorem balanced_refl (s : SearchState) : s.Balanced s := ⟨rfl, rfl⟩

theorem balanced_trans (a b c : SearchState) (h1 : a.Balanced b) (h2 : b.Balanced c) :
    a.Balanced c := ⟨h2.1.trans h1.1, h2.2.trans h1.2⟩

theorem balanced_legal_moves (E : Env) (s : SearchState) :
    s.Balanced (s.legal_moves E).2 :=
  ⟨(legal_moves_history E.tables s.board).1, rfl⟩

/-- A successful `make_move`, a balanced search below it and the matching
`unmake_move` are balanced together. -/
theorem balanced_step (s s2 : SearchState) (m : Move)
    (hok : (make_move s.board m EMPTY EMPTY).ok = true) (c p : Piece)
    (h : SearchState.Balanced { s with board := (make_move s.board m EMPTY EMPTY).board } s2) :
    s.Balanced (s2.unmake m c p) := by
  obtain ⟨u, hu⟩ := make_move_history s.board m EMPTY EMPTY hok
  obtain ⟨h1, h2⟩ := h
  simp only [] at h1 h2
  rw [hu] at h1
  constructor
  · exact unmake_move_history _ m c p u s.board.history h1
  · unfold SearchState.unmake
    simp only [h1, h2, List.isEmpty_cons, Bool.or_false]

theorem balanced_is_time_up (E : Env) (s : SearchState) : s.Balanced (is_time_up E s).2 :=
  ⟨rfl, rfl⟩

theorem balanced_flag_or_time_up (E : Env) (s : SearchState) :
    s.Balanced (flag_or_time_up E s).2 := by
  unfold flag_or_time_up
  split
  · exact ⟨rfl, rfl⟩
  · exact ⟨rfl, rfl⟩

theorem quiescence_loop_balanced (E : Env)
    (recurse : SearchState → Int → Int → Option (Int × SearchState))
    (hrec : ∀ s a b r, recurse s a b = some r → s.Balanced r.2) (beta : Int)
    (l : List ScoredMove) (hl : ∀ sm ∈ l, sm.move.OnBoard) (s : SearchState) (alpha : Int)
    (r : Int × SearchState) (h : quiescence_loop E recurse beta l s alpha = some r) :
    s.Balanced r.2 := by
  induction l generalizing s alpha with
  | nil =>
    unfold quiescence_loop at h
    simp only [Option.some.injEq] at h
    subst h
    exact balanced_refl s
  | cons sm rest ih =>
    unfold quiescence_loop at h
    simp only [] at h
    have hb0 := balanced_is_time_up E s
    split at h
    · simp only [Option.some.injEq] at h
      subst h
      exact hb0
    · have hok : (make_move (is_time_up E s).2.board sm.move EMPTY EMPTY).ok = true :=
        (make_move_ok_iff _ _ _ _).mpr (hl sm (List.mem_cons_self _ _))
      split at h
      · exact absurd h (by simp)
      · rename_i v s2 hr
        have hb1 := balanced_step (is_time_up E s).2 s2 sm.move hok
          (make_move (is_time_up E s).2.board sm.move EMPTY EMPTY).captured_piece
          (make_move (is_time_up E s).2.board sm.move EMPTY EMPTY).moved_piece
          (hrec _ _ _ _ hr)
        split at h
        · simp only [Option.some.injEq] at h
          subst h
          exact balanced_trans _ _ _ hb0 hb1
        · exact balanced_trans _ _ _ (balanced_trans _ _ _ hb0 hb1)
            (ih (fun x hx => hl x (List.mem_cons_of_mem _ hx)) _ _ h)

theorem capture_list_move (board : Board) (moves : List Move) (sm : ScoredMove)
    (h : sm ∈ capture_list board moves) : sm.move ∈ moves := by
  unfold capture_list at h
  rw [List.mem_map] at h
  obtain ⟨m, hm, rfl⟩ := h
  exact (List.mem_filter.mp hm).1

theorem quiescence_balanced (E : Env) (hs : ∀ l x, x ∈ E.sort l → x ∈ l) (fuel : Nat)
    (s : SearchState) (alpha beta ply : Int) (r : Int × SearchState)
    (h : quiescence E fuel s alpha beta ply = some r) : s.Balanced r.2 := by
  induction fuel generalizing s alpha beta ply r with
  | zero =>
    unfold quiescence at h
    exact absurd h (by simp)
  | succ n ih =>
    unfold quiescence at h
    simp only [] at h
    have g1 := balanced_legal_moves E s
    split at h
    · simp only [Option.some.injEq] at h
      subst h
      exact g1
    · split at h
      · simp only [Option.some.injEq] at h
        subst h
        exact g1
      · have g2 := balanced_legal_moves E (s.legal_moves E).2
        refine balanced_trans _ _ _ (balanced_trans _ _ _ g1 g2)
          (quiescence_loop_balanced E _ (fun s a b r hr => ih s a b (ply + 1) r hr) beta _ ?_
            _ _ r h)
        intro sm hsm
        have h1 := capture_list_move _ _ sm (hs _ sm hsm)
        exact (legal_moves_history E.tables (s.legal_moves E).2.board).2 sm.move h1

theorem ite_some_cases {α : Type} (c : Prop) [Decidable c] (x : α) (y : Option α) (r : α)
    (h : (if c then some x else y) = some r) : r = x ∨ y = some r := by
  split at h
  · simp only [Option.some.injEq] at h
    exact Or.inl h.symm
  · exact Or.inr h

theorem alpha_beta_loop_balanced (E : Env)
    (recurse : SearchState → Int → Int → Option (Int × SearchState))
    (hrec : ∀ s a b r, recurse s a b = some r → s.Balanced r.2) (depth beta ply : Int)
    (l : List ScoredMove) (s : SearchState) (alpha best : Int)
    (r : Int × SearchState)
    (h : alpha_beta_loop E recurse depth beta ply l s alpha best = some r) :
    s.Balanced r.2 := by
  induction l generalizing s alpha best with
  | nil =>
    unfold alpha_beta_loop at h
    simp only [Option.some.injEq] at h
    subst h
    exact balanced_refl s
  | cons sm rest ih =>
    unfold alpha_beta_loop at h
    simp only [] at h
    have hb0 := balanced_flag_or_time_up E s
    split at h
    · simp only [Option.some.injEq] at h
      subst h
      exact ⟨hb0.1, hb0.2⟩
    · split at h
      · exact balanced_trans _ _ _ hb0 (ih _ _ _ h)
      · rename_i hok
        have hok2 : (make_move (flag_or_time_up E s).2.board sm.move EMPTY EMPTY).ok = true := by
          cases hc : (make_move (flag_or_time_up E s).2.board sm.move EMPTY EMPTY).ok
          · exact absurd hc hok
          · rfl
        split at h
        · exact absurd h (by simp)
        · rename_i v s2 hr
          have hb1 := balanced_step (flag_or_time_up E s).2 s2 sm.move hok2
            (make_move (flag_or_time_up E s).2.board sm.move EMPTY EMPTY).captured_piece
            (make_move (flag_or_time_up E s).2.board sm.move EMPTY EMPTY).moved_piece
            (hrec _ _ _ _ hr)
          have hb2 : ∀ s3 : SearchState, ∀ c : Prop, ∀ d : Prop, [Decidable c] → [Decidable d] →
              s3.Balanced (if c then (if d then record_history (record_killer s3 sm.move ply)
                sm.move depth else s3) else s3) := by
            intro s3 c d _ _
            split
            · split
              · unfold record_history record_killer
                simp only []
                split
                · exact ⟨rfl, rfl⟩
                · split <;> exact ⟨rfl, rfl⟩
              · exact balanced_refl s3
            · exact balanced_refl s3
          rcases ite_some_cases _ _ _ _ h with h | h
          · subst h
            exact balanced_trans _ _ _ (balanced_trans _ _ _ hb0 hb1) (hb2 _ _ _)
          · exact balanced_trans _ _ _
              (balanced_trans _ _ _ (balanced_trans _ _ _ hb0 hb1) (hb2 _ _ _)) (ih _ _ _ h)

theorem alpha_beta_balanced (E : Env) (hs : ∀ l x, x ∈ E.sort l → x ∈ l) (fuel : Nat)
    (s : SearchState) (depth alpha beta ply : Int) (r : Int × SearchState)
    (h : alpha_beta E fuel s depth alpha beta ply = some r) : s.Balanced r.2 := by
  induction fuel generalizing s depth alpha beta ply r with
  | zero =>
    unfold alpha_beta at h
    exact absurd h (by simp)
  | succ n ih =>
    unfold alpha_beta at h
    simp only [] at h
    have hb0 := balanced_flag_or_time_up E s
    split at h
    · simp only [Option.some.injEq] at h
      subst h
      exact ⟨hb0.1, hb0.2⟩
    · split at h
      · exact balanced_trans _ _ _ hb0 (quiescence_balanced E hs n _ _ _ _ r h)
      · have g1 := balanced_legal_moves E (flag_or_time_up E s).2
        split at h
        · simp only [Option.some.injEq] at h
          subst h
          exact balanced_trans _ _ _ hb0 g1
        · exact balanced_trans _ _ _ (balanced_trans _ _ _ hb0 g1)
            (alpha_beta_loop_balanced E _ (fun s a b r hr => ih s (depth - 1) a b (ply + 1) r hr)
              depth beta ply _ _ _ _ r h)

theorem root_loop_balanced (E : Env) (recurse : SearchState → Option (Int × SearchState))
    (hrec : ∀ s r, recurse s = some r → s.Balanced r.2)
    (l : List Move) (s : SearchState) (alpha score : Int) (move : Move) (r : RootResult)
    (h : root_loop E recurse l s alpha score move = some r) : s.Balanced r.state := by
  induction l generalizing s alpha score move with
  | nil =>
    unfold root_loop at h
    simp only [Option.some.injEq] at h
    subst h
    exact balanced_refl s
  | cons m rest ih =>
    unfold root_loop at h
    simp only [] at h
    have hb0 := balanced_flag_or_time_up E s
    split at h
    · simp only [Option.some.injEq] at h
      subst h
      exact ⟨hb0.1, hb0.2⟩
    · split at h
      · exact balanced_trans _ _ _ hb0 (ih _ _ _ _ h)
      · rename_i hok
        have hok2 : (make_move (flag_or_time_up E s).2.board m EMPTY EMPTY).ok = true := by
          cases hc : (make_move (flag_or_time_up E s).2.board m EMPTY EMPTY).ok
          · exact absurd hc hok
          · rfl
        split at h
        · exact absurd h (by simp)
        · rename_i v s2 hr
          have hb1 := balanced_step (flag_or_time_up E s).2 s2 m hok2
            (make_move (flag_or_time_up E s).2.board m EMPTY EMPTY).captured_piece
            (make_move (flag_or_time_up E s).2.board m EMPTY EMPTY).moved_piece
            (hrec _ _ hr)
          exact balanced_trans _ _ _ (balanced_trans _ _ _ hb0 hb1) (ih _ _ _ _ h)

theorem depth_loop_balanced (E : Env) (hs : ∀ l x, x ∈ E.sort l → x ∈ l) (fuel : Nat)
    (l : List Int) (s : SearchState) (score : Int) (move : Move) (r : Move × SearchState)
    (h : depth_loop E fuel l s score move = some r) : s.Balanced r.2 := by
  induction l generalizing s score move with
  | nil =>
    unfold depth_loop at h
    simp only [Option.some.injEq] at h
    subst h
    exact balanced_refl s
  | cons d rest ih =>
    unfold depth_loop at h
    simp only [] at h
    have hb0 := balanced_is_time_up E s
    split at h
    · simp only [Option.some.injEq] at h
      subst h
      exact hb0
    · have g1 := balanced_legal_moves E (is_time_up E s).2
      split at h
      · simp only [Option.some.injEq] at h
        subst h
        exact balanced_trans _ _ _ hb0 g1
      · split at h
        · exact absurd h (by simp)
        · rename_i res hres
          have hb1 := root_loop_balanced E _
            (fun s r hr => alpha_beta_balanced E hs fuel s (d - 1) (-INF) INF 1 r hr) _ _ _ _ _ res
            hres
          have hb2 := balanced_trans _ _ _ (balanced_trans _ _ _ hb0 g1) hb1
          split at h
          · exact balanced_trans _ _ _ hb2 (ih _ _ _ h)
          · exact balanced_trans _ _ _ hb2 (ih _ _ _ h)

theorem find_best_move_balanced (E : Env) (hs : ∀ l x, x ∈ E.sort l → x ∈ l) (fuel : Nat)
    (b : Board) (max_depth : Int) (r : Move × SearchState)
    (h : find_best_move E fuel b max_depth = some r) :
    r.2.board.history = b.history ∧ r.2.unmake_on_empty = false := by
  unfold find_best_move at h
  simp only [] at h
  have g1 := balanced_legal_moves E (initial_state b)
  split at h
  · simp only [Option.some.injEq] at h
    subst h
    exact g1
  · exact balanced_trans _ _ _ g1 (depth_loop_balanced E hs fuel _ _ _ _ r h)

theorem stable_sort_ok (l : List ScoredMove) :
    (stable_sort l).Perm l ∧ (stable_sort l).Pairwise fun a b => a.score ≥ b.score := by
  haveI : IsTotal ScoredMove by_score := ⟨fun a b => by unfold by_score; omega⟩
  haveI : IsTrans ScoredMove by_score := ⟨fun a b c h1 h2 => by unfold by_score at *; omega⟩
  exact ⟨List.perm_insertionSort by_score l, List.sorted_insertionSort by_score l⟩

theorem sample_env_sort_ok : sample_env.SortOk := stable_sort_ok

/-- C17. Whatever the position, `max_depth`, the evaluation and the answers
of the clock, when `find_best_move` returns, the undo history has the frames it
had on entry and no call of `unmake_move` made by `find_best_move`,
`alpha_beta` or `quiescence` found the history empty: each of their successful
`make_move` calls is followed, after a search that is balanced in turn, by the
one `unmake_move` that pops its frame. -/
theorem search_apply_undo_balanced (E : Env) (hE : E.SortOk) (fuel : Nat) (b : Board)
    (max_depth : Int) :
    (find_best_move E fuel b max_depth).map
        (fun r => (r.2.board.history, r.2.unmake_on_empty)) =
      (find_best_move E fuel b max_depth).map (fun _ => (b.history, false)) := by
  cases h : find_best_move E fuel b max_depth with
  | none => rfl
  | some r =>
    obtain ⟨h1, h2⟩ := find_best_move_balanced E (fun l x hx => (hE l).1.subset hx) fuel b
      max_depth r h
    simp only [Option.map_some', h1, h2]

theorem search_apply_undo_balanced_witness :
    (find_best_move sample_env 2 fen_king_behind_pawn 1).map
        (fun r => (r.2.board.history, r.2.unmake_on_empty)) =
      (find_best_move sample_env 2 fen_king_behind_pawn 1).map
        (fun _ => (fen_king_behind_pawn.history, false)) :=
  search_apply_undo_balanced sample_env sample_env_sort_ok 2 fen_king_behind_pawn 1
/-! ## What `make_move` records -/

/-- C21. After a successful `make_move` the en-passant target is `from + 8`
when a white pawn moved from rank index 1 to rank index 3, `from - 8` when a
black pawn moved from rank index 6 to rank index 4, and `-1` in every other
case; so a target set by one move is gone after the next move unless that one is
a double pawn push in turn. -/
theorem en_passant_target_after_make_move (b : Board) (m : Move) (c0 m0 : Piece)
    (hok : (make_move b m c0 m0).ok = true) :
    (make_move b m c0 m0).board.en_passant_square =
      (if b.sq m.src = WP ∧ m.src / 8 = 1 ∧ m.dst / 8 = 3 then m.src + 8
       else if b.sq m.src = BP ∧ m.src / 8 = 6 ∧ m.dst / 8 = 4 then m.src - 8
       else -1) ∧
    (¬ ((b.sq m.src = WP ∧ m.src / 8 = 1 ∧ m.dst / 8 = 3) ∨
        (b.sq m.src = BP ∧ m.src / 8 = 6 ∧ m.dst / 8 = 4)) →
      (make_move b m c0 m0).board.en_passant_square = -1) := by
  have h1 : (make_move b m c0 m0).board.en_passant_square =
      (if b.sq m.src = WP ∧ m.src / 8 = 1 ∧ m.dst / 8 = 3 then m.src + 8
       else if b.sq m.src = BP ∧ m.src / 8 = 6 ∧ m.dst / 8 = 4 then m.src - 8
       else -1) := by
    unfold make_move at hok ⊢
    simp only [] at hok ⊢
    split
    · rename_i h
      rw [if_pos h] at hok
      exact Bool.noConfusion hok
    · rfl
  refine ⟨h1, fun hn => ?_⟩
  rw [h1, if_neg (fun h => hn (Or.inl h)), if_neg (fun h => hn (Or.inr h))]

theorem en_passant_target_after_make_move_witness :
    (make_move startpos (Move.mk2 12 28) EMPTY EMPTY).board.en_passant_square =
      (if startpos.sq (Move.mk2 12 28).src = WP ∧ (Move.mk2 12 28).src / 8 = 1 ∧
          (Move.mk2 12 28).dst / 8 = 3 then (Move.mk2 12 28).src + 8
       else if startpos.sq (Move.mk2 12 28).src = BP ∧ (Move.mk2 12 28).src / 8 = 6 ∧
          (Move.mk2 12 28).dst / 8 = 4 then (Move.mk2 12 28).src - 8
       else -1) ∧
    (¬ ((startpos.sq (Move.mk2 12 28).src = WP ∧ (Move.mk2 12 28).src / 8 = 1 ∧
          (Move.mk2 12 28).dst / 8 = 3) ∨
        (startpos.sq (Move.mk2 12 28).src = BP ∧ (Move.mk2 12 28).src / 8 = 6 ∧
          (Move.mk2 12 28).dst / 8 = 4)) →
      (make_move startpos (Move.mk2 12 28) EMPTY EMPTY).board.en_passant_square = -1) :=
  en_passant_target_after_make_move startpos (Move.mk2 12 28) EMPTY EMPTY (by decide)

theorem castling_flags (b : Board) (m : Move) (c0 m0 : Piece)
    (hok : (make_move b m c0 m0).ok = true) :
    (make_move b m c0 m0).board.white_king_castle =
      (if b.sq m.src = WK ∨ m.src = H1 ∨ m.dst = H1 then false else b.white_king_castle) ∧
    (make_move b m c0 m0).board.white_queen_castle =
      (if b.sq m.src = WK ∨ m.src = A1 ∨ m.dst = A1 then false else b.white_queen_castle) ∧
    (make_move b m c0 m0).board.black_king_castle =
      (if b.sq m.src = BK ∨ m.src = H8 ∨ m.dst = H8 then false else b.black_king_castle) ∧
    (make_move b m c0 m0).board.black_queen_castle =
      (if b.sq m.src = BK ∨ m.src = A8 ∨ m.dst = A8 then false else b.black_queen_castle) := by
  unfold make_move at hok ⊢
  simp only [] at hok ⊢
  split
  · rename_i h
    rw [if_pos h] at hok
    exact Bool.noConfusion hok
  · simp only []
    have hk : ¬ (getSq b.squares m.src = WK ∧ getSq b.squares m.src = BK) := by
      intro h
      rw [h.1] at h
      exact absurd h.2 (by decide)
    unfold Board.sq
    refine ⟨?_, ?_, ?_, ?_⟩
    · by_cases h1 : getSq b.squares m.src = WK <;> by_cases h2 : m.src = H1 ∨ m.dst = H1 <;>
        simp [h1, h2]
    · by_cases h1 : getSq b.squares m.src = WK <;> by_cases h2 : m.src = A1 ∨ m.dst = A1 <;>
        simp [h1, h2]
    · by_cases h0 : getSq b.squares m.src = WK
      · have h1 : ¬ getSq b.squares m.src = BK := fun h => hk ⟨h0, h⟩
        by_cases h2 : m.src = H8 ∨ m.dst = H8 <;> simp [h0, h1, h2]
      · by_cases h1 : getSq b.squares m.src = BK <;> by_cases h2 : m.src = H8 ∨ m.dst = H8 <;>
          simp [h0, h1, h2]
    · by_cases h0 : getSq b.squares m.src = WK
      · have h1 : ¬ getSq b.squares m.src = BK := fun h => hk ⟨h0, h⟩
        by_cases h2 : m.src = A8 ∨ m.dst = A8 <;> simp [h0, h1, h2]
      · by_cases h1 : getSq b.squares m.src = BK <;> by_cases h2 : m.src = A8 ∨ m.dst = A8 <;>
          simp [h0, h1, h2]
/-- C22. After a successful `make_move` each castling flag is false when it
was false before; both flags of a side are false when the moved piece is that
side's king; the flag of a corner (h1, a1, h8, a8) is false when the origin or
the destination is that corner; and a flag that none of these rules covers
keeps its value. -/
theorem castling_rights_after_make_move (b : Board) (m : Move) (c0 m0 : Piece)
    (hok : (make_move b m c0 m0).ok = true) :
    ((b.white_king_castle = false → (make_move b m c0 m0).board.white_king_castle = false) ∧
     (b.white_queen_castle = false → (make_move b m c0 m0).board.white_queen_castle = false) ∧
     (b.black_king_castle = false → (make_move b m c0 m0).board.black_king_castle = false) ∧
     (b.black_queen_castle = false → (make_move b m c0 m0).board.black_queen_castle = false)) ∧
    ((make_move b m c0 m0).board.white_king_castle =
      (if b.sq m.src = WK ∨ m.src = H1 ∨ m.dst = H1 then false else b.white_king_castle) ∧
     (make_move b m c0 m0).board.white_queen_castle =
      (if b.sq m.src = WK ∨ m.src = A1 ∨ m.dst = A1 then false else b.white_queen_castle) ∧
     (make_move b m c0 m0).board.black_king_castle =
      (if b.sq m.src = BK ∨ m.src = H8 ∨ m.dst = H8 then false else b.black_king_castle) ∧
     (make_move b m c0 m0).board.black_queen_castle =
      (if b.sq m.src = BK ∨ m.src = A8 ∨ m.dst = A8 then false else b.black_queen_castle)) := by
  have h := castling_flags b m c0 m0 hok
  obtain ⟨h1, h2, h3, h4⟩ := h
  refine ⟨⟨fun e => ?_, fun e => ?_, fun e => ?_, fun e => ?_⟩, h1, h2, h3, h4⟩
  · rw [h1, e, ite_self]
  · rw [h2, e, ite_self]
  · rw [h3, e, ite_self]
  · rw [h4, e, ite_self]

theorem castling_rights_after_make_move_witness :
    ((fen_castle.white_king_castle = false →
        (make_move fen_castle (Move.mk2 4 5) EMPTY EMPTY).board.white_king_castle = false) ∧
     (fen_castle.white_queen_castle = false →
        (make_move fen_castle (Move.mk2 4 5) EMPTY EMPTY).board.white_queen_castle = false) ∧
     (fen_castle.black_king_castle = false →
        (make_move fen_castle (Move.mk2 4 5) EMPTY EMPTY).board.black_king_castle = false) ∧
     (fen_castle.black_queen_castle = false →
        (make_move fen_castle (Move.mk2 4 5) EMPTY EMPTY).board.black_queen_castle = false)) ∧
    ((make_move fen_castle (Move.mk2 4 5) EMPTY EMPTY).board.white_king_castle =
      (if fen_castle.sq (Move.mk2 4 5).src = WK ∨ (Move.mk2 4 5).src = H1 ∨
          (Move.mk2 4 5).dst = H1 then false else fen_castle.white_king_castle) ∧
     (make_move fen_castle (Move.mk2 4 5) EMPTY EMPTY).board.white_queen_castle =
      (if fen_castle.sq (Move.mk2 4 5).src = WK ∨ (Move.mk2 4 5).src = A1 ∨
          (Move.mk2 4 5).dst = A1 then false else fen_castle.white_queen_castle) ∧
     (make_move fen_castle (Move.mk2 4 5) EMPTY EMPTY).board.black_king_castle =
      (if fen_castle.sq (Move.mk2 4 5).src = BK ∨ (Move.mk2 4 5).src = H8 ∨
          (Move.mk2 4 5).dst = H8 then false else fen_castle.black_king_castle) ∧
     (make_move fen_castle (Move.mk2 4 5) EMPTY EMPTY).board.black_queen_castle =
      (if fen_castle.sq (Move.mk2 4 5).src = BK ∨ (Move.mk2 4 5).src = A8 ∨
          (Move.mk2 4 5).dst = A8 then false else fen_castle.black_queen_castle)) :=
  castling_rights_after_make_move fen_castle (Move.mk2 4 5) EMPTY EMPTY (by decide)

/-- C23, failing input. In `8/8/8/4P3/8/4K3/8/7k w - e6 0 1` the straight
advance e5-e6 onto the en-passant target is applied as an en-passant capture:
`make_move` reports a black pawn as captured, not `EMPTY`, and records e5 as
the square of the removed pawn. -/
theorem straight_push_taken_for_en_passant :
    (make_move fen_pawn_behind_target (Move.mk2 36 44) EMPTY EMPTY).ok = true ∧
    (Move.mk2 36 44).src % 8 = (Move.mk2 36 44).dst % 8 ∧
    (make_move fen_pawn_behind_target (Move.mk2 36 44) EMPTY EMPTY).captured_piece = BP ∧
    (make_move fen_pawn_behind_target (Move.mk2 36 44) EMPTY EMPTY).board.history.head?.map
      (fun u => u.en_passant_capture_square) = some 36 := by
  decide

/-! ## Move ordering -/

/-- C27. The score `victim * 100 - attacker` of `score_capture`, with the
values pawn 100, knight 320, bishop 330, rook 500, queen 900 and 0 for a king or
an empty square: of two captures the one whose victim has the larger value has
the strictly larger score whatever the attackers, and with victims of equal
value the one whose attacker has the smaller value has the strictly larger
score. -/
theorem mvv_lva_order (b1 b2 : Board) (m1 m2 : Move) :
    ([WP, WN, WB, WR, WQ, WK, BP, BN, BB, BR, BQ, BK, EMPTY].map piece_value_for_mvv =
      [100, 320, 330, 500, 900, 0, 100, 320, 330, 500, 900, 0, 0]) ∧
    score_capture b1 m1 =
      piece_value_for_mvv (b1.sq m1.dst) * 100 - piece_value_for_mvv (b1.sq m1.src) ∧
    (piece_value_for_mvv (b1.sq m1.dst) > piece_value_for_mvv (b2.sq m2.dst) →
      score_capture b1 m1 > score_capture b2 m2) ∧
    (piece_value_for_mvv (b1.sq m1.dst) = piece_value_for_mvv (b2.sq m2.dst) →
      piece_value_for_mvv (b1.sq m1.src) < piece_value_for_mvv (b2.sq m2.src) →
      score_capture b1 m1 > score_capture b2 m2) := by
  refine ⟨by decide, rfl, ?_⟩
  have hv : ∀ p : Piece, piece_value_for_mvv p = 0 ∨ piece_value_for_mvv p = 100 ∨
      piece_value_for_mvv p = 320 ∨ piece_value_for_mvv p = 330 ∨
      piece_value_for_mvv p = 500 ∨ piece_value_for_mvv p = 900 := by
    intro p
    unfold piece_value_for_mvv
    split
    · exact Or.inr (Or.inl rfl)
    · split
      · exact Or.inr (Or.inr (Or.inl rfl))
      · split
        · exact Or.inr (Or.inr (Or.inr (Or.inl rfl)))
        · split
          · exact Or.inr (Or.inr (Or.inr (Or.inr (Or.inl rfl))))
          · split
            · exact Or.inr (Or.inr (Or.inr (Or.inr (Or.inr rfl))))
            · exact Or.inl rfl
  unfold score_capture
  simp only []
  have a1 := hv (b1.sq m1.dst)
  have a2 := hv (b2.sq m2.dst)
  have a3 := hv (b1.sq m1.src)
  have a4 := hv (b2.sq m2.src)
  constructor
  · intro h
    omega
  · intro h1 h2
    omega

theorem mvv_lva_order_witness :
    score_capture fen_promotion (Move.mk2 48 57) >
      score_capture fen_en_passant (Move.mk2 36 35) :=
  (mvv_lva_order fen_promotion fen_en_passant (Move.mk2 48 57) (Move.mk2 36 35)).2.2.1
    (by decide)
/-! ## Shape of the pseudo-legal moves -/

theorem knight_dst (T : Tables) (b : Board) (m : Move) (hm : m ∈ generate_knight_moves T b) :
    empty_or_theirs b.side_to_move (b.sq m.dst) := by
  unfold generate_knight_moves at hm
  rw [List.mem_flatMap] at hm
  obtain ⟨i, -, hm⟩ := hm
  unfold knight_moves_from at hm
  simp only [] at hm
  split at hm
  · simp at hm
  · split at hm
    · simp at hm
    · rw [List.mem_flatMap] at hm
      obtain ⟨t, -, hm⟩ := hm
      split at hm
      · rename_i h
        simp only [List.mem_singleton] at hm
        subst hm
        exact h
      · simp at hm

theorem slide_dst (b : Board) (sq : Int) (l : List Int) (m : Move) (hm : m ∈ slide b sq l) :
    empty_or_theirs b.side_to_move (b.sq m.dst) := by
  rcases (mem_slide b sq l m hm).2.2 with h | h
  · exact Or.inl h
  · exact Or.inr h

theorem bishop_dst (T : Tables) (b : Board) (m : Move) (hm : m ∈ generate_bishop_moves T b) :
    empty_or_theirs b.side_to_move (b.sq m.dst) := by
  unfold generate_bishop_moves at hm
  rw [List.mem_flatMap] at hm
  obtain ⟨i, -, hm⟩ := hm
  unfold bishop_moves_from at hm
  simp only [] at hm
  split at hm
  · simp at hm
  · split at hm
    · simp at hm
    · rw [List.mem_flatMap] at hm
      obtain ⟨d, -, hm⟩ := hm
      exact slide_dst b _ _ m hm

theorem rook_dst (T : Tables) (b : Board) (m : Move) (hm : m ∈ generate_rook_moves T b) :
    empty_or_theirs b.side_to_move (b.sq m.dst) := by
  unfold generate_rook_moves at hm
  rw [List.mem_flatMap] at hm
  obtain ⟨i, -, hm⟩ := hm
  unfold rook_moves_from at hm
  simp only [] at hm
  split at hm
  · simp at hm
  · split at hm
    · simp at hm
    · rw [List.mem_flatMap] at hm
      obtain ⟨d, -, hm⟩ := hm
      exact slide_dst b _ _ m hm

theorem king_dst (b : Board) (m : Move) (hm : m ∈ generate_king_moves b) :
    empty_or_theirs b.side_to_move (b.sq m.dst) := by
  unfold generate_king_moves at hm
  rw [List.mem_flatMap] at hm
  obtain ⟨i, -, hm⟩ := hm
  unfold king_moves_from at hm
  simp only [] at hm
  split at hm
  · simp at hm
  · split at hm
    · simp at hm
    · rw [List.mem_flatMap] at hm
      obtain ⟨t, -, hm⟩ := hm
      split at hm
      · simp at hm
      · split at hm
        · simp at hm
        · split at hm
          · rename_i h
            simp only [List.mem_singleton] at hm
            subst hm
            exact h
          · simp at hm

theorem castling_dst (b : Board) (m : Move) (hm : m ∈ generate_castling_moves b) :
    empty_or_theirs b.side_to_move (b.sq m.dst) := by
  rcases mem_castling_moves b m hm with
    ⟨h1, -, -, -, -, -, h2, -⟩ | ⟨h1, -, -, -, -, -, h2, -⟩ | ⟨h1, -, -, -, -, -, h2, -⟩ |
    ⟨h1, -, -, -, -, -, h2, -⟩
  · rw [h1]; exact Or.inl h2
  · rw [h1]; exact Or.inl h2
  · rw [h1]; exact Or.inl h2
  · rw [h1]; exact Or.inl h2

theorem pawn_dst (b : Board) (m : Move) (hm : m ∈ generate_pawn_moves b) :
    empty_or_theirs b.side_to_move (b.sq m.dst) := by
  unfold generate_pawn_moves at hm
  rw [List.mem_flatMap] at hm
  obtain ⟨i, hi, hm⟩ := hm
  have hi64 : i < 64 := by simpa [allSquares] using hi
  obtain ⟨-, -, -, -, -, h⟩ := mem_pawn_moves_from b i m hi64 hm
  rcases h with ⟨-, h⟩ | ⟨-, -, -, h⟩ | ⟨-, h1, h2⟩
  · exact Or.inl h
  · exact Or.inl h
  · cases hs : b.side_to_move <;> simp only [hs, ↓reduceIte, reduceCtorEq] at h1 h2
    · exact Or.inr (Or.inl ⟨rfl, h1⟩)
    · exact Or.inr (Or.inr ⟨rfl, h2⟩)

theorem pseudo_dst (T : Tables) (b : Board) (m : Move)
    (hm : m ∈ generate_pseudo_legal_moves T b) :
    empty_or_theirs b.side_to_move (b.sq m.dst) := by
  unfold generate_pseudo_legal_moves generate_queen_moves at hm
  simp only [List.mem_append] at hm
  rcases hm with (((((hm | hm) | hm) | hm) | (hm | hm)) | hm) | hm
  · exact pawn_dst b m hm
  · exact knight_dst T b m hm
  · exact bishop_dst T b m hm
  · exact rook_dst T b m hm
  · exact bishop_dst T b m hm
  · exact rook_dst T b m hm
  · exact king_dst b m hm
  · exact castling_dst b m hm

/-- C29. When the tables hold only squares in 0..63, every move of
`generate_pseudo_legal_moves` has its origin and destination in 0..63 and
distinct, its origin holds a piece of the side to move, its destination is empty
or holds a piece of the other colour, and `make_move` returns true on it. -/
theorem pseudo_legal_well_formed (T : Tables) (hT : T.InRange) (b : Board) (m : Move)
    (hm : m ∈ generate_pseudo_legal_moves T b) :
    (0 ≤ m.src ∧ m.src < 64) ∧ (0 ≤ m.dst ∧ m.dst < 64) ∧ m.src ≠ m.dst ∧
    (if b.side_to_move = WHITE then WP ≤ b.sq m.src ∧ b.sq m.src ≤ WK
     else BP ≤ b.sq m.src ∧ b.sq m.src ≤ BK) ∧
    (b.sq m.dst = EMPTY ∨
      (if b.side_to_move = WHITE then BP ≤ b.sq m.dst ∧ b.sq m.dst ≤ BK
       else WP ≤ b.sq m.dst ∧ b.sq m.dst ≤ WK)) ∧
    (∀ c0 m0 : Piece, (make_move b m c0 m0).ok = true) := by
  have hs := pseudo_shape T hT b m hm
  have hd := pseudo_dst T b m hm
  have hown := hs.own
  have l1 : b.sq m.src < 13 := getSq_lt _ _
  have l2 : b.sq m.dst < 13 := getSq_lt _ _
  unfold empty_or_theirs at hown hd
  refine ⟨hs.src_range, hs.dst_range, ?_, ?_, ?_, ?_⟩
  · intro he
    rw [he] at hown
    exact hown hd
  · cases hc : b.side_to_move <;> simp only [hc, ↓reduceIte, reduceCtorEq] <;>
      simp only [hc, reduceCtorEq, true_and, false_and, or_false, false_or, not_or] at hown <;>
      dsimp only [Piece, EMPTY, WP, WK, BP, BK] at * <;> omega
  · cases hc : b.side_to_move <;> simp only [hc, ↓reduceIte, reduceCtorEq] <;>
      simp only [hc, reduceCtorEq, true_and, false_and, or_false, false_or] at hd <;>
      dsimp only [Piece, EMPTY, WP, WK, BP, BK] at * <;> omega
  · intro c0 m0
    exact (make_move_ok_iff b m c0 m0).mpr ⟨hs.src_range.1, hs.src_range.2, hs.dst_range.1,
      hs.dst_range.2⟩

theorem e2e4_pseudo : Move.mk2 12 28 ∈ generate_pseudo_legal_moves geometry startpos := by
  decide!

theorem pseudo_legal_well_formed_witness :
    (0 ≤ (Move.mk2 12 28).src ∧ (Move.mk2 12 28).src < 64) ∧
    (0 ≤ (Move.mk2 12 28).dst ∧ (Move.mk2 12 28).dst < 64) ∧
    (Move.mk2 12 28).src ≠ (Move.mk2 12 28).dst ∧
    (make_move startpos (Move.mk2 12 28) EMPTY EMPTY).ok = true :=
  ⟨(pseudo_legal_well_formed geometry geometry_inRange startpos (Move.mk2 12 28) e2e4_pseudo).1,
    (pseudo_legal_well_formed geometry geometry_inRange startpos (Move.mk2 12 28)
      e2e4_pseudo).2.1,
    (pseudo_legal_well_formed geometry geometry_inRange startpos (Move.mk2 12 28)
      e2e4_pseudo).2.2.1,
    (pseudo_legal_well_formed geometry geometry_inRange startpos (Move.mk2 12 28)
      e2e4_pseudo).2.2.2.2.2 EMPTY EMPTY⟩
/-- C24, failing input. In `4k3/8/8/8/8/n7/8/6K1 w - - 0 1` the white king
stands on g1; `is_king_in_check(WHITE)` finds no black pseudo-legal move ending
on g1 and returns false, and `is_square_attacked(g1, BLACK)` returns true. -/
theorem check_tests_disagree :
    king_square fen_knight_a3_king_g1 WHITE = 6 ∧
    is_king_in_check geometry fen_knight_a3_king_g1 WHITE = false ∧
    is_square_attacked fen_knight_a3_king_g1 6 BLACK = true := by
  decide!

/-- C25, failing input. In `7k/8/8/4P3/5K2/8/P7/8 w - e6 0 1` each side has
one king and the black king is not in check; a2-a3 is returned by
`generate_legal_moves`, and after `make_move` of a2-a3 on the board as the
generator leaves it the white king is in check. -/
theorem legal_move_leaves_king_in_check :
    piece_count fen_king_beside_pawn WK = 1 ∧ piece_count fen_king_beside_pawn BK = 1 ∧
    is_king_in_check geometry fen_king_beside_pawn BLACK = false ∧
    Move.mk2 8 16 ∈ (generate_legal_moves geometry fen_king_beside_pawn).1 ∧
    is_king_in_check geometry
      (make_move (generate_legal_moves geometry fen_king_beside_pawn).2 (Move.mk2 8 16)
        EMPTY EMPTY).board WHITE = true := by
  decide!

/-- C30, failing input. In `7k/8/8/8/8/8/8/2B1K3 w - - 0 1` the bishop move
c1-b2 occurs twice in `generate_pseudo_legal_moves` and twice in
`generate_legal_moves`. -/
theorem bishop_move_listed_twice :
    (generate_pseudo_legal_moves geometry fen_bishop).count (Move.mk2 2 9) = 2 ∧
    (generate_legal_moves geometry fen_bishop).1.count (Move.mk2 2 9) = 2 := by
  decide!

/-- C26, counterexample. In `7k/8/8/3p4/8/2N5/8/4K3 w - - 0 1`, with every
entry of the history table at 110000, the legal capture Nc3xd5 gets the
ordering score 109680 and the legal quiet move Ke1-e2 gets 110000, and the sorted
list ends with the capture. -/
theorem quiet_move_ordered_first :
    Move.mk2 18 35 ∈ (generate_legal_moves geometry fen_knight_takes_pawn).1 ∧
    Move.mk2 4 12 ∈ (generate_legal_moves geometry fen_knight_takes_pawn).1 ∧
    fen_knight_takes_pawn.sq 35 ≠ EMPTY ∧ fen_knight_takes_pawn.sq 12 = EMPTY ∧
    order_score (state_with_history fen_knight_takes_pawn 110000) 0 (Move.mk2 18 35) = 109680 ∧
    order_score (state_with_history fen_knight_takes_pawn 110000) 0 (Move.mk2 4 12) = 110000 ∧
    ((stable_sort ((generate_legal_moves geometry fen_knight_takes_pawn).1.map fun m =>
        { move := m,
          score := order_score (state_with_history fen_knight_takes_pawn 110000) 0 m
          })).getLast?.map fun x => x.move) = some (Move.mk2 18 35) := by
  decide!

theorem piece_value_bounds (p : Piece) : 0 ≤ piece_value_for_mvv p ∧ piece_value_for_mvv p ≤ 900 := by
  unfold piece_value_for_mvv
  split
  · omega
  · split
    · omega
    · split
      · omega
      · split
        · omega
        · split <;> omega

/-- C26, amended. In `alpha_beta`, for every position, every killer table and
every history table whose entries are below 99100, a move whose destination
square is occupied gets a strictly higher ordering score than a move to an empty
square; so in the sorted list no move to an empty square stands before a move to
an occupied square. -/
theorem captures_ordered_first (E : Env) (hE : E.SortOk) (s : SearchState) (ply : Int)
    (hh : ∀ f t, s.history_heuristic f t < 99100) :
    (∀ m1 m2 : Move, s.board.sq m1.dst ≠ EMPTY → s.board.sq m2.dst = EMPTY →
      order_score s ply m1 > order_score s ply m2) ∧
    (∀ moves : List Move,
      (E.sort (moves.map fun m => { move := m, score := order_score s ply m })).Pairwise
        fun a b => ¬ (s.board.sq a.move.dst = EMPTY ∧ s.board.sq b.move.dst ≠ EMPTY)) := by
  have key : ∀ m1 m2 : Move, s.board.sq m1.dst ≠ EMPTY → s.board.sq m2.dst = EMPTY →
      order_score s ply m1 > order_score s ply m2 := by
    intro m1 m2 h1 h2
    unfold order_score score_capture
    simp only [h1, h2, ne_eq, not_false_eq_true, not_true_eq_false, ↓reduceIte]
    have v1 := piece_value_bounds (s.board.sq m1.dst)
    have v2 := piece_value_bounds (s.board.sq m1.src)
    have v3 := hh m2.src m2.dst
    split
    · omega
    · split <;> omega
  refine ⟨key, fun moves => ?_⟩
  obtain ⟨hperm, hsorted⟩ := hE (moves.map fun m => { move := m, score := order_score s ply m })
  refine List.Pairwise.imp_of_mem ?_ hsorted
  intro a b ha hb hab hcontra
  have ha2 := hperm.subset ha
  have hb2 := hperm.subset hb
  rw [List.mem_map] at ha2 hb2
  obtain ⟨ma, -, rfl⟩ := ha2
  obtain ⟨mb, -, rfl⟩ := hb2
  have := key mb ma hcontra.2 hcontra.1
  simp only [] at hab
  omega

theorem captures_ordered_first_witness :
    order_score (initial_state fen_knight_takes_pawn) 0 (Move.mk2 18 35) >
      order_score (initial_state fen_knight_takes_pawn) 0 (Move.mk2 4 12) :=
  (captures_ordered_first sample_env sample_env_sort_ok (initial_state fen_knight_takes_pawn) 0
    (fun _ _ => (by decide : (0 : Int) < 99100))).1 (Move.mk2 18 35) (Move.mk2 4 12) (by decide) (by decide)
theorem push_mates_moves :
    generate_legal_moves geometry fen_push_mates =
      ([Move.mk2 36 44], fen_push_mates_recoloured) := by
  decide!

theorem push_mates_recoloured_moves :
    generate_legal_moves geometry fen_push_mates_recoloured =
      ([Move.mk2 35 36], fen_push_mates_recoloured) := by
  decide!

theorem push_mates_facts :
    (generate_legal_moves geometry
      (make_move fen_push_mates (Move.mk2 36 44) EMPTY EMPTY).board).1 = [] ∧
    is_king_in_check geometry (make_move fen_push_mates (Move.mk2 36 44) EMPTY EMPTY).board
      (make_move fen_push_mates (Move.mk2 36 44) EMPTY EMPTY).board.side_to_move = true := by
  decide!

theorem king_takes_recoloured_facts :
    (make_move fen_push_mates_recoloured (Move.mk2 35 36) EMPTY EMPTY).ok = true ∧
    (generate_legal_moves geometry
      (make_move fen_push_mates_recoloured (Move.mk2 35 36) EMPTY EMPTY).board).1.isEmpty =
      false ∧
    (generate_legal_moves geometry
      (make_move fen_push_mates_recoloured (Move.mk2 35 36) EMPTY EMPTY).board).2 =
      (make_move fen_push_mates_recoloured (Move.mk2 35 36) EMPTY EMPTY).board ∧
    capture_list (make_move fen_push_mates_recoloured (Move.mk2 35 36) EMPTY EMPTY).board
      (generate_legal_moves geometry
        (make_move fen_push_mates_recoloured (Move.mk2 35 36) EMPTY EMPTY).board).1 = [] := by
  decide!

/-- C28, failing input. In `4rbn1/1pp1pkp1/1p4p1/1p1KPpP1/8/8/8/8 w - e6 0 1`
the legal root move e5-e6 leaves Black with no legal move and in check.  With a
clock that never expires and `max_depth = 1`, `find_best_move` returns Kd5xe5,
whatever the evaluation, and after that move Black has legal moves. -/
theorem mate_in_one_missed (ev : Board → Int) (fuel : Nat) :
    Move.mk2 36 44 ∈ (generate_legal_moves geometry fen_push_mates).1 ∧
    (generate_legal_moves geometry
      (make_move fen_push_mates (Move.mk2 36 44) EMPTY EMPTY).board).1 = [] ∧
    is_king_in_check geometry (make_move fen_push_mates (Move.mk2 36 44) EMPTY EMPTY).board
      (make_move fen_push_mates (Move.mk2 36 44) EMPTY EMPTY).board.side_to_move = true ∧
    (find_best_move
        { tables := geometry, evaluate := ev, time_up := fun _ => false, sort := stable_sort }
        (fuel + 2) fen_push_mates 1).map Prod.fst = some (Move.mk2 35 36) ∧
    (generate_legal_moves geometry
      (make_move fen_push_mates_recoloured (Move.mk2 35 36) EMPTY EMPTY).board).1.isEmpty =
      false := by
  obtain ⟨f1, f2, f3, f4⟩ := king_takes_recoloured_facts
  obtain ⟨g1, g2⟩ := push_mates_facts
  refine ⟨by rw [push_mates_moves]; exact List.mem_singleton.mpr rfl, g1, g2, ?_, f2⟩
  exact single_move_iteration _ rfl ⟨rfl, rfl, rfl⟩ fuel fen_push_mates
    fen_push_mates_recoloured (Move.mk2 36 44) [] (Move.mk2 35 36) push_mates_moves
    push_mates_recoloured_moves f1 f2 f3 f4

/-! ## Reads of the attack test -/

theorem any_checked_some {α : Type} (f : α → Option Bool) (g : α → Bool) (l : List α)
    (h : ∀ a ∈ l, f a = some (g a)) : any_checked f l = some (l.any g) := by
  induction l with
  | nil => rfl
  | cons a l ih =>
    unfold any_checked
    rw [h a (List.mem_cons_self _ _), List.any_cons]
    cases hg : g a
    · simp only [Bool.false_or]
      exact ih fun x hx => h x (List.mem_cons_of_mem _ hx)
    · rfl

theorem squares_at_some (s : Nat) (i : Int) (h : 0 ≤ i ∧ i < 64) :
    squares_at s i = some (getSq s i) := by
  unfold squares_at
  rw [if_pos h]

theorem knight_attack_checked_eq (s : Nat) (square : Int) (attacker : Color) :
    knight_attack_checked s square attacker = some (knight_attack s square attacker) := by
  unfold knight_attack_checked knight_attack
  apply any_checked_some
  intro offset _
  simp only []
  split
  · rfl
  · rw [squares_at_some _ _ (by omega)]
    rfl

theorem king_attack_checked_eq (s : Nat) (square : Int) (attacker : Color) :
    king_attack_checked s square attacker = some (king_attack s square attacker) := by
  unfold king_attack_checked king_attack
  apply any_checked_some
  intro offset _
  simp only []
  split
  · rfl
  · split
    · rfl
    · rw [squares_at_some _ _ (by omega)]
      rfl

theorem rook_ray_checked_eq (s : Nat) (attacker : Color) (rank file dir : Int) (fuel : Nat)
    (cur : Int) :
    rook_ray_checked s attacker rank file dir fuel cur =
      some (rook_ray s attacker rank file dir fuel cur) := by
  induction fuel generalizing cur with
  | zero => rfl
  | succ n ih =>
    unfold rook_ray_checked rook_ray
    simp only []
    split
    · rfl
    · split
      · rfl
      · rw [squares_at_some _ _ (by omega)]
        simp only []
        split
        · exact ih _
        · split
          · rfl
          · split <;> rfl

theorem bishop_ray_checked_eq (s : Nat) (attacker : Color) (rank file dir : Int) (fuel : Nat)
    (cur : Int) :
    bishop_ray_checked s attacker rank file dir fuel cur =
      some (bishop_ray s attacker rank file dir fuel cur) := by
  induction fuel generalizing cur with
  | zero => rfl
  | succ n ih =>
    unfold bishop_ray_checked bishop_ray
    simp only []
    split
    · rfl
    · split
      · rfl
      · rw [squares_at_some _ _ (by omega)]
        simp only []
        split
        · exact ih _
        · split
          · rfl
          · split <;> rfl

theorem pawn_attack_checked_eq (s : Nat) (square : Int) (attacker : Color)
    (hs : 0 ≤ square ∧ square < 64)
    (h : attacker = BLACK → square = 55 → getSq s 62 = BP) :
    pawn_attack_checked s square attacker = some (pawn_attack s square attacker) := by
  unfold pawn_attack_checked pawn_attack pawn_test_checked any_checked any_checked any_checked
  cases attacker
  · simp only [if_true, id]
    by_cases h9 : square ≥ 9
    · rw [squares_at_some _ _ (by omega)]
      by_cases h7 : square ≥ 7
      · rw [squares_at_some _ _ (by omega)]
        by_cases c1 : getSq s (square - 9) = WP <;> by_cases c2 : square % 8 ≠ 0 <;>
          by_cases c3 : getSq s (square - 7) = WP <;> by_cases c4 : square % 8 ≠ 7 <;>
          simp [h9, h7, c1, c2, c3, c4]
      · omega
    · by_cases h7 : square ≥ 7
      · rw [squares_at_some _ (square - 7) (by omega)]
        by_cases c3 : getSq s (square - 7) = WP <;> by_cases c4 : square % 8 ≠ 7 <;>
          simp [h9, h7, c3, c4]
      · simp [h9, h7]
  · simp only [reduceCtorEq, if_false, id]
    by_cases h55 : square ≤ 55
    · rw [squares_at_some _ (square + 7) (by omega)]
      by_cases h54 : square ≤ 54
      · rw [squares_at_some _ (square + 9) (by omega)]
        by_cases c1 : getSq s (square + 7) = BP <;> by_cases c2 : square % 8 ≠ 0 <;>
          by_cases c3 : getSq s (square + 9) = BP <;> by_cases c4 : square % 8 ≠ 7 <;>
          simp [h55, c1, c2, c3, c4]
      · have e : square = 55 := by omega
        subst e
        have hp := h rfl rfl
        simp [hp]
    · simp [h55]

theorem pawn_attack_checked_none (s : Nat) (h : getSq s 62 ≠ BP) :
    pawn_attack_checked s 55 BLACK = none := by
  unfold pawn_attack_checked pawn_test_checked any_checked any_checked squares_at
  simp [h]

theorem any_checked_sections (a b c d e : Bool) :
    any_checked id [some a, some b, some c, some d, some e] = some (a || b || c || d || e) := by
  cases a <;> cases b <;> cases c <;> cases d <;> cases e <;> rfl

/-- The checked attack test agrees with `is_square_attacked` whenever it is not
asked about h7 for Black with no black pawn on g8. -/
theorem is_square_attacked_checked_eq (b : Board) (square : Int) (attacker : Color)
    (hs : 0 ≤ square ∧ square < 64)
    (h : attacker = BLACK → square = 55 → b.sq 62 = BP) :
    is_square_attacked_checked b square attacker =
      some (is_square_attacked b square attacker) := by
  unfold is_square_attacked_checked is_square_attacked
  simp only []
  rw [pawn_attack_checked_eq _ _ _ hs h, knight_attack_checked_eq, king_attack_checked_eq,
    any_checked_some _ _ _ (fun dir _ => rook_ray_checked_eq _ _ _ _ dir 64 square),
    any_checked_some _ _ _ (fun dir _ => bishop_ray_checked_eq _ _ _ _ dir 64 square)]
  exact any_checked_sections _ _ _ _ _

/-- The read `squares[64]`: asked whether Black attacks h7, the attack test
reads one square past the array unless a black pawn stands on g8. -/
theorem is_square_attacked_checked_none (b : Board) (h : b.sq 62 ≠ BP) :
    is_square_attacked_checked b 55 BLACK = none := by
  unfold is_square_attacked_checked
  simp only []
  rw [pawn_attack_checked_none _ h]
  rfl

/-- C31, failing input.  On the standard starting position, asked whether
Black attacks h7 (square 55), `is_square_attacked` passes the test on
`squares[62]` (g8 holds a knight, not a pawn) and evaluates `squares[55 + 9]`:
with the reads checked against `Piece squares[64]` the call fails on the read
of index 64. -/
theorem attack_test_reads_past_the_board :
    squares_at startpos.squares (55 + 9) = none ∧
    pawn_test_checked (decide ((55 : Int) ≤ 55)) startpos.squares (55 + 7) BP
      (decide ((55 : Int) % 8 ≠ 0)) = some false ∧
    is_square_attacked_checked startpos 55 BLACK = none := by
  decide

/-! ## Plies of the killer table -/

theorem killer_at_ply (s : SearchState) (ply : Int) (h : 1 ≤ ply ∧ ply ≤ 63) :
    killer_at ply_checks s ply = some (s.killer_moves ply) := by
  unfold killer_at ply_checks
  simp only [decide_eq_true_eq]
  rw [if_pos h]

theorem record_killer_checked_eq (s : SearchState) (move : Move) (ply : Int)
    (h : 1 ≤ ply ∧ ply ≤ 63) :
    record_killer_checked ply_checks s move ply = some (record_killer s move ply) := by
  unfold record_killer_checked record_killer
  rw [killer_at_ply s ply h]
  simp only []
  split
  · rfl
  · split <;> rfl

theorem order_score_checked_eq (s : SearchState) (ply : Int) (m : Move)
    (h : 1 ≤ ply ∧ ply ≤ 63) :
    order_score_checked ply_checks s ply m = some (order_score s ply m) := by
  unfold order_score_checked order_score
  rw [killer_at_ply s ply h]
  simp only []
  split
  · rfl
  · split
    · rfl
    · split <;> rfl

theorem score_moves_checked_eq (s : SearchState) (ply : Int) (h : 1 ≤ ply ∧ ply ≤ 63)
    (l : List Move) :
    score_moves_checked ply_checks s ply l =
      some (l.map fun m => { move := m, score := order_score s ply m }) := by
  induction l with
  | nil => rfl
  | cons m rest ih =>
    unfold score_moves_checked
    rw [order_score_checked_eq s ply m h]
    simp only []
    rw [ih]
    rfl

theorem alpha_beta_loop_checked_eq (E : Env)
    (recurse : SearchState → Int → Int → Option (Int × SearchState))
    (depth beta ply : Int) (h : 1 ≤ ply ∧ ply ≤ 63) (l : List ScoredMove) (s : SearchState)
    (alpha best : Int) :
    alpha_beta_loop_checked ply_checks E recurse depth beta ply l s alpha best =
      alpha_beta_loop E recurse depth beta ply l s alpha best := by
  induction l generalizing s alpha best with
  | nil => rfl
  | cons sm rest ih =>
    unfold alpha_beta_loop_checked alpha_beta_loop
    simp only []
    split
    · rfl
    · split
      · exact ih _ _ _
      · generalize recurse _ (-beta) (-alpha) = res
        cases res with
        | none => rfl
        | some p =>
          obtain ⟨v, s2⟩ := p
          simp only []
          rw [record_killer_checked_eq _ _ _ h]
          simp only [Option.map_some']
          generalize s2.unmake sm.move _ _ = s3
          by_cases c1 : adjust_mate_distance (-v) > alpha
          · by_cases c2 : s3.board.sq sm.move.dst = EMPTY
            · simp only [c1, c2, if_true]
              split
              · rfl
              · exact ih _ _ _
            · simp only [c1, c2, if_true, if_false]
              split
              · rfl
              · exact ih _ _ _
          · simp only [c1, if_false]
            split
            · rfl
            · exact ih _ _ _

theorem alpha_beta_checked_eq (E : Env) (d : Int) (hd : d ≤ 64) (fuel : Nat) (s : SearchState)
    (depth alpha beta ply : Int) (h1 : 1 ≤ ply) (h2 : ply + depth = d) :
    alpha_beta_checked ply_checks E d fuel s depth alpha beta ply =
      alpha_beta E fuel s depth alpha beta ply := by
  induction fuel generalizing s depth alpha beta ply with
  | zero => rfl
  | succ n ih =>
    unfold alpha_beta_checked alpha_beta
    have hnode : ply_checks.node d depth ply = true := by
      unfold ply_checks
      simp only [decide_eq_true_eq]
      exact ⟨h1, h2⟩
    rw [hnode]
    simp only [Bool.true_eq_false, if_false]
    split
    · rfl
    · split
      · rfl
      · rename_i hdepth
        have hply : 1 ≤ ply ∧ ply ≤ 63 := by omega
        split
        · rfl
        · rw [score_moves_checked_eq _ _ hply]
          simp only []
          rw [alpha_beta_loop_checked_eq E _ depth beta ply hply]
          have hrec : (fun s a b => alpha_beta_checked ply_checks E d n s (depth - 1) a b (ply + 1))
              = fun s a b => alpha_beta E n s (depth - 1) a b (ply + 1) := by
            funext s a b
            exact ih s (depth - 1) a b (ply + 1) (by omega) (by omega)
          rw [hrec]

theorem depth_loop_checked_eq (E : Env) (fuel : Nat) (l : List Int) (hl : ∀ d ∈ l, d ≤ 64)
    (s : SearchState) (best_score : Int) (best_move : Move) :
    depth_loop_checked ply_checks E fuel l s best_score best_move =
      depth_loop E fuel l s best_score best_move := by
  induction l generalizing s best_score best_move with
  | nil => rfl
  | cons depth rest ih =>
    have ih2 := ih fun d hd => hl d (List.mem_cons_of_mem _ hd)
    unfold depth_loop_checked depth_loop
    simp only []
    have hrec : (fun s => alpha_beta_checked ply_checks E depth fuel s (depth - 1) (-INF) INF 1)
        = fun s => alpha_beta E fuel s (depth - 1) (-INF) INF 1 := by
      funext s
      exact alpha_beta_checked_eq E depth (hl depth (List.mem_cons_self _ _)) fuel s _ _ _ _
        (le_refl 1) (by omega)
    rw [hrec]
    split
    · rfl
    · split
      · rfl
      · generalize root_loop E _ _ _ _ _ _ = res
        cases res with
        | none => rfl
        | some r =>
          simp only []
          split
          · exact ih2 _ _ _
          · exact ih2 _ _ _

theorem depths_le (max_depth : Int) :
    ∀ d ∈ (List.range max_depth.toNat).map (fun i => (i : Int) + 1), d ≤ max_depth := by
  intro d hd
  simp only [List.mem_map, List.bind_eq_flatMap, List.mem_flatMap, List.mem_range,
    List.pure_def, List.mem_singleton] at hd
  obtain ⟨i, ⟨a, ha, rfl⟩, rfl⟩ := hd
  omega

/-- Outside the rows `1..63` the check of a killer access fails: at ply 64
the ordering score of a move to an empty square cannot be computed. -/
theorem order_score_checked_past (s : SearchState) (m : Move) (h : s.board.sq m.dst = EMPTY) :
    order_score_checked ply_checks s MAX_PLY m = none := by
  unfold order_score_checked
  rw [if_neg (by rw [h]; simp)]
  rfl

/-! ## Apply and undo on an arbitrary board -/

/-- A generated move takes the en-passant branch of `make_move` only when it
is the straight advance of a pawn that stands behind the target. -/
theorem push_of_branch (b : Board) (m : Move) (hsh : PseudoShape b m)
    (h : ((getSq b.squares m.src = WP ∧ m.src / 8 = 4 ∧ m.dst = b.en_passant_square) ∨
        (getSq b.squares m.src = BP ∧ m.src / 8 = 3 ∧ m.dst = b.en_passant_square)) ∧
       getSq b.squares m.dst = EMPTY) :
    PushOnTarget b ∧
      m.src = (if b.side_to_move = WHITE then b.en_passant_square - 8
        else b.en_passant_square + 8) := by
  obtain ⟨h, he⟩ := h
  have hown := hsh.own
  unfold empty_or_theirs at hown
  unfold PushOnTarget
  rcases h with ⟨h1, h2, h3⟩ | ⟨h1, h2, h3⟩
  · have h1b : b.sq m.src = WP := h1
    have hs : b.side_to_move = WHITE := by
      cases hs : b.side_to_move
      · rfl
      · rw [h1b, hs] at hown; exact absurd (by decide) hown
    have hp := hsh.pawn (Or.inl h1) 8 (by rw [hs]; rfl)
    have hsrc : m.src = b.en_passant_square - 8 := by
      rcases hp with ⟨p1, _⟩ | ⟨_, p2, _⟩ | ⟨_, p2⟩
      · omega
      · rw [hs] at p2; simp only [if_true] at p2; omega
      · exact absurd he p2
    rw [hs]
    simp only [if_true]
    refine ⟨⟨?_, Or.inl ⟨trivial, ?_, ?_⟩⟩, hsrc⟩
    · rw [← h3]; exact he
    · rw [← hsrc]; exact h1
    · rw [← hsrc]; exact h2
  · have h1b : b.sq m.src = BP := h1
    have hs : b.side_to_move = BLACK := by
      cases hs : b.side_to_move
      · rw [h1b, hs] at hown; exact absurd (by decide) hown
      · rfl
    have hp := hsh.pawn (Or.inr h1) (-8) (by rw [hs]; rfl)
    have hsrc : m.src = b.en_passant_square + 8 := by
      rcases hp with ⟨p1, _⟩ | ⟨_, p2, _⟩ | ⟨_, p2⟩
      · omega
      · rw [hs] at p2; simp only [reduceCtorEq, if_false] at p2; omega
      · exact absurd he p2
    rw [hs]
    simp only [reduceCtorEq, if_false]
    refine ⟨⟨?_, Or.inr ⟨trivial, ?_, ?_⟩⟩, hsrc⟩
    · rw [← h3]; exact he
    · rw [← hsrc]; exact h1
    · rw [← hsrc]; exact h2

/-- The round trip of `make_move` and `unmake_move`, from what it uses of the
board and the move. -/
theorem round_trip_general (b : Board) (m : Move) (c0 m0 : Piece)
    (hs : 0 ≤ m.src ∧ m.src < 64) (hd : 0 ≤ m.dst ∧ m.dst < 64)
    (hne : ¬ (((getSq b.squares m.src = WP ∧ m.src / 8 = 4 ∧ m.dst = b.en_passant_square) ∨
        (getSq b.squares m.src = BP ∧ m.src / 8 = 3 ∧ m.dst = b.en_passant_square)) ∧
       getSq b.squares m.dst = EMPTY))
    (hpl : m.promotion < 13)
    (hpromo : m.promotion ≠ EMPTY →
      getSq b.squares m.src = (if b.side_to_move = WHITE then WP else BP))
    (h_wk : getSq b.squares m.src = WK → m.src = E1 → m.dst = G1 →
      getSq b.squares H1 = WR ∧ getSq b.squares F1 = EMPTY ∧ getSq b.squares G1 = EMPTY)
    (h_wq : getSq b.squares m.src = WK → m.src = E1 → m.dst = C1 →
      getSq b.squares A1 = WR ∧ getSq b.squares D1 = EMPTY ∧ getSq b.squares C1 = EMPTY)
    (h_bk : getSq b.squares m.src = BK → m.src = E8 → m.dst = G8 →
      getSq b.squares H8 = BR ∧ getSq b.squares F8 = EMPTY ∧ getSq b.squares G8 = EMPTY)
    (h_bq : getSq b.squares m.src = BK → m.src = E8 → m.dst = C8 →
      getSq b.squares A8 = BR ∧ getSq b.squares D8 = EMPTY ∧ getSq b.squares C8 = EMPTY) :
    (make_move b m c0 m0).ok = true ∧
    unmake_move (make_move b m c0 m0).board m (make_move b m c0 m0).captured_piece
      (make_move b m c0 m0).moved_piece = b := by
  have hx : (if m.promotion ≠ EMPTY then m.promotion else getSq b.squares m.src) < 13 := by
    split
    · exact hpl
    · exact getSq_lt _ _
  have hxk : getSq b.squares m.src = WK ∨ getSq b.squares m.src = BK →
      (if m.promotion ≠ EMPTY then m.promotion else getSq b.squares m.src)
        = getSq b.squares m.src := by
    intro hk
    split
    · next hp =>
      have := hpromo hp
      rcases hk with hk | hk <;> rw [hk] at this <;> split at this <;> simp at this
    · rfl
  have core := squares_back b.squares m.src m.dst _ hs.1 hd.1 hx h_wk h_wq h_bk h_bq hxk
  unfold make_move
  simp only []
  rw [if_neg (by omega)]
  simp only [hne, decide_False, Bool.false_eq_true, if_false]
  refine ⟨trivial, ?_⟩
  unfold unmake_move
  simp only [ne_eq, not_true_eq_false, if_false]
  rw [core]
  have hpawn : m.promotion ≠ EMPTY →
      setSq (setSq b.squares m.src (if b.side_to_move = WHITE then WP else BP)) m.dst
        (getSq b.squares m.dst) = b.squares := by
    intro hp
    rw [← hpromo hp, setSq_getSq_self, setSq_getSq_self]
  cases b
  simp only [Board.mk.injEq, and_true]
  split
  · next hp => exact hpawn hp
  · rfl

theorem own_pawn_of_promo (b : Board) (m : Move) (hsh : PseudoShape b m)
    (hp : m.promotion ≠ EMPTY) :
    getSq b.squares m.src = (if b.side_to_move = WHITE then WP else BP) := by
  have hown := hsh.own
  have h1 := hsh.promo hp
  unfold empty_or_theirs at hown
  show b.sq m.src = _
  cases hs : b.side_to_move <;> rcases h1 with h1 | h1 <;> rw [h1, hs] at hown <;>
    first
    | (rw [h1]; rfl)
    | exact absurd (by decide) hown

theorem round_trip_of_branch (b : Board) (m : Move) (c0 m0 : Piece) (hsh : PseudoShape b m)
    (hne : ¬ (((getSq b.squares m.src = WP ∧ m.src / 8 = 4 ∧ m.dst = b.en_passant_square) ∨
        (getSq b.squares m.src = BP ∧ m.src / 8 = 3 ∧ m.dst = b.en_passant_square)) ∧
       getSq b.squares m.dst = EMPTY)) :
    (make_move b m c0 m0).ok = true ∧
    unmake_move (make_move b m c0 m0).board m (make_move b m c0 m0).captured_piece
      (make_move b m c0 m0).moved_piece = b :=
  round_trip_general b m c0 m0 hsh.src_range hsh.dst_range hne hsh.promo_lt
    (own_pawn_of_promo b m hsh) hsh.castle_wk hsh.castle_wq hsh.castle_bk hsh.castle_bq

theorem epsafe_of_branch (b : Board) (m : Move) (c0 m0 : Piece) (hsh : PseudoShape b m)
    (hne : ¬ (((getSq b.squares m.src = WP ∧ m.src / 8 = 4 ∧ m.dst = b.en_passant_square) ∨
        (getSq b.squares m.src = BP ∧ m.src / 8 = 3 ∧ m.dst = b.en_passant_square)) ∧
       getSq b.squares m.dst = EMPTY)) : EPSafe (make_move b m c0 m0).board := by
  have hs := hsh.src_range
  have hd := hsh.dst_range
  have hown := hsh.own
  unfold empty_or_theirs at hown
  unfold make_move
  simp only []
  rw [if_neg (by omega)]
  simp only [hne, decide_False, Bool.false_eq_true, if_false]
  unfold EPSafe Board.sq
  simp only []
  by_cases hw : getSq b.squares m.src = WP ∧ m.src / 8 = 1 ∧ m.dst / 8 = 3
  · rw [if_pos hw]
    obtain ⟨h1, h2, h3⟩ := hw
    have h1b : b.sq m.src = WP := h1
    have hside : b.side_to_move = WHITE := by
      cases hs : b.side_to_move
      · rfl
      · rw [h1b, hs] at hown; exact absurd (by decide) hown
    have hp := hsh.pawn (Or.inl h1) 8 (by rw [hside]; rfl)
    have hdst : m.dst = m.src + 16 ∧ m.promotion = EMPTY := by
      rcases hp with ⟨p1, _⟩ | ⟨p1, _, p3⟩ | ⟨p1, _⟩
      · omega
      · exact ⟨by omega, p3⟩
      · omega
    intro _
    rw [hside]
    refine ⟨fun h => by simp at h, fun _ => ?_⟩
    rw [castle_rook_of_pawn _ _ _ _ (Or.inl h1), h1, hdst.2]
    have e : m.src + 8 + 8 = m.dst := by omega
    rw [e, getSq_setSq _ _ _ _ hs.1 (by decide), if_neg (by omega),
      getSq_setSq_same _ _ _ hd.1 (by decide)]
    decide
  · rw [if_neg hw]
    by_cases hb : getSq b.squares m.src = BP ∧ m.src / 8 = 6 ∧ m.dst / 8 = 4
    · rw [if_pos hb]
      obtain ⟨h1, h2, h3⟩ := hb
      have h1b : b.sq m.src = BP := h1
      have hside : b.side_to_move = BLACK := by
        cases hs : b.side_to_move
        · rw [h1b, hs] at hown; exact absurd (by decide) hown
        · rfl
      have hp := hsh.pawn (Or.inr h1) (-8) (by rw [hside]; rfl)
      have hdst : m.dst = m.src - 16 ∧ m.promotion = EMPTY := by
        rcases hp with ⟨p1, _⟩ | ⟨p1, _, p3⟩ | ⟨p1, _⟩
        · omega
        · exact ⟨by omega, p3⟩
        · omega
      intro _
      rw [hside]
      refine ⟨fun _ => ?_, fun h => by simp at h⟩
      rw [castle_rook_of_pawn _ _ _ _ (Or.inr h1), h1, hdst.2]
      have e : m.src - 8 - 8 = m.dst := by omega
      rw [e, getSq_setSq _ _ _ _ hs.1 (by decide), if_neg (by omega),
        getSq_setSq_same _ _ _ hd.1 (by decide)]
      decide
    · rw [if_neg hb]
      intro h
      exact absurd h (by decide)

theorem not_push_of_epsafe (b : Board) (h : EPSafe b) : ¬ PushOnTarget b := by
  unfold PushOnTarget
  unfold EPSafe at h
  rintro ⟨_, ⟨h1, h2, h3⟩ | ⟨h1, h2, h3⟩⟩
  · exact (h (by omega)).1 h1 h2
  · have h0 : 0 ≤ b.en_passant_square := by
      by_contra hneg
      have : b.en_passant_square + 8 < 8 := by omega
      by_cases hlt : b.en_passant_square + 8 < 0
      · unfold Board.sq getSq at h2
        rw [if_pos hlt] at h2
        exact absurd h2 (by decide)
      · omega
    exact (h h0).2 h1 h2

/-- Without a pawn behind the en-passant target no generated move takes the
en-passant branch. -/
theorem no_branch_of_not_push (b : Board) (m : Move) (hsh : PseudoShape b m)
    (h : ¬ PushOnTarget b) :
    ¬ (((getSq b.squares m.src = WP ∧ m.src / 8 = 4 ∧ m.dst = b.en_passant_square) ∨
        (getSq b.squares m.src = BP ∧ m.src / 8 = 3 ∧ m.dst = b.en_passant_square)) ∧
       getSq b.squares m.dst = EMPTY) :=
  fun hb => h (push_of_branch b m hsh hb).1

theorem uncastle_rook_of_pawn (s : Nat) (p : Piece) (src dst : Int) (hp : p = WP ∨ p = BP) :
    uncastle_rook s p src dst = s := by
  unfold uncastle_rook
  rcases hp with h | h <;> subst h <;> simp

/-- The straight advance onto the en-passant target, applied and undone: the
pawn comes back in the other colour. -/
theorem branch_round_trip (b : Board) (m : Move) (c0 m0 : Piece) (hsh : PseudoShape b m)
    (hb : ((getSq b.squares m.src = WP ∧ m.src / 8 = 4 ∧ m.dst = b.en_passant_square) ∨
        (getSq b.squares m.src = BP ∧ m.src / 8 = 3 ∧ m.dst = b.en_passant_square)) ∧
       getSq b.squares m.dst = EMPTY)
    (hprom : m.promotion = EMPTY) :
    (make_move b m c0 m0).ok = true ∧
    unmake_move (make_move b m c0 m0).board m (make_move b m c0 m0).captured_piece
      (make_move b m c0 m0).moved_piece = recoloured b := by
  obtain ⟨hpush, hsrc⟩ := push_of_branch b m hsh hb
  have hs := hsh.src_range
  have hd := hsh.dst_range
  have hdst : m.dst = b.en_passant_square := by
    rcases hb.1 with ⟨_, _, h⟩ | ⟨_, _, h⟩ <;> exact h
  have hpawn : getSq b.squares m.src = WP ∨ getSq b.squares m.src = BP := by
    rcases hb.1 with ⟨h, _, _⟩ | ⟨h, _, _⟩
    · exact Or.inl h
    · exact Or.inr h
  have hside : getSq b.squares m.src = (if b.side_to_move = WHITE then WP else BP) := by
    unfold PushOnTarget at hpush
    rcases hpush.2 with ⟨h1, h2, _⟩ | ⟨h1, h2, _⟩
    · rw [h1] at hsrc ⊢
      simp only [if_true] at hsrc ⊢
      rw [hsrc]; exact h2
    · rw [h1] at hsrc ⊢
      simp only [reduceCtorEq, if_false] at hsrc ⊢
      rw [hsrc]; exact h2
  unfold make_move
  simp only []
  rw [if_neg (by omega)]
  have hdec : decide (((getSq b.squares m.src = WP ∧ m.src / 8 = 4 ∧
      m.dst = b.en_passant_square) ∨
      (getSq b.squares m.src = BP ∧ m.src / 8 = 3 ∧ m.dst = b.en_passant_square)) ∧
      getSq b.squares m.dst = EMPTY) = true := decide_eq_true hb
  rw [hdec]
  simp only [if_true]
  refine ⟨trivial, ?_⟩
  rw [castle_rook_of_pawn _ _ _ _ hpawn]
  unfold unmake_move recoloured
  simp only []
  rw [uncastle_rook_of_pawn _ _ _ _ hpawn, hprom]
  simp only [ne_eq, not_true_eq_false, if_false]
  cases hc : b.side_to_move
  · rw [hc] at hsrc hside
    simp only [if_true] at hsrc hside
    have hcap : ¬ (m.dst - 8 = -1) := by omega
    simp only [if_true, hside]
    rw [if_pos hcap]
    congr 1
    apply squares_ext
    intro j _
    have e1 : m.dst - 8 = m.src := by omega
    rw [e1, ← hsrc]
    rw [getSq_setSq _ _ j _ hs.1 (by decide), getSq_setSq _ _ j _ hd.1 (by decide),
      getSq_setSq _ _ j _ hd.1 (by decide), getSq_setSq _ _ j _ hs.1 (by decide),
      getSq_setSq _ _ j _ hs.1 (by decide), getSq_setSq _ _ j _ hd.1 (by decide),
      getSq_setSq _ _ j _ hs.1 (by decide), getSq_setSq _ _ j _ hs.1 (by decide)]
    split_ifs <;> first | rfl | assumption | omega | (subst_vars; exact hb.2.symm)
  · rw [hc] at hsrc hside
    simp only [reduceCtorEq, if_false] at hsrc hside
    have hcap : ¬ (m.dst + 8 = -1) := by omega
    simp only [reduceCtorEq, if_false, hside]
    rw [if_pos hcap]
    congr 1
    apply squares_ext
    intro j _
    have e1 : m.dst + 8 = m.src := by omega
    rw [e1, ← hsrc]
    rw [getSq_setSq _ _ j _ hs.1 (by decide), getSq_setSq _ _ j _ hd.1 (by decide),
      getSq_setSq _ _ j _ hd.1 (by decide), getSq_setSq _ _ j _ hs.1 (by decide),
      getSq_setSq _ _ j _ hs.1 (by decide), getSq_setSq _ _ j _ hd.1 (by decide),
      getSq_setSq _ _ j _ hs.1 (by decide), getSq_setSq _ _ j _ hs.1 (by decide)]
    split_ifs <;> first | rfl | assumption | omega | (subst_vars; exact hb.2.symm)

/-! ## Promotions are generated on the last rank only -/

theorem mem_pawn_target_promo (us : Color) (c : Prop) [Decidable c] (s d : Int) (m : Move)
    (h : m ∈ if c then promotion_moves us s d else [Move.mk2 s d])
    (hp : m.promotion ≠ EMPTY) : c ∧ m.dst = d := by
  split at h
  · rename_i hc
    exact ⟨hc, (mem_pawn_target us True s d m (by rw [if_pos trivial]; exact h)).2.1⟩
  · simp only [List.mem_singleton] at h
    subst h
    exact absurd rfl hp

theorem pawn_promotion_rank (b : Board) (sq : Nat) (m : Move)
    (hm : m ∈ pawn_moves_from b sq) (hp : m.promotion ≠ EMPTY) :
    m.dst / 8 = (if b.side_to_move = WHITE then 7 else 0) := by
  unfold pawn_moves_from at hm
  cases hs : b.side_to_move <;> simp only [hs, if_true, if_false, reduceCtorEq] at hm ⊢ <;>
  (split at hm
   · simp at hm
   · rw [List.mem_append] at hm
     rcases hm with hm | hm
     · split at hm
       · rw [List.mem_append] at hm
         rcases hm with hm | hm
         · obtain ⟨h1, h2⟩ := mem_pawn_target_promo _ _ _ _ _ hm hp
           rw [h2]; exact h1
         · have hm2 := mem_of_mem_ite_nil _ _ _ hm
           have hm3 := mem_of_mem_ite_nil _ _ _ hm2
           simp only [List.mem_singleton] at hm3
           subst hm3
           exact absurd rfl hp
       · simp at hm
     · rw [List.mem_flatMap] at hm
       obtain ⟨target, _, hm⟩ := hm
       split at hm
       · simp at hm
       · split at hm
         · obtain ⟨h1, h2⟩ := mem_pawn_target_promo _ _ _ _ _ hm hp
           rw [h2]; exact h1
         · simp at hm)

theorem pseudo_promotion_rank (T : Tables) (hT : T.InRange) (b : Board) (m : Move)
    (hm : m ∈ generate_pseudo_legal_moves T b) (hp : m.promotion ≠ EMPTY) :
    m.dst / 8 = (if b.side_to_move = WHITE then 7 else 0) := by
  have hsh := pseudo_shape T hT b m hm
  have hpawn := hsh.promo hp
  unfold generate_pseudo_legal_moves generate_queen_moves at hm
  simp only [List.mem_append] at hm
  rcases hm with (((((hm | hm) | hm) | hm) | (hm | hm)) | hm) | hm
  · unfold generate_pawn_moves at hm
    rw [List.mem_flatMap] at hm
    obtain ⟨sq, _, hm⟩ := hm
    exact pawn_promotion_rank b sq m hm hp
  · exact absurd hpawn (other_src_not_pawn T b m (Or.inl hm))
  · exact absurd hpawn (other_src_not_pawn T b m (Or.inr (Or.inl hm)))
  · exact absurd hpawn (other_src_not_pawn T b m (Or.inr (Or.inr (Or.inl hm))))
  · exact absurd hpawn (other_src_not_pawn T b m (Or.inr (Or.inl hm)))
  · exact absurd hpawn (other_src_not_pawn T b m (Or.inr (Or.inr (Or.inl hm))))
  · exact absurd hpawn (other_src_not_pawn T b m (Or.inr (Or.inr (Or.inr (Or.inl hm)))))
  · exact absurd hpawn (other_src_not_pawn T b m (Or.inr (Or.inr (Or.inr (Or.inr hm)))))

/-! ## The board the generator leaves -/

/-- What `PushOnTarget` says, with the square of the pawn named. -/
theorem push_data (b : Board) (h : PushOnTarget b) :
    ∃ p : Int, 24 ≤ p ∧ p < 40 ∧
      p / 8 = (if b.side_to_move = WHITE then 4 else 3) ∧
      b.en_passant_square = (if b.side_to_move = WHITE then p + 8 else p - 8) ∧
      getSq b.squares p = (if b.side_to_move = WHITE then WP else BP) ∧
      getSq b.squares b.en_passant_square = EMPTY ∧
      (recoloured b).squares =
        setSq b.squares p (if b.side_to_move = WHITE then BP else WP) := by
  unfold PushOnTarget at h
  unfold recoloured
  obtain ⟨he, ⟨h1, h2, h3⟩ | ⟨h1, h2, h3⟩⟩ := h
  · refine ⟨b.en_passant_square - 8, by omega, by omega, ?_, ?_, ?_, he, ?_⟩ <;> rw [h1] <;>
      simp only [if_true]
    · exact h3
    · omega
    · exact h2
  · refine ⟨b.en_passant_square + 8, by omega, by omega, ?_, ?_, ?_, he, ?_⟩ <;> rw [h1] <;>
      simp only [reduceCtorEq, if_false]
    · exact h3
    · omega
    · exact h2

theorem recoloured_side (b : Board) : (recoloured b).side_to_move = b.side_to_move := rfl

theorem recoloured_target (b : Board) :
    (recoloured b).en_passant_square = b.en_passant_square := rfl

/-- The straight advance of the pawn behind the target is generated. -/
theorem push_generated (T : Tables) (b : Board) (h : PushOnTarget b) :
    ∃ m ∈ generate_pseudo_legal_moves T b,
      ((getSq b.squares m.src = WP ∧ m.src / 8 = 4 ∧ m.dst = b.en_passant_square) ∨
        (getSq b.squares m.src = BP ∧ m.src / 8 = 3 ∧ m.dst = b.en_passant_square)) ∧
       getSq b.squares m.dst = EMPTY := by
  obtain ⟨p, hp1, hp2, hrank, hep, hpawn, hempty, -⟩ := push_data b h
  refine ⟨Move.mk2 p b.en_passant_square, ?_, ?_, hempty⟩
  · unfold generate_pseudo_legal_moves generate_pawn_moves
    simp only [List.mem_append]
    refine Or.inl (Or.inl (Or.inl (Or.inl (Or.inl (Or.inl ?_)))))
    rw [List.mem_flatMap]
    refine ⟨p.toNat, by simp only [allSquares, List.mem_range]; omega, ?_⟩
    have hcast : ((p.toNat : Nat) : Int) = p := Int.toNat_of_nonneg (by omega)
    unfold pawn_moves_from
    simp only [hcast]
    have hpawn2 : b.sq p = (if b.side_to_move = WHITE then WP else BP) := hpawn
    have hempty2 : b.sq b.en_passant_square = EMPTY := hempty
    rw [if_neg (by rw [hpawn2]; simp)]
    rw [List.mem_append]
    left
    cases hs : b.side_to_move
    · rw [hs] at hep hrank
      simp only [if_true] at hep hrank ⊢
      rw [← hep]
      rw [if_pos ⟨by omega, by omega, hempty2⟩, List.mem_append]
      left
      rw [if_neg (by omega)]
      exact List.mem_singleton_self _
    · rw [hs] at hep hrank
      simp only [reduceCtorEq, if_false] at hep hrank ⊢
      have e : p + -8 = b.en_passant_square := by omega
      rw [e]
      rw [if_pos ⟨by omega, by omega, hempty2⟩, List.mem_append]
      left
      rw [if_neg (by omega)]
      exact List.mem_singleton_self _
  · simp only [Move.mk2]
    cases hs : b.side_to_move
    · rw [hs] at hep hrank hpawn
      simp only [if_true] at hep hrank hpawn
      exact Or.inl ⟨hpawn, hrank, trivial⟩
    · rw [hs] at hep hrank hpawn
      simp only [reduceCtorEq, if_false] at hep hrank hpawn
      exact Or.inr ⟨hpawn, hrank, trivial⟩

/-- On the board with the pawn recoloured every generated move is applied and
undone exactly. -/
theorem recoloured_round_trip (b : Board) (h : PushOnTarget b) (m : Move) (c0 m0 : Piece)
    (hsh : PseudoShape b m)
    (hpr : m.promotion ≠ EMPTY → m.dst / 8 = (if b.side_to_move = WHITE then 7 else 0)) :
    (make_move (recoloured b) m c0 m0).ok = true ∧
    unmake_move (make_move (recoloured b) m c0 m0).board m
      (make_move (recoloured b) m c0 m0).captured_piece
      (make_move (recoloured b) m c0 m0).moved_piece = recoloured b := by
  obtain ⟨p, hp1, hp2, hrank, hep, hpawn, hempty, hsq⟩ := push_data b h
  have hs := hsh.src_range
  have hd := hsh.dst_range
  have hown := hsh.own
  unfold empty_or_theirs at hown
  have hread : ∀ i : Int, getSq (recoloured b).squares i =
      if i = p then (if b.side_to_move = WHITE then BP else WP) else getSq b.squares i := by
    intro i
    rw [hsq, getSq_setSq _ _ _ _ (by omega) (by split <;> decide)]
  have hother : ∀ i : Int, i ≠ p → getSq (recoloured b).squares i = getSq b.squares i := by
    intro i hi
    rw [hread, if_neg hi]
  have hown2 : b.sq m.src ≠ EMPTY ∧ (b.side_to_move = WHITE → ¬ b.sq m.src ≥ BP) ∧
      (b.side_to_move = BLACK → ¬ b.sq m.src ≤ WK) := by
    refine ⟨fun h0 => hown (Or.inl h0), fun hw h0 => hown (Or.inr (Or.inl ⟨hw, h0⟩)),
      fun hw h0 => hown (Or.inr (Or.inr ⟨hw, h0⟩))⟩
  have hsrc_pawn : m.src = p → m.promotion = EMPTY := by
    intro e
    by_contra hne
    have hrk := hpr hne
    have hpw := hsh.pawn (by
      change getSq b.squares m.src = WP ∨ getSq b.squares m.src = BP
      rw [e, hpawn]; split <;> simp) _ rfl
    cases hc : b.side_to_move <;> rw [hc] at hrk hpw hrank <;>
      simp only [if_true, reduceCtorEq, if_false] at hrk hpw hrank <;> omega
  apply round_trip_general (recoloured b) m c0 m0 hs hd ?_ hsh.promo_lt
  · intro hp
    have hne : m.src ≠ p := fun e => hp (hsrc_pawn e)
    rw [hother _ hne, recoloured_side]
    exact own_pawn_of_promo b m hsh hp
  · intro hk he1 he2
    have hne : m.src ≠ p := by rw [he1]; simp only [E1]; omega
    rw [hother _ hne] at hk
    rw [hother _ (by simp only [H1]; omega), hother _ (by simp only [F1]; omega),
      hother _ (by simp only [G1]; omega)]
    exact hsh.castle_wk hk he1 he2
  · intro hk he1 he2
    have hne : m.src ≠ p := by rw [he1]; simp only [E1]; omega
    rw [hother _ hne] at hk
    rw [hother _ (by simp only [A1]; omega), hother _ (by simp only [D1]; omega),
      hother _ (by simp only [C1]; omega)]
    exact hsh.castle_wq hk he1 he2
  · intro hk he1 he2
    have hne : m.src ≠ p := by rw [he1]; simp only [E8]; omega
    rw [hother _ hne] at hk
    rw [hother _ (by simp only [H8]; omega), hother _ (by simp only [F8]; omega),
      hother _ (by simp only [G8]; omega)]
    exact hsh.castle_bk hk he1 he2
  · intro hk he1 he2
    have hne : m.src ≠ p := by rw [he1]; simp only [E8]; omega
    rw [hother _ hne] at hk
    rw [hother _ (by simp only [A8]; omega), hother _ (by simp only [D8]; omega),
      hother _ (by simp only [C8]; omega)]
    exact hsh.castle_bq hk he1 he2
  · rw [recoloured_target]
    rintro ⟨hbr, hde⟩
    have hdst : m.dst = b.en_passant_square := by
      rcases hbr with ⟨_, _, e⟩ | ⟨_, _, e⟩ <;> exact e
    cases hc : b.side_to_move
    · rw [hc] at hrank hep hpawn hread
      simp only [if_true] at hrank hep hpawn hread
      rcases hbr with ⟨q1, q2, _⟩ | ⟨q1, q2, _⟩
      · have hne : m.src ≠ p := by
          intro e
          rw [e, hread, if_pos rfl] at q1
          exact absurd q1 (by decide)
        rw [hread, if_neg hne] at q1
        have hpw := hsh.pawn (Or.inl q1) 8 (by rw [hc]; rfl)
        have hemp : b.sq m.dst = EMPTY := by rw [hdst]; exact hempty
        rcases hpw with ⟨r1, _⟩ | ⟨_, r2, _⟩ | ⟨_, r2⟩
        · omega
        · rw [hc] at r2; simp only [if_true] at r2; omega
        · exact r2 hemp
      · have hne : m.src ≠ p := by omega
        rw [hread, if_neg hne] at q1
        exact hown2.2.1 hc (by
          have : b.sq m.src = BP := q1
          rw [this])
    · rw [hc] at hrank hep hpawn hread
      simp only [reduceCtorEq, if_false] at hrank hep hpawn hread
      rcases hbr with ⟨q1, q2, _⟩ | ⟨q1, q2, _⟩
      · have hne : m.src ≠ p := by omega
        rw [hread, if_neg hne] at q1
        exact hown2.2.2 hc (by
          have : b.sq m.src = WP := q1
          rw [this]; decide)
      · have hne : m.src ≠ p := by
          intro e
          rw [e, hread, if_pos rfl] at q1
          exact absurd q1 (by decide)
        rw [hread, if_neg hne] at q1
        have hpw := hsh.pawn (Or.inr q1) (-8) (by rw [hc]; rfl)
        have hemp : b.sq m.dst = EMPTY := by rw [hdst]; exact hempty
        rcases hpw with ⟨r1, _⟩ | ⟨_, r2, _⟩ | ⟨_, r2⟩
        · omega
        · rw [hc] at r2; simp only [reduceCtorEq, if_false] at r2; omega
        · exact r2 hemp

theorem legal_step_board (T : Tables) (acc : List Move) (x y : Board) (m : Move)
    (h : (make_move x m EMPTY EMPTY).ok = true ∧
      unmake_move (make_move x m EMPTY EMPTY).board m (make_move x m EMPTY EMPTY).captured_piece
        (make_move x m EMPTY EMPTY).moved_piece = y) :
    ∃ acc2, legal_step T (acc, x) m = (acc2, y) := by
  unfold legal_step
  simp only []
  rw [if_neg (by rw [h.1]; simp), h.2]
  exact ⟨_, rfl⟩

theorem legal_fold_recoloured (T : Tables) (b : Board) (h : PushOnTarget b) (l : List Move)
    (hl : ∀ m ∈ l, PseudoShape b m ∧
      (m.promotion ≠ EMPTY → m.dst / 8 = (if b.side_to_move = WHITE then 7 else 0)))
    (acc : List Move) :
    (l.foldl (legal_step T) (acc, recoloured b)).2 = recoloured b := by
  induction l generalizing acc with
  | nil => rfl
  | cons a l ih =>
    have ha := hl a (List.mem_cons_self _ _)
    obtain ⟨acc2, e⟩ := legal_step_board T acc _ _ a
      (recoloured_round_trip b h a EMPTY EMPTY ha.1 ha.2)
    rw [List.foldl_cons, e]
    exact ih (fun m hm => hl m (List.mem_cons_of_mem _ hm)) acc2

theorem legal_fold_board (T : Tables) (b : Board) (l : List Move)
    (hl : ∀ m ∈ l, PseudoShape b m ∧
      (m.promotion ≠ EMPTY → m.dst / 8 = (if b.side_to_move = WHITE then 7 else 0)))
    (acc : List Move) :
    ((∃ m ∈ l, ((getSq b.squares m.src = WP ∧ m.src / 8 = 4 ∧ m.dst = b.en_passant_square) ∨
        (getSq b.squares m.src = BP ∧ m.src / 8 = 3 ∧ m.dst = b.en_passant_square)) ∧
       getSq b.squares m.dst = EMPTY) ∧
      (l.foldl (legal_step T) (acc, b)).2 = recoloured b) ∨
    ((∀ m ∈ l, ¬ (((getSq b.squares m.src = WP ∧ m.src / 8 = 4 ∧ m.dst = b.en_passant_square) ∨
        (getSq b.squares m.src = BP ∧ m.src / 8 = 3 ∧ m.dst = b.en_passant_square)) ∧
       getSq b.squares m.dst = EMPTY)) ∧
      (l.foldl (legal_step T) (acc, b)).2 = b) := by
  induction l generalizing acc with
  | nil => exact Or.inr ⟨fun m hm => absurd hm (List.not_mem_nil m), rfl⟩
  | cons a l ih =>
    have ha := hl a (List.mem_cons_self _ _)
    have hl2 : ∀ m ∈ l, PseudoShape b m ∧
        (m.promotion ≠ EMPTY → m.dst / 8 = (if b.side_to_move = WHITE then 7 else 0)) :=
      fun m hm => hl m (List.mem_cons_of_mem _ hm)
    rw [List.foldl_cons]
    by_cases hbr : ((getSq b.squares a.src = WP ∧ a.src / 8 = 4 ∧
        a.dst = b.en_passant_square) ∨
        (getSq b.squares a.src = BP ∧ a.src / 8 = 3 ∧ a.dst = b.en_passant_square)) ∧
        getSq b.squares a.dst = EMPTY
    · left
      have hpush := (push_of_branch b a ha.1 hbr).1
      have hprom : a.promotion = EMPTY := by
        by_contra hne
        have hrk := ha.2 hne
        rcases hbr.1 with ⟨q1, q2, q3⟩ | ⟨q1, q2, q3⟩
        · have hown := ha.1.own
          have hsd : b.side_to_move = WHITE := by
            cases hs : b.side_to_move
            · rfl
            · exfalso
              apply hown
              have : b.sq a.src = WP := q1
              rw [this, hs]
              exact Or.inr (Or.inr ⟨rfl, by decide⟩)
          have hpw := ha.1.pawn (Or.inl q1) 8 (by rw [hsd]; rfl)
          rw [hsd] at hrk hpw
          simp only [if_true] at hrk hpw
          omega
        · have hown := ha.1.own
          have hsd : b.side_to_move = BLACK := by
            cases hs : b.side_to_move
            · exfalso
              apply hown
              have : b.sq a.src = BP := q1
              rw [this, hs]
              exact Or.inr (Or.inl ⟨rfl, by decide⟩)
            · rfl
          have hpw := ha.1.pawn (Or.inr q1) (-8) (by rw [hsd]; rfl)
          rw [hsd] at hrk hpw
          simp only [reduceCtorEq, if_false] at hrk hpw
          omega
      obtain ⟨acc2, e⟩ := legal_step_board T acc _ _ a
        (branch_round_trip b a EMPTY EMPTY ha.1 hbr hprom)
      rw [e]
      exact ⟨⟨a, List.mem_cons_self _ _, hbr⟩, legal_fold_recoloured T b hpush l hl2 acc2⟩
    · obtain ⟨acc2, e⟩ := legal_step_board T acc _ _ a
        (round_trip_of_branch b a EMPTY EMPTY ha.1 hbr)
      rw [e]
      rcases ih hl2 acc2 with ⟨⟨m, hm, hmb⟩, hf⟩ | ⟨hall, hf⟩
      · exact Or.inl ⟨⟨m, List.mem_cons_of_mem _ hm, hmb⟩, hf⟩
      · refine Or.inr ⟨?_, hf⟩
        intro m hm
        rcases List.mem_cons.mp hm with rfl | hm2
        · exact hbr
        · exact hall m hm2

/-- The board `generate_legal_moves` leaves: the board it was given, but for
the pawn behind the en-passant target, which comes back recoloured. -/
theorem legal_moves_board (T : Tables) (hT : T.InRange) (b : Board) :
    (PushOnTarget b → (generate_legal_moves T b).2 = recoloured b) ∧
    (¬ PushOnTarget b → (generate_legal_moves T b).2 = b) := by
  have hl : ∀ m ∈ generate_pseudo_legal_moves T b, PseudoShape b m ∧
      (m.promotion ≠ EMPTY → m.dst / 8 = (if b.side_to_move = WHITE then 7 else 0)) :=
    fun m hm => ⟨pseudo_shape T hT b m hm, pseudo_promotion_rank T hT b m hm⟩
  have key := legal_fold_board T b _ hl []
  unfold generate_legal_moves
  constructor
  · intro hp
    rcases key with ⟨_, hf⟩ | ⟨hall, _⟩
    · exact hf
    · obtain ⟨m, hm, hbr⟩ := push_generated T b hp
      exact absurd hbr (hall m hm)
  · intro hp
    rcases key with ⟨⟨m, hm, hbr⟩, _⟩ | ⟨_, hf⟩
    · exact absurd (push_of_branch b m (hl m hm).1 hbr).1 hp
    · exact hf

theorem recoloured_not_push (b : Board) (h : PushOnTarget b) : ¬ PushOnTarget (recoloured b) := by
  obtain ⟨p, hp1, hp2, hrank, hep, hpawn, hempty, hsq⟩ := push_data b h
  have hread : getSq (recoloured b).squares p = (if b.side_to_move = WHITE then BP else WP) := by
    rw [hsq, getSq_setSq_same _ _ _ (by omega) (by split <;> decide)]
  unfold PushOnTarget Board.sq
  rw [recoloured_side, recoloured_target]
  rintro ⟨_, ⟨h1, h2, _⟩ | ⟨h1, h2, _⟩⟩
  · rw [h1] at hep hread
    simp only [if_true] at hep hread
    have e : b.en_passant_square - 8 = p := by omega
    rw [e, hread] at h2
    exact absurd h2 (by decide)
  · rw [h1] at hep hread
    simp only [reduceCtorEq, if_false] at hep hread
    have e : b.en_passant_square + 8 = p := by omega
    rw [e, hread] at h2
    exact absurd h2 (by decide)

theorem recoloured_occupied (b : Board) (h : PushOnTarget b) :
    occupied (recoloured b) = occupied b := by
  obtain ⟨p, hp1, hp2, hrank, hep, hpawn, hempty, hsq⟩ := push_data b h
  unfold occupied Board.sq
  congr 1
  apply List.filter_congr
  intro i _
  rw [hsq, getSq_setSq _ _ _ _ (by omega) (by split <;> decide)]
  by_cases e : (i : Int) = p
  · rw [if_pos e, e, hpawn]
    cases b.side_to_move <;> simp
  · rw [if_neg e]

theorem legal_moves_safe (T : Tables) (hT : T.InRange) (b : Board) :
    ¬ PushOnTarget (generate_legal_moves T b).2 ∧
    occupied (generate_legal_moves T b).2 = occupied b := by
  by_cases hp : PushOnTarget b
  · rw [(legal_moves_board T hT b).1 hp]
    exact ⟨recoloured_not_push b hp, recoloured_occupied b hp⟩
  · rw [(legal_moves_board T hT b).2 hp]
    exact ⟨hp, rfl⟩

/-! ## A capture empties one square -/

theorem filter_length_drop (l : List Nat) (hnd : l.Nodup) (p q : Nat → Bool) (a : Nat)
    (ha : a ∈ l) (hpa : p a = true) (hqa : q a = false) (h : ∀ i ∈ l, i ≠ a → q i = p i) :
    (l.filter q).length + 1 = (l.filter p).length := by
  induction l with
  | nil => exact absurd ha (List.not_mem_nil a)
  | cons x l ih =>
    rw [List.nodup_cons] at hnd
    rcases List.mem_cons.mp ha with rfl | hmem
    · rw [List.filter_cons_of_pos hpa, List.filter_cons_of_neg (by rw [hqa]; simp)]
      have hsame : l.filter q = l.filter p := by
        apply List.filter_congr
        intro i hi
        exact h i (List.mem_cons_of_mem _ hi) (fun e => hnd.1 (e ▸ hi))
      rw [hsame, List.length_cons]
    · have hxa : x ≠ a := fun e => hnd.1 (e ▸ hmem)
      have hx := h x (List.mem_cons_self _ _) hxa
      have ih2 := ih hnd.2 hmem (fun i hi => h i (List.mem_cons_of_mem _ hi))
      cases hpx : p x
      · rw [List.filter_cons_of_neg (by simp [hx, hpx]),
          List.filter_cons_of_neg (by simp [hpx])]
        exact ih2
      · rw [List.filter_cons_of_pos hpx, List.filter_cons_of_pos (by rw [hx, hpx]),
          List.length_cons, List.length_cons, ih2]

theorem castle_rook_of_capture (s : Nat) (p : Piece) (src dst : Int)
    (h1 : p = WK → src = E1 → dst ≠ G1 ∧ dst ≠ C1)
    (h2 : p = BK → src = E8 → dst ≠ G8 ∧ dst ≠ C8) :
    castle_rook s p src dst = s := by
  unfold castle_rook
  by_cases c1 : p = WK ∧ src = E1
  · rw [if_pos c1, if_neg (h1 c1.1 c1.2).1, if_neg (h1 c1.1 c1.2).2]
  · rw [if_neg c1]
    by_cases c2 : p = BK ∧ src = E8
    · rw [if_pos c2, if_neg (h2 c2.1 c2.2).1, if_neg (h2 c2.1 c2.2).2]
    · rw [if_neg c2]

/-- A generated move to an occupied square leaves one occupied square less. -/
theorem capture_occupied (b : Board) (m : Move) (c0 m0 : Piece) (hsh : PseudoShape b m)
    (hcap : b.sq m.dst ≠ EMPTY) :
    occupied (make_move b m c0 m0).board + 1 = occupied b := by
  have hs := hsh.src_range
  have hd := hsh.dst_range
  have hown := hsh.own
  unfold empty_or_theirs at hown
  have hmoved : getSq b.squares m.src ≠ EMPTY := fun h0 => hown (Or.inl h0)
  have hcap2 : getSq b.squares m.dst ≠ EMPTY := hcap
  have hne : ¬ (((getSq b.squares m.src = WP ∧ m.src / 8 = 4 ∧ m.dst = b.en_passant_square) ∨
        (getSq b.squares m.src = BP ∧ m.src / 8 = 3 ∧ m.dst = b.en_passant_square)) ∧
       getSq b.squares m.dst = EMPTY) := fun h => hcap2 h.2
  have hx : (if m.promotion ≠ EMPTY then m.promotion else getSq b.squares m.src) ≠ EMPTY := by
    split
    · next hp => exact hp
    · exact hmoved
  have hx13 : (if m.promotion ≠ EMPTY then m.promotion else getSq b.squares m.src) < 13 := by
    split
    · exact hsh.promo_lt
    · exact getSq_lt _ _
  have hcr : ∀ s, castle_rook s (getSq b.squares m.src) m.src m.dst = s := by
    intro s
    apply castle_rook_of_capture
    · intro hk he
      constructor
      · intro hg
        exact hcap (by rw [hg]; exact (hsh.castle_wk hk he hg).2.2)
      · intro hg
        exact hcap (by rw [hg]; exact (hsh.castle_wq hk he hg).2.2)
    · intro hk he
      constructor
      · intro hg
        exact hcap (by rw [hg]; exact (hsh.castle_bk hk he hg).2.2)
      · intro hg
        exact hcap (by rw [hg]; exact (hsh.castle_bq hk he hg).2.2)
  unfold make_move
  simp only []
  rw [if_neg (by omega)]
  simp only [hne, decide_False, Bool.false_eq_true, if_false]
  rw [hcr]
  unfold occupied Board.sq
  simp only []
  apply filter_length_drop allSquares (List.nodup_range 64) _ _ m.src.toNat
  · simp only [allSquares, List.mem_range]; omega
  · rw [Int.toNat_of_nonneg hs.1]
    simpa using hmoved
  · rw [Int.toNat_of_nonneg hs.1, getSq_setSq_same _ _ _ hs.1 (by decide)]
    simp
  · intro i _ hi
    have hi2 : (i : Int) ≠ m.src := by omega
    rw [getSq_setSq _ _ _ _ hs.1 (by decide), if_neg hi2,
      getSq_setSq _ _ _ _ hd.1 hx13]
    by_cases e : (i : Int) = m.dst
    · rw [if_pos e, e]
      simp only [ne_eq, hx, not_false_eq_true, decide_True, hcap2]
    · rw [if_neg e]

/-! ## Termination of the capture search -/

theorem capture_list_capture (board : Board) (moves : List Move) (sm : ScoredMove)
    (h : sm ∈ capture_list board moves) : board.sq sm.move.dst ≠ EMPTY := by
  unfold capture_list at h
  rw [List.mem_map] at h
  obtain ⟨m, hm, rfl⟩ := h
  simpa using (List.mem_filter.mp hm).2

theorem quiescence_loop_returns (E : Env) (b : Board)
    (recurse : SearchState → Int → Int → Option (Int × SearchState))
    (hrec : ∀ (m : Move) (s : SearchState) (a c : Int), PseudoShape b m → b.sq m.dst ≠ EMPTY →
      s.board = (make_move b m EMPTY EMPTY).board →
      ∃ v s2, recurse s a c = some (v, s2) ∧ s2.board = s.board)
    (hb : ¬ PushOnTarget b) (beta : Int) (l : List ScoredMove)
    (hl : ∀ sm ∈ l, PseudoShape b sm.move ∧ b.sq sm.move.dst ≠ EMPTY)
    (s : SearchState) (hs : s.board = b) (alpha : Int) :
    ∃ v s2, quiescence_loop E recurse beta l s alpha = some (v, s2) ∧ s2.board = b := by
  induction l generalizing s alpha with
  | nil => exact ⟨alpha, s, rfl, hs⟩
  | cons sm rest ih =>
    obtain ⟨hsh, hcap⟩ := hl sm (List.mem_cons_self _ _)
    have hl2 : ∀ x ∈ rest, PseudoShape b x.move ∧ b.sq x.move.dst ≠ EMPTY :=
      fun x hx => hl x (List.mem_cons_of_mem _ hx)
    have ht : (is_time_up E s).2.board = b := hs
    unfold quiescence_loop
    simp only []
    by_cases hc : (is_time_up E s).1 = true
    · rw [if_pos hc]
      exact ⟨_, _, rfl, ht⟩
    · rw [if_neg hc, ht]
      obtain ⟨v, s2, hr, hs2⟩ := hrec sm.move
        { (is_time_up E s).2 with board := (make_move b sm.move EMPTY EMPTY).board } (-beta)
        (-alpha) hsh hcap rfl
      rw [hr]
      simp only []
      have hback : (s2.unmake sm.move (make_move b sm.move EMPTY EMPTY).captured_piece
          (make_move b sm.move EMPTY EMPTY).moved_piece).board = b := by
        unfold SearchState.unmake
        simp only []
        rw [hs2]
        exact (round_trip_of_branch b sm.move EMPTY EMPTY hsh
          (no_branch_of_not_push b sm.move hsh hb)).2
      by_cases hbeta : -v ≥ beta
      · rw [if_pos hbeta]
        exact ⟨_, _, rfl, hback⟩
      · rw [if_neg hbeta]
        exact ih hl2 _ hback _

/-- With more nested calls allowed than squares are occupied, `quiescence`
returns, and it leaves the board the generator leaves. -/
theorem quiescence_returns (E : Env) (hT : E.tables.InRange)
    (hsort : ∀ l x, x ∈ E.sort l → x ∈ l) (fuel : Nat) (s : SearchState)
    (alpha beta ply : Int) (h : occupied s.board < fuel) :
    ∃ v s2, quiescence E fuel s alpha beta ply = some (v, s2) ∧
      s2.board = (generate_legal_moves E.tables s.board).2 := by
  induction fuel generalizing s alpha beta ply with
  | zero => exact absurd h (Nat.not_lt_zero _)
  | succ n ih =>
    obtain ⟨hsafe, hocc⟩ := legal_moves_safe E.tables hT s.board
    have hfix := (legal_moves_board E.tables hT (generate_legal_moves E.tables s.board).2).2 hsafe
    unfold quiescence
    simp only []
    have hg : (s.legal_moves E).2.board = (generate_legal_moves E.tables s.board).2 := rfl
    by_cases c1 : (s.legal_moves E).1.isEmpty = true
    · rw [if_pos c1]
      exact ⟨_, _, rfl, hg⟩
    · rw [if_neg c1]
      by_cases c2 : E.evaluate (s.legal_moves E).2.board ≥ beta
      · rw [if_pos c2]
        exact ⟨_, _, rfl, hg⟩
      · rw [if_neg c2]
        have hg2 : ((s.legal_moves E).2.legal_moves E).2.board =
            (generate_legal_moves E.tables s.board).2 := by
          show (generate_legal_moves E.tables (generate_legal_moves E.tables s.board).2).2 = _
          exact hfix
        have hmoves : ((s.legal_moves E).2.legal_moves E).1 =
            (generate_legal_moves E.tables (generate_legal_moves E.tables s.board).2).1 := rfl
        rw [hg2]
        apply quiescence_loop_returns E (generate_legal_moves E.tables s.board).2 _ _ hsafe
        · intro sm hsm
          have h1 := hsort _ _ hsm
          have h2 := capture_list_move _ _ sm h1
          rw [hmoves] at h2
          exact ⟨pseudo_shape E.tables hT _ _ (legal_subset_pseudo E.tables _ _ h2),
            capture_list_capture _ _ sm h1⟩
        · exact hg2
        · intro m s1 a c hsh hcap hs1
          have hchild := capture_occupied _ m EMPTY EMPTY hsh hcap
          have hne := no_branch_of_not_push _ m hsh hsafe
          have hsafe1 : ¬ PushOnTarget s1.board := by
            rw [hs1]
            exact not_push_of_epsafe _ (epsafe_of_branch _ m EMPTY EMPTY hsh hne)
          obtain ⟨v, s2, hq, hs2⟩ := ih s1 a c (ply + 1) (by rw [hs1]; omega)
          refine ⟨v, s2, hq, ?_⟩
          rw [hs2]
          exact (legal_moves_board E.tables hT s1.board).2 hsafe1

theorem occupied_le (b : Board) : occupied b ≤ 64 := by
  unfold occupied
  exact le_trans (List.length_filter_le _ _) (by simp [allSquares])

/-- C33. `quiescence` returns on every position, whatever the clock answers:
for every environment whose tables hold squares of the board and whose sort
keeps the elements, every state, window and ply, a nesting bound above the
number of occupied squares (at most 64) is enough for a result.  On the board
`b1` its loop runs on (the board as `generate_legal_moves` leaves it, with as
many occupied squares as the board of the call), every move of the sorted
capture list is a move `generate_legal_moves` returns whose destination holds
a piece of the opponent, and `make_move` of it leaves exactly one occupied
square less. -/
theorem quiescence_terminates (E : Env) (hT : E.tables.InRange) (hE : E.SortOk)
    (s : SearchState) (alpha beta ply : Int) (fuel : Nat) (h : occupied s.board < fuel) :
    (∃ r, quiescence E fuel s alpha beta ply = some r) ∧
    occupied s.board ≤ 64 ∧
    occupied (generate_legal_moves E.tables s.board).2 = occupied s.board ∧
    ∀ sm ∈ E.sort (capture_list (generate_legal_moves E.tables s.board).2
        (generate_legal_moves E.tables (generate_legal_moves E.tables s.board).2).1),
      sm.move ∈ (generate_legal_moves E.tables (generate_legal_moves E.tables s.board).2).1 ∧
      (generate_legal_moves E.tables s.board).2.sq sm.move.dst ≠ EMPTY ∧
      theirs (generate_legal_moves E.tables s.board).2.side_to_move
        ((generate_legal_moves E.tables s.board).2.sq sm.move.dst) ∧
      occupied (make_move (generate_legal_moves E.tables s.board).2 sm.move EMPTY EMPTY).board + 1
        = occupied (generate_legal_moves E.tables s.board).2 := by
  have hsort : ∀ l x, x ∈ E.sort l → x ∈ l := fun l x hx => (hE l).1.subset hx
  refine ⟨?_, occupied_le _, (legal_moves_safe E.tables hT s.board).2, ?_⟩
  · obtain ⟨v, s2, hq, _⟩ := quiescence_returns E hT hsort fuel s alpha beta ply h
    exact ⟨_, hq⟩
  · intro sm hsm
    have h1 := hsort _ _ hsm
    have h2 := capture_list_move _ _ sm h1
    have h3 := capture_list_capture _ _ sm h1
    have h4 := legal_subset_pseudo E.tables _ _ h2
    have h5 := pseudo_dst E.tables _ _ h4
    refine ⟨h2, h3, ?_, capture_occupied _ _ EMPTY EMPTY (pseudo_shape E.tables hT _ _ h4) h3⟩
    unfold empty_or_theirs at h5
    unfold theirs
    rcases h5 with h5 | h5
    · exact absurd h5 h3
    · exact h5

theorem quiescence_terminates_witness :
    sample_env.tables.InRange ∧ sample_env.SortOk ∧
    occupied (initial_state fen_knight_takes_pawn).board < 5 ∧
    ((∃ r, quiescence sample_env 5 (initial_state fen_knight_takes_pawn) (-INF) INF 0 = some r) ∧
    occupied (initial_state fen_knight_takes_pawn).board ≤ 64 ∧
    occupied (generate_legal_moves sample_env.tables
      (initial_state fen_knight_takes_pawn).board).2 =
        occupied (initial_state fen_knight_takes_pawn).board ∧
    ∀ sm ∈ sample_env.sort (capture_list (generate_legal_moves sample_env.tables
          (initial_state fen_knight_takes_pawn).board).2
        (generate_legal_moves sample_env.tables (generate_legal_moves sample_env.tables
          (initial_state fen_knight_takes_pawn).board).2).1),
      sm.move ∈ (generate_legal_moves sample_env.tables (generate_legal_moves sample_env.tables
          (initial_state fen_knight_takes_pawn).board).2).1 ∧
      (generate_legal_moves sample_env.tables
        (initial_state fen_knight_takes_pawn).board).2.sq sm.move.dst ≠ EMPTY ∧
      theirs (generate_legal_moves sample_env.tables
          (initial_state fen_knight_takes_pawn).board).2.side_to_move
        ((generate_legal_moves sample_env.tables
          (initial_state fen_knight_takes_pawn).board).2.sq sm.move.dst) ∧
      occupied (make_move (generate_legal_moves sample_env.tables
          (initial_state fen_knight_takes_pawn).board).2 sm.move EMPTY EMPTY).board + 1
        = occupied (generate_legal_moves sample_env.tables
          (initial_state fen_knight_takes_pawn).board).2) :=
  ⟨geometry_inRange, sample_env_sort_ok, by decide,
    quiescence_terminates sample_env geometry_inRange sample_env_sort_ok
      (initial_state fen_knight_takes_pawn) (-INF) INF 0 5 (by decide)⟩

/-! ## Termination of the search -/

theorem ite_some_returns {α : Type} (c : Prop) [Decidable c] (x : α) (y : Option α)
    (hy : ∃ r, y = some r) : ∃ r, (if c then some x else y) = some r := by
  split
  · exact ⟨_, rfl⟩
  · exact hy

theorem alpha_beta_loop_returns (E : Env)
    (recurse : SearchState → Int → Int → Option (Int × SearchState))
    (hrec : ∀ s a c, ∃ r, recurse s a c = some r) (depth beta ply : Int)
    (l : List ScoredMove) (s : SearchState) (alpha best : Int) :
    ∃ r, alpha_beta_loop E recurse depth beta ply l s alpha best = some r := by
  induction l generalizing s alpha best with
  | nil => exact ⟨_, rfl⟩
  | cons sm rest ih =>
    unfold alpha_beta_loop
    simp only []
    split
    · exact ⟨_, rfl⟩
    · split
      · exact ih _ _ _
      · obtain ⟨r, hr⟩ := hrec
          { (flag_or_time_up E s).2 with
            board := (make_move (flag_or_time_up E s).2.board sm.move EMPTY EMPTY).board }
          (-beta) (-alpha)
        rw [hr]
        exact ite_some_returns _ _ _ (ih _ _ _)

/-- With more nested calls allowed than `depth + 65`, `alpha_beta` returns. -/
theorem alpha_beta_returns (E : Env) (hT : E.tables.InRange)
    (hsort : ∀ l x, x ∈ E.sort l → x ∈ l) (fuel : Nat) (s : SearchState)
    (depth alpha beta ply : Int) (h : depth.toNat + 65 < fuel) :
    ∃ r, alpha_beta E fuel s depth alpha beta ply = some r := by
  induction fuel generalizing s depth alpha beta ply with
  | zero => exact absurd h (Nat.not_lt_zero _)
  | succ n ih =>
    unfold alpha_beta
    simp only []
    split
    · exact ⟨_, rfl⟩
    · split
      · have hocc := occupied_le (flag_or_time_up E s).2.board
        obtain ⟨v, s2, hq, _⟩ := quiescence_returns E hT hsort n (flag_or_time_up E s).2
          alpha beta ply (by omega)
        exact ⟨_, hq⟩
      · split
        · exact ⟨_, rfl⟩
        · exact alpha_beta_loop_returns E _
            (fun s a c => ih s (depth - 1) a c (ply + 1) (by omega)) _ _ _ _ _ _ _

theorem root_loop_returns (E : Env) (recurse : SearchState → Option (Int × SearchState))
    (hrec : ∀ s, ∃ r, recurse s = some r) (l : List Move) (s : SearchState)
    (alpha current_best_score : Int) (current_best_move : Move) :
    ∃ r, root_loop E recurse l s alpha current_best_score current_best_move = some r := by
  induction l generalizing s alpha current_best_score current_best_move with
  | nil => exact ⟨_, rfl⟩
  | cons m rest ih =>
    unfold root_loop
    simp only []
    split
    · exact ⟨_, rfl⟩
    · split
      · exact ih _ _ _ _
      · obtain ⟨r, hr⟩ := hrec
          { (flag_or_time_up E s).2 with
            board := (make_move (flag_or_time_up E s).2.board m EMPTY EMPTY).board }
        rw [hr]
        exact ih _ _ _ _

theorem depth_loop_returns (E : Env) (hT : E.tables.InRange)
    (hsort : ∀ l x, x ∈ E.sort l → x ∈ l) (fuel : Nat) (l : List Int)
    (hl : ∀ d ∈ l, d.toNat + 65 < fuel) (s : SearchState) (best_score : Int)
    (best_move : Move) :
    ∃ r, depth_loop E fuel l s best_score best_move = some r := by
  induction l generalizing s best_score best_move with
  | nil => exact ⟨_, rfl⟩
  | cons depth rest ih =>
    have ih2 := ih fun d hd => hl d (List.mem_cons_of_mem _ hd)
    have hd := hl depth (List.mem_cons_self _ _)
    unfold depth_loop
    simp only []
    split
    · exact ⟨_, rfl⟩
    · split
      · exact ⟨_, rfl⟩
      · obtain ⟨r, hr⟩ := root_loop_returns E
          (fun s => alpha_beta E fuel s (depth - 1) (-INF) INF 1)
          (fun s => alpha_beta_returns E hT hsort fuel s (depth - 1) (-INF) INF 1 (by omega))
          ((is_time_up E s).2.legal_moves E).1 ((is_time_up E s).2.legal_moves E).2
          (-INF) (-INF) best_move
        rw [hr]
        simp only []
        split
        · exact ih2 _ _ _
        · exact ih2 _ _ _

/-- With more nested calls allowed than `max_depth + 65`, `find_best_move`
returns. -/
theorem find_best_move_returns (E : Env) (hT : E.tables.InRange)
    (hsort : ∀ l x, x ∈ E.sort l → x ∈ l) (fuel : Nat) (board : Board) (max_depth : Int)
    (h : max_depth.toNat + 65 < fuel) :
    ∃ r, find_best_move E fuel board max_depth = some r := by
  unfold find_best_move
  simp only []
  generalize (SearchState.legal_moves E (initial_state board)).1 = moves
  cases moves with
  | nil => exact ⟨_, rfl⟩
  | cons first _ =>
    apply depth_loop_returns E hT hsort fuel
    intro d hd
    have := depths_le max_depth d hd
    omega

/-- A call of `alpha_beta` with `ply < 1`, or with `ply + depth` different
from the iteration, fails the check of the node. -/
theorem alpha_beta_checked_node (E : Env) (d : Int) (fuel : Nat) (s : SearchState)
    (depth alpha beta ply : Int) (h : ¬ (1 ≤ ply ∧ ply + depth = d)) :
    alpha_beta_checked ply_checks E d fuel s depth alpha beta ply = none := by
  cases fuel with
  | zero => rfl
  | succ n =>
    unfold alpha_beta_checked
    have hnode : ply_checks.node d depth ply = false := by
      unfold ply_checks
      simp only [decide_eq_false_iff_not]
      exact h
    rw [hnode]
    rfl

/-- C32. For every `max_depth <= 64`, the run of `find_best_move` that checks
`ply >= 1` and `ply + depth = d` on entry to every call of `alpha_beta` made
during depth iteration `d`, and `1 <= ply <= 63` at every access
`killer_moves[ply]` (the reads of the move ordering and `record_killer`), never
fails a check: with more nested calls allowed than `max_depth + 65` it
returns, and it returns what the unchecked run returns (the tables holding
squares of the board, the sort keeping the elements, for every clock and
board); and `63 < MAX_PLY = 64`. -/
theorem killer_ply_in_range (E : Env) (hT : E.tables.InRange) (hE : E.SortOk) (fuel : Nat)
    (board : Board) (max_depth : Int) (h : max_depth ≤ 64)
    (hfuel : max_depth.toNat + 65 < fuel) :
    (∃ r, find_best_move_checked ply_checks E fuel board max_depth = some r ∧
      find_best_move E fuel board max_depth = some r) ∧
    (∀ ply, ply_checks.index ply = true → 1 ≤ ply ∧ ply ≤ 63 ∧ ply < MAX_PLY) ∧
    MAX_PLY = 64 := by
  have heq : find_best_move_checked ply_checks E fuel board max_depth =
      find_best_move E fuel board max_depth := by
    unfold find_best_move_checked find_best_move
    simp only []
    generalize (SearchState.legal_moves E (initial_state board)).1 = moves
    cases moves with
    | nil => rfl
    | cons first _ =>
      exact depth_loop_checked_eq E fuel _
        (fun d hd => le_trans (depths_le max_depth d hd) h) _ _ _
  refine ⟨?_, ?_, rfl⟩
  · obtain ⟨r, hr⟩ := find_best_move_returns E hT (fun l x hx => (hE l).1.subset hx) fuel board
      max_depth hfuel
    exact ⟨r, by rw [heq]; exact hr, hr⟩
  · intro ply hp
    unfold ply_checks at hp
    simp only [decide_eq_true_eq] at hp
    unfold MAX_PLY
    omega

theorem killer_ply_in_range_witness :
    sample_env.tables.InRange ∧ sample_env.SortOk ∧ (64 : Int) ≤ 64 ∧
    (64 : Int).toNat + 65 < 130 ∧
    ((∃ r, find_best_move_checked ply_checks sample_env 130 startpos 64 = some r ∧
      find_best_move sample_env 130 startpos 64 = some r) ∧
    (∀ ply, ply_checks.index ply = true → 1 ≤ ply ∧ ply ≤ 63 ∧ ply < MAX_PLY) ∧
    MAX_PLY = 64) :=
  ⟨geometry_inRange, sample_env_sort_ok, le_refl 64, by decide,
    killer_ply_in_range sample_env geometry_inRange sample_env_sort_ok 130 startpos 64
      (le_refl 64) (by decide)⟩

end Tadfish
